import Mathlib

/-!
# Feedback analytics and recommendation scoring

A shallow embedding of the feedback pipeline of the tourism-portal backend:

* `src/processor/sentimentAIProcessor.js` (class `FeedbackSentimentAnalyzer`),
* `src/controller/sentimentAI.js` (`analyzeSingle`),
* `src/routes/feedback.js` (the submit, reprocess and statistics handlers, the scoring
  helpers, `getTopItems` and `generateInsights`).

Conventions of the embedding.

* JavaScript numbers are exact: a number is `NaN`, an infinity or a rational.  A decimal
  numeral beyond the range of the doubles is read as the engine reads it, as an infinity
  or as zero (`JS.Number.ofDecimal`).  The binary rounding of numerals and of arithmetic
  within that range, and the sign of zero, are outside the model: an exact result is the
  result of the code wherever that rounding does not change it, as it is for the scores
  of the averages `k / 5` of five ratings.
* Strings are sequences of Unicode characters; `JS.length` counts UTF-16 code units as
  the `length` property does.  `JS.toLowerCase` lowers the letters `A` to `Z` only,
  which is the method of the code on strings of ASCII characters.
* The external chat-completion call is an input: every call made by the code consumes
  one `CallOutcome` of an oracle, in the order in which the code awaits the calls.
* Wall-clock reads (`Date.now()`, `new Date()`) are an input `now` of each operation.
-/

namespace JS

/-! ## Numbers -/

/-- A JavaScript Number over exact rationals. -/
inductive Number where
  | nan
  | inf (negative : Bool)
  | fin (q : ℚ)
deriving DecidableEq

namespace Number

/-- Unary minus. -/
def neg : Number → Number
  | nan => nan
  | inf s => inf (!s)
  | fin q => fin (-q)

/-- The `+` operator on two Numbers. -/
def add : Number → Number → Number
  | nan, _ => nan
  | _, nan => nan
  | fin a, fin b => fin (a + b)
  | inf s, fin _ => inf s
  | fin _, inf s => inf s
  | inf s, inf t => if s = t then inf s else nan

/-- The `-` operator on two Numbers. -/
def sub (a b : Number) : Number := add a (neg b)

/-- The `*` operator on two Numbers. -/
def mul : Number → Number → Number
  | nan, _ => nan
  | _, nan => nan
  | fin a, fin b => fin (a * b)
  | inf s, fin b => if b = 0 then nan else inf (xor s (decide (b < 0)))
  | fin a, inf s => if a = 0 then nan else inf (xor s (decide (a < 0)))
  | inf s, inf t => inf (xor s t)

/-- The `/` operator on two Numbers (a zero divisor is read as `+0`). -/
def div : Number → Number → Number
  | nan, _ => nan
  | _, nan => nan
  | fin a, fin b =>
    if b = 0 then (if a = 0 then nan else inf (decide (a < 0))) else fin (a / b)
  | inf s, fin b => inf (xor s (decide (b < 0)))
  | fin _, inf _ => fin 0
  | inf _, inf _ => nan

/-- The `<=` operator on two Numbers. -/
def le : Number → Number → Bool
  | nan, _ => false
  | _, nan => false
  | fin a, fin b => decide (a ≤ b)
  | inf s, fin _ => s
  | fin _, inf s => !s
  | inf s, inf t => s || !t

/-- The `<` operator on two Numbers. -/
def lt : Number → Number → Bool
  | nan, _ => false
  | _, nan => false
  | fin a, fin b => decide (a < b)
  | inf s, fin _ => s
  | fin _, inf s => !s
  | inf s, inf t => s && !t

/-- Truthiness of a Number: `0` and `NaN` are falsy. -/
def truthy : Number → Bool
  | nan => false
  | inf _ => true
  | fin q => decide (q ≠ 0)

/-- The Number that a decimal numeral of exact value `q` denotes, as far as the range of
the doubles decides it.  A numeral is rounded to the nearest double, a tie going to the
even neighbour: from `2 ^ 1024 - 2 ^ 970` on (the largest double and half a unit in its
last place) the result is an infinity, up to `2 ^ (-1075)` (half the least positive
double) it is zero.  Between the two bounds the value is kept as it is written. -/
def ofDecimal (q : ℚ) : Number :=
  if (2 : ℚ) ^ 1024 - 2 ^ 970 ≤ |q| then inf (decide (q < 0))
  else if |q| ≤ 1 / 2 ^ 1075 then fin 0
  else fin q

end Number

namespace Math

/-- `Math.round`: the nearest integer, a tie going towards `+∞`. -/
def round : Number → Number
  | .nan => .nan
  | .inf s => .inf s
  | .fin q => .fin (⌊q + 1 / 2⌋ : ℤ)

/-- `Math.min` of two arguments. -/
def min (a b : Number) : Number :=
  match a, b with
  | .nan, _ => .nan
  | _, .nan => .nan
  | a, b => if Number.le a b then a else b

/-- `Math.max` of two arguments. -/
def max (a b : Number) : Number :=
  match a, b with
  | .nan, _ => .nan
  | _, .nan => .nan
  | a, b => if Number.le a b then b else a

end Math

/-! ## Strings -/

/-- The code points of `WhiteSpace` and `LineTerminator`: what `trim` strips, what
`\s` matches and what `parseFloat` skips. -/
def isWhiteSpace (c : Char) : Bool :=
  let n := c.toNat
  n == 0x09 || n == 0x0A || n == 0x0B || n == 0x0C || n == 0x0D || n == 0x20 ||
  n == 0xA0 || n == 0x1680 || (0x2000 ≤ n && n ≤ 0x200A) || n == 0x2028 ||
  n == 0x2029 || n == 0x202F || n == 0x205F || n == 0x3000 || n == 0xFEFF

/-- `String.prototype.trim`. -/
def trim (s : String) : String :=
  String.mk (((s.toList.dropWhile isWhiteSpace).reverse.dropWhile isWhiteSpace).reverse)

/-- The `length` property of a string: its number of UTF-16 code units. -/
def length (s : String) : Nat :=
  (s.toList.map (fun c => if c.toNat < 0x10000 then 1 else 2)).sum

/-- Lower-casing of one character (the letters `A` to `Z`; other characters are kept). -/
def lowerChar (c : Char) : Char :=
  if 65 ≤ c.toNat ∧ c.toNat ≤ 90 then Char.ofNat (c.toNat + 32) else c

/-- `String.prototype.toLowerCase`, on the ASCII letters: the letters `A` to `Z` are
lowered and every other character is kept.  On a string of ASCII characters this is the
whole of the method; the lowering of cased characters outside ASCII is not modelled. -/
def toLowerCase (s : String) : String :=
  String.mk (s.toList.map lowerChar)

/-- The characters of a string are all ASCII (below U+0080). -/
def isAscii (s : String) : Bool := s.toList.all (fun c => c.toNat < 128)

/-- `Array.prototype.join` on strings. -/
def join (sep : String) : List String → String
  | [] => ""
  | [x] => x
  | x :: y :: rest => x ++ sep ++ join sep (y :: rest)

/-- The pieces of a string between the occurrences of a separator character. -/
def splitOn (sep : Char) : List Char → List (List Char)
  | [] => [[]]
  | c :: cs =>
    match splitOn sep cs with
    | [] => [[]]
    | piece :: pieces => if c = sep then [] :: piece :: pieces else (c :: piece) :: pieces

/-! ## Values -/

/-- A JavaScript value as far as JSON text and property reads produce them. -/
inductive Value where
  | undefined
  | null
  | bool (b : Bool)
  | num (n : Number)
  | str (s : String)
  | arr (items : List Value)
  | obj (members : List (String × Value))

namespace Value

mutual
/-- Decidable equality of values. -/
def decEqValue : (a b : Value) → Decidable (a = b)
  | undefined, undefined => isTrue rfl
  | null, null => isTrue rfl
  | bool a, bool b =>
    if h : a = b then isTrue (by rw [h]) else isFalse (fun e => h (by cases e; rfl))
  | num a, num b =>
    if h : a = b then isTrue (by rw [h]) else isFalse (fun e => h (by cases e; rfl))
  | str a, str b =>
    if h : a = b then isTrue (by rw [h]) else isFalse (fun e => h (by cases e; rfl))
  | arr a, arr b =>
    match decEqItems a b with
    | isTrue h => isTrue (by rw [h])
    | isFalse h => isFalse (fun e => h (by cases e; rfl))
  | obj a, obj b =>
    match decEqMembers a b with
    | isTrue h => isTrue (by rw [h])
    | isFalse h => isFalse (fun e => h (by cases e; rfl))
  | undefined, null => isFalse (fun e => by cases e)
  | undefined, bool _ => isFalse (fun e => by cases e)
  | undefined, num _ => isFalse (fun e => by cases e)
  | undefined, str _ => isFalse (fun e => by cases e)
  | undefined, arr _ => isFalse (fun e => by cases e)
  | undefined, obj _ => isFalse (fun e => by cases e)
  | null, undefined => isFalse (fun e => by cases e)
  | null, bool _ => isFalse (fun e => by cases e)
  | null, num _ => isFalse (fun e => by cases e)
  | null, str _ => isFalse (fun e => by cases e)
  | null, arr _ => isFalse (fun e => by cases e)
  | null, obj _ => isFalse (fun e => by cases e)
  | bool _, undefined => isFalse (fun e => by cases e)
  | bool _, null => isFalse (fun e => by cases e)
  | bool _, num _ => isFalse (fun e => by cases e)
  | bool _, str _ => isFalse (fun e => by cases e)
  | bool _, arr _ => isFalse (fun e => by cases e)
  | bool _, obj _ => isFalse (fun e => by cases e)
  | num _, undefined => isFalse (fun e => by cases e)
  | num _, null => isFalse (fun e => by cases e)
  | num _, bool _ => isFalse (fun e => by cases e)
  | num _, str _ => isFalse (fun e => by cases e)
  | num _, arr _ => isFalse (fun e => by cases e)
  | num _, obj _ => isFalse (fun e => by cases e)
  | str _, undefined => isFalse (fun e => by cases e)
  | str _, null => isFalse (fun e => by cases e)
  | str _, bool _ => isFalse (fun e => by cases e)
  | str _, num _ => isFalse (fun e => by cases e)
  | str _, arr _ => isFalse (fun e => by cases e)
  | str _, obj _ => isFalse (fun e => by cases e)
  | arr _, undefined => isFalse (fun e => by cases e)
  | arr _, null => isFalse (fun e => by cases e)
  | arr _, bool _ => isFalse (fun e => by cases e)
  | arr _, num _ => isFalse (fun e => by cases e)
  | arr _, str _ => isFalse (fun e => by cases e)
  | arr _, obj _ => isFalse (fun e => by cases e)
  | obj _, undefined => isFalse (fun e => by cases e)
  | obj _, null => isFalse (fun e => by cases e)
  | obj _, bool _ => isFalse (fun e => by cases e)
  | obj _, num _ => isFalse (fun e => by cases e)
  | obj _, str _ => isFalse (fun e => by cases e)
  | obj _, arr _ => isFalse (fun e => by cases e)
/-- Decidable equality of lists of values. -/
def decEqItems : (a b : List Value) → Decidable (a = b)
  | [], [] => isTrue rfl
  | [], _ :: _ => isFalse (fun e => by cases e)
  | _ :: _, [] => isFalse (fun e => by cases e)
  | x :: xs, y :: ys =>
    match decEqValue x y, decEqItems xs ys with
    | isTrue h, isTrue t => isTrue (by rw [h, t])
    | isFalse h, _ => isFalse (fun e => h (by cases e; rfl))
    | _, isFalse t => isFalse (fun e => t (by cases e; rfl))
/-- Decidable equality of member lists. -/
def decEqMembers : (a b : List (String × Value)) → Decidable (a = b)
  | [], [] => isTrue rfl
  | [], _ :: _ => isFalse (fun e => by cases e)
  | _ :: _, [] => isFalse (fun e => by cases e)
  | (k, x) :: xs, (l, y) :: ys =>
    if hk : k = l then
      match decEqValue x y, decEqMembers xs ys with
      | isTrue h, isTrue t => isTrue (by rw [hk, h, t])
      | isFalse h, _ => isFalse (fun e => h (by cases e; rfl))
      | _, isFalse t => isFalse (fun e => t (by cases e; rfl))
    else isFalse (fun e => hk (by cases e; rfl))
end

instance : DecidableEq Value := decEqValue

/-- Truthiness: `undefined`, `null`, `false`, `0`, `NaN` and the empty string are falsy. -/
def truthy : Value → Bool
  | undefined => false
  | null => false
  | bool b => b
  | num n => n.truthy
  | str s => decide (s ≠ "")
  | arr _ => true
  | obj _ => true

/-- The `||` operator: the left operand when it is truthy, else the right one. -/
def or (a b : Value) : Value := if a.truthy then a else b

/-- An own property of an object built by `JSON.parse`: of several members with one
key the last one counts. -/
def ownProperty (members : List (String × Value)) (key : String) : Option Value :=
  (members.reverse.find? (fun m => m.1 == key)).map (fun m => m.2)

/-- The property read `data.key` for a key that no built-in prototype defines
(`sentiment`, `confidence`, `emotions`, `key_phrases`): `none` is the `TypeError` of a
read on `undefined` or `null`. -/
def getProp (data : Value) (key : String) : Option Value :=
  match data with
  | undefined => none
  | null => none
  | obj members => some ((ownProperty members key).getD undefined)
  | _ => some undefined

end Value

/-! ## Reads on object literals -/

/-- The names that every object literal inherits from `Object.prototype`. -/
def objectPrototypeKeys : List String :=
  ["constructor", "__proto__", "hasOwnProperty", "isPrototypeOf", "propertyIsEnumerable",
   "toLocaleString", "toString", "valueOf", "__defineGetter__", "__defineSetter__",
   "__lookupGetter__", "__lookupSetter__"]

/-- The expression `table[key] || 0` on an object literal `table` whose own members are
numbers.  An own member gives its number, an unknown key gives `0`; `none` stands for
the inherited member (a function or an object, truthy and not a number) that the read
finds under a name of `Object.prototype`. -/
def lookupOrZero (table : List (String × ℚ)) (key : String) : Option ℚ :=
  match table.find? (fun m => m.1 == key) with
  | some m => some m.2
  | none => if key ∈ objectPrototypeKeys then none else some 0

/-! ## parseFloat -/

/-- A decimal digit `0` to `9` (what `\d` matches). -/
def isDigit (c : Char) : Bool := 48 ≤ c.toNat && c.toNat ≤ 57

/-- The number written by a run of decimal digits. -/
def digitsValue (ds : List Char) : Nat :=
  ds.foldl (fun acc d => 10 * acc + (d.toNat - 48)) 0

/-- The factor `10 ^ e` of an exponent part, `e` given by its sign and its digits. -/
def pow10 (negative : Bool) (ds : List Char) : ℚ :=
  if negative then 1 / (10 : ℚ) ^ digitsValue ds else (10 : ℚ) ^ digitsValue ds

/-- The factor of the exponent part that starts a text (`1` when there is none). -/
def exponentPart : List Char → ℚ
  | [] => 1
  | e :: rest =>
    if e = 'e' ∨ e = 'E' then
      match rest with
      | '-' :: r => if r.takeWhile isDigit = [] then 1 else pow10 true (r.takeWhile isDigit)
      | '+' :: r => if r.takeWhile isDigit = [] then 1 else pow10 false (r.takeWhile isDigit)
      | r => if r.takeWhile isDigit = [] then 1 else pow10 false (r.takeWhile isDigit)
    else 1

/-- The value of the longest prefix that is an unsigned decimal literal, if there is one:
digits with an optional fraction and exponent, or a fraction alone. -/
def unsignedDecimal (cs : List Char) : Option ℚ :=
  let intDigits := cs.takeWhile isDigit
  let rest := cs.dropWhile isDigit
  match rest with
  | '.' :: r =>
    let fracDigits := r.takeWhile isDigit
    if intDigits = [] ∧ fracDigits = [] then none
    else if intDigits = [] then
      some (((digitsValue fracDigits : ℚ) / (10 : ℚ) ^ fracDigits.length) *
        exponentPart (r.dropWhile isDigit))
    else
      some (((digitsValue intDigits : ℚ) +
        (digitsValue fracDigits : ℚ) / (10 : ℚ) ^ fracDigits.length) *
        exponentPart (r.dropWhile isDigit))
  | _ =>
    if intDigits = [] then none
    else some ((digitsValue intDigits : ℚ) * exponentPart rest)

/-- The literal `Infinity` starts the text. -/
def startsWithInfinity (cs : List Char) : Bool :=
  cs.take 8 == ['I', 'n', 'f', 'i', 'n', 'i', 't', 'y']

/-- The global `parseFloat` on a string: leading white space is skipped and the longest
prefix that is a decimal literal is read; `NaN` when there is none. -/
def parseFloatString (s : String) : Number :=
  match s.toList.dropWhile isWhiteSpace with
  | '-' :: r =>
    if startsWithInfinity r then .inf true
    else match unsignedDecimal r with
      | some q => Number.ofDecimal (-q)
      | none => .nan
  | '+' :: r =>
    if startsWithInfinity r then .inf false
    else match unsignedDecimal r with
      | some q => Number.ofDecimal q
      | none => .nan
  | r =>
    if startsWithInfinity r then .inf false
    else match unsignedDecimal r with
      | some q => Number.ofDecimal q
      | none => .nan

/-- The global `parseFloat` on any value: the argument is converted to a string and
that string is read.  A Number reads back as itself; `true`, `false`, `null`,
`undefined` and objects convert to text that starts no literal; an array converts to
its elements joined by commas, so that only its first element can be read.  This is the
value of the call when the conversion to a string succeeds; whether it throws instead
(`Value.toText`) is decided where the call is made (`coerce`). -/
def parseFloat : Value → Number
  | .undefined => .nan
  | .null => .nan
  | .bool _ => .nan
  | .num n => n
  | .str s => parseFloatString s
  | .arr [] => .nan
  | .arr (x :: _) => parseFloat x
  | .obj _ => .nan

/-- Digits of a natural number, most significant first. -/
def natDigits (n : Nat) : List Char := (Nat.toDigits 10 n)

/-- `Number.prototype.toFixed(2)` for values below `10 ^ 21`: the nearest multiple of
`1 / 100`, a tie going away from zero, written with two decimals. -/
def toFixed2 : Number → String
  | .nan => "NaN"
  | .inf false => "Infinity"
  | .inf true => "-Infinity"
  | .fin q =>
    let n : Nat := (⌊|q| * 100 + 1 / 2⌋ : ℤ).toNat
    let body := natDigits (n / 100) ++ ['.'] ++ natDigits (n % 100 / 10) ++ natDigits (n % 10)
    String.mk (if q < 0 then '-' :: body else body)

/-! ## JSON.parse -/

namespace JSON

/-- JSON white space. -/
def isWs (c : Char) : Bool :=
  c.toNat == 0x20 || c.toNat == 0x09 || c.toNat == 0x0A || c.toNat == 0x0D

/-- Skipping of JSON white space. -/
def skipWs (cs : List Char) : List Char := cs.dropWhile isWs

/-- The value of a hexadecimal digit. -/
def hexVal (c : Char) : Option Nat :=
  let n := c.toNat
  if 48 ≤ n ∧ n ≤ 57 then some (n - 48)
  else if 97 ≤ n ∧ n ≤ 102 then some (n - 87)
  else if 65 ≤ n ∧ n ≤ 70 then some (n - 55)
  else none

/-- The code unit written by four hexadecimal digits. -/
def hex4 (a b c d : Char) : Option Nat :=
  match hexVal a, hexVal b, hexVal c, hexVal d with
  | some w, some x, some y, some z => some (((w * 16 + x) * 16 + y) * 16 + z)
  | _, _, _, _ => none

/-- The character of a single-character escape. -/
def escapeChar (e : Char) : Option Char :=
  if e = '"' then some '"'
  else if e = '\\' then some '\\'
  else if e = '/' then some '/'
  else if e = 'b' then some (Char.ofNat 8)
  else if e = 'f' then some (Char.ofNat 12)
  else if e = 'n' then some (Char.ofNat 10)
  else if e = 'r' then some (Char.ofNat 13)
  else if e = 't' then some (Char.ofNat 9)
  else none

/-- The UTF-16 code units of a character. -/
def codeUnits (c : Char) : List Nat :=
  if c.toNat < 0x10000 then [c.toNat]
  else [0xD800 + (c.toNat - 0x10000) / 0x400, 0xDC00 + (c.toNat - 0x10000) % 0x400]

/-- The characters of a sequence of UTF-16 code units; a surrogate without its partner
is read as U+FFFD. -/
def decodeUnits : List Nat → List Char
  | [] => []
  | [u] => if 0xD800 ≤ u ∧ u ≤ 0xDFFF then [Char.ofNat 0xFFFD] else [Char.ofNat u]
  | u :: v :: rest =>
    if 0xD800 ≤ u ∧ u ≤ 0xDBFF ∧ 0xDC00 ≤ v ∧ v ≤ 0xDFFF then
      Char.ofNat (0x10000 + (u - 0xD800) * 0x400 + (v - 0xDC00)) :: decodeUnits rest
    else if 0xD800 ≤ u ∧ u ≤ 0xDFFF then Char.ofNat 0xFFFD :: decodeUnits (v :: rest)
    else Char.ofNat u :: decodeUnits (v :: rest)

/-- The rest of a string literal after its opening quote: the string and what follows
the closing quote.  `acc` holds the code units read so far, last first. -/
def parseStringBody : Nat → List Char → List Nat → Option (String × List Char)
  | 0, _, _ => none
  | _ + 1, [], _ => none
  | fuel + 1, c :: cs, acc =>
    if c = '"' then some (String.mk (decodeUnits acc.reverse), cs)
    else if c = '\\' then
      match cs with
      | 'u' :: h1 :: h2 :: h3 :: h4 :: rest =>
        match hex4 h1 h2 h3 h4 with
        | some u => parseStringBody fuel rest (u :: acc)
        | none => none
      | e :: rest =>
        match escapeChar e with
        | some x => parseStringBody fuel rest (x.toNat :: acc)
        | none => none
      | [] => none
    else if c.toNat < 0x20 then none
    else parseStringBody fuel cs ((codeUnits c).reverse ++ acc)

/-- The fraction of a JSON number, after its integer digits: its value and what
follows it.  A decimal point must be followed by a digit. -/
def parseFraction (afterInt : List Char) : Option (ℚ × List Char) :=
  match afterInt with
  | '.' :: r =>
    if r.takeWhile isDigit = [] then none
    else some ((digitsValue (r.takeWhile isDigit) : ℚ) /
      (10 : ℚ) ^ (r.takeWhile isDigit).length, r.dropWhile isDigit)
  | r => some (0, r)

/-- The digits of an exponent, after its sign: the factor `10 ^ e` and what follows. -/
def parseExponentDigits (negative : Bool) (ds : List Char) : Option (ℚ × List Char) :=
  if ds.takeWhile isDigit = [] then none
  else some (pow10 negative (ds.takeWhile isDigit), ds.dropWhile isDigit)

/-- The exponent of a JSON number, after its fraction: the factor `10 ^ e` (`1` when
there is no exponent) and what follows.  The letter must be followed by digits. -/
def parseExponent (afterFrac : List Char) : Option (ℚ × List Char) :=
  match afterFrac with
  | [] => some (1, [])
  | e :: r =>
    if e = 'e' ∨ e = 'E' then
      match r with
      | '-' :: ds => parseExponentDigits true ds
      | '+' :: ds => parseExponentDigits false ds
      | ds => parseExponentDigits false ds
    else some (1, e :: r)

/-- A JSON number without its sign: integer digits (no leading zero before another
digit), then an optional fraction and an optional exponent. -/
def parseUnsigned (body : List Char) : Option (ℚ × List Char) :=
  if body.takeWhile isDigit = [] ∨
      ((body.takeWhile isDigit).head? == some '0' ∧ (body.takeWhile isDigit).length ≠ 1) then
    none
  else
    match parseFraction (body.dropWhile isDigit) with
    | none => none
    | some (frac, afterFrac) =>
      match parseExponent afterFrac with
      | none => none
      | some (factor, rest) =>
        some (((digitsValue (body.takeWhile isDigit) : ℚ) + frac) * factor, rest)

/-- A JSON number at the start of a text: the exact value of the numeral and what
follows it. -/
def parseNumber (cs : List Char) : Option (ℚ × List Char) :=
  match cs with
  | '-' :: body =>
    match parseUnsigned body with
    | some (q, rest) => some (-q, rest)
    | none => none
  | body => parseUnsigned body

/-- The text after a given character that, white space apart, starts a text. -/
def closes (c : Char) (cs : List Char) : Option (List Char) :=
  match skipWs cs with
  | [] => none
  | x :: after => if x = c then some after else none

/-- The text after a given word that starts a text. -/
def stripWord (word : List Char) (cs : List Char) : Option (List Char) :=
  if cs.take word.length = word then some (cs.drop word.length) else none

mutual
/-- A JSON value at the start of a text (after white space): the value and what
follows it. -/
def parseValue : Nat → List Char → Option (Value × List Char)
  | 0, _ => none
  | fuel + 1, cs =>
    match skipWs cs with
    | [] => none
    | c :: rest =>
      if c = '{' then
        match closes '}' rest with
        | some after => some (.obj [], after)
        | none => parseMembers fuel rest []
      else if c = '[' then
        match closes ']' rest with
        | some after => some (.arr [], after)
        | none => parseElements fuel rest []
      else if c = '"' then
        match parseStringBody (rest.length + 1) rest [] with
        | some (s, after) => some (.str s, after)
        | none => none
      else
        match stripWord ['t', 'r', 'u', 'e'] (c :: rest) with
        | some after => some (.bool true, after)
        | none =>
          match stripWord ['f', 'a', 'l', 's', 'e'] (c :: rest) with
          | some after => some (.bool false, after)
          | none =>
            match stripWord ['n', 'u', 'l', 'l'] (c :: rest) with
            | some after => some (.null, after)
            | none =>
              match parseNumber (c :: rest) with
              | some (q, after) => some (.num (Number.ofDecimal q), after)
              | none => none
/-- The elements of an array after its opening bracket, up to the closing bracket. -/
def parseElements : Nat → List Char → List Value → Option (Value × List Char)
  | 0, _, _ => none
  | fuel + 1, cs, acc =>
    match parseValue fuel cs with
    | none => none
    | some (v, rest) =>
      match skipWs rest with
      | [] => none
      | x :: after =>
        if x = ',' then parseElements fuel after (v :: acc)
        else if x = ']' then some (.arr (v :: acc).reverse, after)
        else none
/-- The members of an object after its opening brace, up to the closing brace. -/
def parseMembers : Nat → List Char → List (String × Value) → Option (Value × List Char)
  | 0, _, _ => none
  | fuel + 1, cs, acc =>
    match closes '"' cs with
    | none => none
    | some rest =>
      match parseStringBody (rest.length + 1) rest [] with
      | none => none
      | some (key, afterKey) =>
        match closes ':' afterKey with
        | none => none
        | some afterColon =>
          match parseValue fuel afterColon with
          | none => none
          | some (v, rest2) =>
            match skipWs rest2 with
            | [] => none
            | x :: after =>
              if x = ',' then parseMembers fuel after ((key, v) :: acc)
              else if x = '}' then some (.obj ((key, v) :: acc).reverse, after)
              else none
end

/-- `JSON.parse`: the value written by a JSON text, `none` for the `SyntaxError` thrown
on any other text.  Every step of the descent is paid for by a character of the text, so
the budget of twice its length is never used up. -/
def parse (text : String) : Option Value :=
  match parseValue (2 * text.toList.length + 2) text.toList with
  | some (v, rest) => if skipWs rest = [] then some v else none
  | none => none

end JSON

end JS

/-! ## Conversion of values to text, and iteration -/

namespace JS

/-- The least number of decimal places `j` from the current one on, within `fuel`
steps, for which `q * 10 ^ j` is an integer. -/
def decimalPlaces (q : ℚ) : Nat → Nat → Nat
  | 0, j => j
  | fuel + 1, j => if (q * 10 ^ j).den = 1 then j else decimalPlaces q fuel (j + 1)

/-- A run of digits without its trailing zeros. -/
def stripTrailingZeros (ds : List Char) : List Char :=
  (ds.reverse.dropWhile (fun d => d == '0')).reverse

/-- The text of a positive number written by a decimal numeral, from the digits `all`
of `q * 10 ^ j` and the number `j` of decimal places (`Number::toString`, steps 5 to
10): `s` are the digits without trailing zeros, `k` their number and `n` the position
of the decimal point. -/
def positiveToString (all : List Char) (j : Nat) : List Char :=
  let s := stripTrailingZeros all
  let k := s.length
  let n : Int := (all.length : Int) - (j : Int)
  if (k : Int) ≤ n ∧ n ≤ 21 then s ++ List.replicate (n.toNat - k) '0'
  else if 0 < n ∧ n ≤ 21 then s.take n.toNat ++ '.' :: s.drop n.toNat
  else if -6 < n ∧ n ≤ 0 then '0' :: '.' :: (List.replicate (-n).toNat '0' ++ s)
  else
    let exponent := (if 0 < n - 1 then '+' else '-') :: natDigits (n - 1).natAbs
    if k = 1 then s ++ 'e' :: exponent
    else s.take 1 ++ '.' :: (s.drop 1 ++ 'e' :: exponent)

/-- The conversion of a Number to text (`Number::toString` in radix 10), for the
numbers that a decimal numeral writes exactly; every number of a JSON text is one. -/
def numberToString : Number → String
  | .nan => "NaN"
  | .inf false => "Infinity"
  | .inf true => "-Infinity"
  | .fin q =>
    if q = 0 then "0"
    else
      let j := decimalPlaces |q| |q|.den 0
      let body := positiveToString (natDigits (|q| * 10 ^ j).num.toNat) j
      String.mk (if q < 0 then '-' :: body else body)

namespace Value

mutual
/-- The conversion `ToString` of a value, which a property access applies to its key.
`none` is the `TypeError` for an object whose own member `toString` hides the method
of `Object.prototype`. -/
def toText : Value → Option String
  | undefined => some "undefined"
  | null => some "null"
  | bool b => some (if b then "true" else "false")
  | num n => some (numberToString n)
  | str s => some s
  | arr items => (itemTexts items).map (JS.join ",")
  | obj members =>
    if members.any (fun m => m.1 == "toString") then none else some "[object Object]"
/-- The texts that `Array.prototype.join` joins: the empty text for `undefined` and
`null`, the conversion of every other element. -/
def itemTexts : List Value → Option (List String)
  | [] => some []
  | undefined :: rest => (itemTexts rest).map (fun texts => "" :: texts)
  | null :: rest => (itemTexts rest).map (fun texts => "" :: texts)
  | item :: rest =>
    match toText item, itemTexts rest with
    | some text, some texts => some (text :: texts)
    | _, _ => none
end

/-- The elements that the spread `...value` and the loop `for ... of value` run
through: the elements of an array, the characters of a string; any other value is not
iterable and the iteration throws a `TypeError`. -/
def elements : Value → Option (List Value)
  | arr items => some items
  | str s => some (s.toList.map (fun c => str (String.mk [c])))
  | _ => none

end Value

end JS

/-! ## Regular expressions

The patterns of the source are sequences of character classes, each with a greedy
repetition range, optionally anchored.  `Regex.search` is the backtracking search of
the runtime on such patterns: the leftmost start wins, and at each term the longest
repetition is tried first. -/

namespace Regex

/-- One term of a pattern: a character class repeated between `min` and `max` times
(`max = none`: no upper bound), as many times as possible. -/
structure Term where
  cls : Char → Bool
  min : Nat
  max : Option Nat

/-- A literal character. -/
def lit (c : Char) : Term := ⟨fun x => x == c, 1, some 1⟩

/-- The class `[\s\S]` (any character) under `*`. -/
def anyStar : Term := ⟨fun x => JS.isWhiteSpace x || !JS.isWhiteSpace x, 0, none⟩

/-- The class `\S` under `+`. -/
def nonSpacePlus : Term := ⟨fun x => !JS.isWhiteSpace x, 1, none⟩

/-- The class `\d` under `{n}`. -/
def digits (n : Nat) : Term := ⟨JS.isDigit, n, some n⟩

/-- The largest number of repetitions of a class at the start of a text, within the
upper bound. -/
def run (cls : Char → Bool) : Option Nat → List Char → Nat
  | some 0, _ => 0
  | _, [] => 0
  | some (m + 1), c :: cs => if cls c then run cls (some m) cs + 1 else 0
  | none, c :: cs => if cls c then run cls none cs + 1 else 0

/-- Backtracking over the number of repetitions of one term: `k` repetitions first,
then fewer, down to `min`; `next` matches the rest of the pattern.  The result is the
text matched from here on. -/
def tryLengths (next : List Char → Option (List Char)) (s : List Char) (min : Nat) :
    Nat → Option (List Char)
  | 0 =>
    if min = 0 then next s else none
  | k + 1 =>
    if k + 1 < min then none
    else
      match next (s.drop (k + 1)) with
      | some m => some (s.take (k + 1) ++ m)
      | none => tryLengths next s min k

/-- A match of a sequence of terms at the start of a text; `toEnd` is the anchor `$`. -/
def matchAt (toEnd : Bool) : List Term → List Char → Option (List Char)
  | [], s => if toEnd then (if s = [] then some [] else none) else some []
  | t :: ts, s => tryLengths (matchAt toEnd ts) s t.min (run t.cls t.max s)

/-- The leftmost match of an unanchored pattern in a text. -/
def search (toEnd : Bool) (ts : List Term) : List Char → Option (List Char)
  | [] => matchAt toEnd ts []
  | c :: cs =>
    match matchAt toEnd ts (c :: cs) with
    | some m => some m
    | none => search toEnd ts cs

/-- `/\{[\s\S]*\}/`. -/
def jsonObject : List Term := [lit '{', anyStar, lit '}']

/-- `/\S+@\S+\.\S+/`. -/
def emailRegex : List Term := [nonSpacePlus, lit '@', nonSpacePlus, lit '.', nonSpacePlus]

/-- `/^\d{10}$/` without its anchors. -/
def mobileRegex : List Term := [digits 10]

end Regex

/-! ## The sentiment classifier adapter (`src/processor/sentimentAIProcessor.js`) -/

/-- The class `SentimentResult`.  `emotions` and `key_phrases` hold whatever value the
response carried; `timestamp` is the instant of construction. -/
structure SentimentResult where
  text : String
  sentiment : String
  confidence : JS.Number
  emotions : JS.Value
  key_phrases : JS.Value
  timestamp : Nat
deriving DecidableEq

/-- An exception thrown inside a `try` block. -/
inductive Thrown where
  | typeError
  | syntaxError
  | error (message : String)
deriving DecidableEq

/-- The outcome of `await axios.post(...)`: the promise rejects (network failure,
timeout, error status), or it resolves to a response object. -/
inductive CallOutcome where
  | rejected
  | resolved (response : JS.Value)
deriving DecidableEq

namespace JS.Value

/-- The read `value[0]`; `none` is the `TypeError` of a read on `undefined` or `null`. -/
def first : Value → Option Value
  | undefined => none
  | null => none
  | arr [] => some undefined
  | arr (x :: _) => some x
  | str s =>
    match s.toList with
    | [] => some undefined
    | c :: _ => some (str (String.mk [c]))
  | obj members => some ((ownProperty members "0").getD undefined)
  | _ => some undefined

end JS.Value

namespace FeedbackSentimentAnalyzer

/-- The method `_createFallbackResult`. -/
def _createFallbackResult (now : Nat) (text : String) : SentimentResult :=
  { text := text
    sentiment := "neutral"
    confidence := .fin 0
    emotions := .arr []
    key_phrases := .arr []
    timestamp := now }

/-- The value of `response.match(/\{[\s\S]*\}/)` on a string: the matched text
(`jsonMatch[0]`), or `none` for `null`. -/
def jsonMatch (response : String) : Option String :=
  (Regex.search false Regex.jsonObject response.toList).map String.mk

/-- The expression `new SentimentResult({...})` of `_parseResponse` (lines 89 to 96) on
the parsed `data`: the coercion of its four members.  `toLowerCase` exists on strings
only, so any other truthy sentiment throws; `parseFloat` converts its argument to a
string first, and that conversion throws for an object with an own member `toString`
(also as an element of an array). -/
def coerce (now : Nat) (originalText : String) (data : JS.Value) :
    Except Thrown SentimentResult :=
  match data.getProp "sentiment", data.getProp "confidence",
    data.getProp "emotions", data.getProp "key_phrases" with
  | some sentiment, some confidence, some emotions, some key_phrases =>
    match sentiment.or (.str "neutral") with
    | .str label =>
      match (confidence.or (.num (.fin (1 / 2)))).toText with
      | none => .error .typeError
      | some _ =>
        .ok { text := originalText
              sentiment := JS.toLowerCase label
              confidence := JS.parseFloat (confidence.or (.num (.fin (1 / 2))))
              emotions := emotions.or (.arr [])
              key_phrases := key_phrases.or (.arr [])
              timestamp := now }
    | _ => .error .typeError
  | _, _, _, _ => .error .typeError

/-- The `try` block of `_parseResponse`. -/
def parseResponseTry (now : Nat) (originalText : String) (response : JS.Value) :
    Except Thrown SentimentResult :=
  match response with
  | .str text =>
    match jsonMatch text with
    | some matched =>
      match JS.JSON.parse matched with
      | none => .error .syntaxError
      | some data => coerce now originalText data
    | none => .error (.error "No JSON found in response")
  | _ => .error .typeError

/-- The method `_parseResponse`: the `try` block, and the fallback result in `catch`. -/
def _parseResponse (now : Nat) (originalText : String) (response : JS.Value) :
    SentimentResult :=
  match parseResponseTry now originalText response with
  | .ok result => result
  | .error _ => _createFallbackResult now originalText

/-- The read `response.data.choices[0].message.content`. -/
def responseText (response : JS.Value) : Except Thrown JS.Value :=
  match response.getProp "data" with
  | none => .error .typeError
  | some data =>
    match data.getProp "choices" with
    | none => .error .typeError
    | some choices =>
      match choices.first with
      | none => .error .typeError
      | some choice =>
        match choice.getProp "message" with
        | none => .error .typeError
        | some message =>
          match message.getProp "content" with
          | none => .error .typeError
          | some content => .ok content

/-- The `try` block of `analyzeSentiment`. -/
def analyzeSentimentTry (now : Nat) (outcome : CallOutcome) (feedbackText : String) :
    Except Thrown SentimentResult :=
  match outcome with
  | .rejected => .error (.error "request failed")
  | .resolved response =>
    match responseText response with
    | .error e => .error e
    | .ok content => .ok (_parseResponse now feedbackText content)

/-- The method `analyzeSentiment`, given the outcome of its external call.  The prompt
built by `_createAnalysisPrompt` feeds that call only; building it cannot throw. -/
def analyzeSentiment (now : Nat) (outcome : CallOutcome) (feedbackText : String) :
    SentimentResult :=
  match analyzeSentimentTry now outcome feedbackText with
  | .ok result => result
  | .error _ => _createFallbackResult now feedbackText

end FeedbackSentimentAnalyzer

/-- The controller function `analyzeSingle` (`src/controller/sentimentAI.js`). -/
def analyzeSingle (now : Nat) (outcome : CallOutcome) (feedback : String) : SentimentResult :=
  FeedbackSentimentAnalyzer.analyzeSentiment now outcome feedback

/-! ## Scoring (`src/routes/feedback.js`) -/

/-- The object literal `sentimentBonus`. -/
def sentimentBonus : List (String × ℚ) :=
  [("positive", 10), ("neutral", 0), ("negative", -15)]

/-- The function `calculateRecommendationScore`.  When the bonus read finds an inherited
member, `score += ...` makes `score` a string that is not numeric, and `Math.round`
gives `NaN`.  The sum is formed exactly, where the code rounds every step to a double:
the two scores are the same unless that rounding carries the sum across a half, as it
does for the average 3.2 with a neutral sentiment of confidence 0.5499999999999994
(exactly 80.499999999999994, in doubles 80.5). -/
def calculateRecommendationScore (averageRating : JS.Number)
    (sentimentAnalysis : Option SentimentResult) : JS.Number :=
  let base := JS.Number.mul averageRating (.fin 25)
  let score :=
    match sentimentAnalysis with
    | none => base
    | some s =>
      match JS.lookupOrZero sentimentBonus s.sentiment with
      | none => .nan
      | some bonus =>
        JS.Number.add (JS.Number.add base (.fin bonus))
          (JS.Number.mul (JS.Number.sub s.confidence (.fin (1 / 2))) (.fin 10))
  JS.Math.max (.fin 0) (JS.Math.min (.fin 100) (JS.Math.round score))

/-- The test `sentimentAnalysis && sentimentAnalysis.sentiment === label`. -/
def hasSentiment (sentimentAnalysis : Option SentimentResult) (label : String) : Bool :=
  match sentimentAnalysis with
  | none => false
  | some s => s.sentiment == label

/-- The function `calculatePriorityLevel`. -/
def calculatePriorityLevel (sentimentAnalysis : Option SentimentResult)
    (averageRating : JS.Number) : String :=
  if JS.Number.le averageRating (.fin 2) || hasSentiment sentimentAnalysis "negative" then "high"
  else if JS.Number.le averageRating (.fin 3) || hasSentiment sentimentAnalysis "neutral" then
    "medium"
  else "low"

/-- The object literal `ratingValues`. -/
def ratingValues : List (String × ℚ) :=
  [("Excellent", 4), ("Very Good", 3), ("Average", 2), ("Poor", 1)]

/-- The step `sum + score` of the `reduce` over the rating scores.  `none` is a sum that
has become a string: adding a function or an object concatenates text. -/
def addScore (sum : Option ℚ) (score : Option ℚ) : Option ℚ :=
  match sum, score with
  | some a, some b => some (a + b)
  | _, _ => none

/-- The constant `averageRating` of the submit handler, from the values of the `ratings`
object: the scores `ratingValues[rating] || 0`, their sum and the division by their
number.  A sum that is a non-numeric string divides to `NaN`. -/
def averageRating (ratings : List String) : JS.Number :=
  let ratingScores := ratings.map (JS.lookupOrZero ratingValues)
  match ratingScores.foldl addScore (some 0) with
  | some sum => JS.Number.div (.fin sum) (.fin ratingScores.length)
  | none => .nan

/-! ## The feedback store and its handlers (`src/routes/feedback.js`) -/

/-- The fields read from `req.body`.  A field is missing (`undefined`) or a string, as
the feedback form sends them. -/
structure Payload where
  name : Option String
  email : Option String
  mobile : Option String
  address : Option String
  locationVisited : Option String
  cleanliness : Option String
  staffBehavior : Option String
  information : Option String
  signage : Option String
  safety : Option String
  overallExperience : Option String
  suggestions : Option String
deriving DecidableEq

/-- The member `personalInfo` of a feedback record. -/
structure PersonalInfo where
  name : String
  email : String
  mobile : String
  address : Option String
deriving DecidableEq

/-- The member `visitInfo` of a feedback record. -/
structure VisitInfo where
  locationVisited : String
deriving DecidableEq

/-- The member `ratings` of a feedback record. -/
structure Ratings where
  cleanliness : String
  staffBehavior : String
  information : String
  signage : String
  safety : String
  averageScore : String
deriving DecidableEq

/-- The member `feedback` of a feedback record. -/
structure FeedbackText where
  overallExperience : String
  suggestions : String
deriving DecidableEq

/-- The member `sentimentAnalysis` of a feedback record; `none` is `null`. -/
structure SentimentAnalysis where
  overallExperience : Option SentimentResult
  suggestions : Option SentimentResult
  combinedAnalysis : Option SentimentResult
deriving DecidableEq

/-- The member `analytics` of a feedback record. -/
structure Analytics where
  totalWords : Nat
  hasNegativeFeedback : Bool
  recommendationScore : JS.Number
  priorityLevel : String
deriving DecidableEq

/-- One element of `feedbackStorage`. -/
structure Feedback where
  id : String
  timestamp : Nat
  personalInfo : PersonalInfo
  visitInfo : VisitInfo
  ratings : Ratings
  feedback : FeedbackText
  sentimentAnalysis : SentimentAnalysis
  analytics : Analytics
deriving DecidableEq

/-- The test `!field` on a payload field: it is missing or the empty string. -/
def isMissing (field : Option String) : Bool :=
  match field with
  | none => true
  | some s => s == ""

/-- The test `text && text.trim().length >= 3`. -/
def longEnough (text : Option String) : Bool :=
  match text with
  | none => false
  | some s => s != "" && decide (3 ≤ JS.length (JS.trim s))

/-- What the sentiment block of a handler leaves behind: the `sentimentAnalysis`
object, `combinedText`, and the index of the next call of the oracle. -/
structure SentimentPass where
  sentimentAnalysis : SentimentAnalysis
  combinedText : String
  next : Nat
deriving DecidableEq

/-- The sentiment block shared by the submit handler (lines 63 to 95) and the reprocess
handler (lines 462 to 482): the overall experience, the suggestions, then the combined
text, each classified only when it is long enough.  `oracle k` is the outcome of the
`k`-th external call; the block starts at call `start`. -/
def sentimentPass (now : Nat) (oracle : Nat → CallOutcome) (start : Nat)
    (overallExperience suggestions : Option String) : SentimentPass :=
  let first : Option SentimentResult :=
    if longEnough overallExperience then
      some (analyzeSingle now (oracle start) (overallExperience.getD ""))
    else none
  let afterFirst := if longEnough overallExperience then start + 1 else start
  let second : Option SentimentResult :=
    if longEnough suggestions then
      some (analyzeSingle now (oracle afterFirst) (suggestions.getD ""))
    else none
  let afterSecond := if longEnough suggestions then afterFirst + 1 else afterFirst
  let combinedText :=
    JS.join ". " (([overallExperience, suggestions].filter longEnough).map (fun t => t.getD ""))
  let third : Option SentimentResult :=
    if 3 ≤ JS.length (JS.trim combinedText) then
      some (analyzeSingle now (oracle afterSecond) combinedText)
    else none
  let afterThird := if 3 ≤ JS.length (JS.trim combinedText) then afterSecond + 1 else afterSecond
  { sentimentAnalysis :=
      { overallExperience := first, suggestions := second, combinedAnalysis := third }
    combinedText := combinedText
    next := afterThird }

/-- The response of the submit handler: status 400 with `error` and `message`, or
status 201 with the summary of the stored record. -/
inductive SubmitResponse where
  | badRequest (error : String) (message : String)
  | created (feedbackId : String) (sentiment : Option String) (averageRating : String)
      (recommendationScore : JS.Number)
deriving DecidableEq

/-- The effect of one request on the submit handler. -/
structure SubmitResult where
  response : SubmitResponse
  store : List Feedback
  calls : Nat
deriving DecidableEq

/-- The expression `sentimentAnalysis.combinedAnalysis?.sentiment || null`. -/
def sentimentOrNull (combinedAnalysis : Option SentimentResult) : Option String :=
  match combinedAnalysis with
  | none => none
  | some r => if r.sentiment = "" then none else some r.sentiment

/-- The validation at the head of the submit handler (lines 26 to 51): the response to a
request that is rejected, `none` for a request that passes. -/
def validate (body : Payload) : Option SubmitResponse :=
  if isMissing body.name || isMissing body.email || isMissing body.mobile ||
      isMissing body.locationVisited || isMissing body.cleanliness ||
      isMissing body.staffBehavior || isMissing body.information ||
      isMissing body.signage || isMissing body.safety ||
      isMissing body.overallExperience then
    some (.badRequest "Missing required fields" "Please fill in all required fields")
  else if (Regex.search false Regex.emailRegex (body.email.getD "").toList).isNone then
    some (.badRequest "Invalid email format" "Please provide a valid email address")
  else if (Regex.matchAt true Regex.mobileRegex (body.mobile.getD "").toList).isNone then
    some (.badRequest "Invalid mobile number" "Mobile number must be 10 digits")
  else none

/-- The values of the object `ratings` of the submit handler (line 104). -/
def ratingsOf (body : Payload) : List String :=
  [body.cleanliness.getD "", body.staffBehavior.getD "", body.information.getD "",
   body.signage.getD "", body.safety.getD ""]

/-- The object `feedback` that the submit handler builds (lines 102 to 140) from the
request and from what the sentiment block left behind. -/
def buildFeedback (now : Nat) (body : Payload) (pass : SentimentPass) : Feedback :=
  { id := String.mk (JS.natDigits now)
    timestamp := now
    personalInfo :=
      { name := body.name.getD "", email := body.email.getD ""
        mobile := body.mobile.getD "", address := body.address }
    visitInfo := { locationVisited := body.locationVisited.getD "" }
    ratings :=
      { cleanliness := body.cleanliness.getD ""
        staffBehavior := body.staffBehavior.getD ""
        information := body.information.getD ""
        signage := body.signage.getD ""
        safety := body.safety.getD ""
        averageScore := JS.toFixed2 (averageRating (ratingsOf body)) }
    feedback :=
      { overallExperience := body.overallExperience.getD ""
        suggestions := if isMissing body.suggestions then "" else body.suggestions.getD "" }
    sentimentAnalysis := pass.sentimentAnalysis
    analytics :=
      { totalWords := (JS.splitOn ' ' pass.combinedText.toList).length
        hasNegativeFeedback := hasSentiment pass.sentimentAnalysis.combinedAnalysis "negative"
        recommendationScore :=
          calculateRecommendationScore (averageRating (ratingsOf body))
            pass.sentimentAnalysis.combinedAnalysis
        priorityLevel :=
          calculatePriorityLevel pass.sentimentAnalysis.combinedAnalysis
            (averageRating (ratingsOf body)) } }

/-- The handler `router.post('/feedback')` on the store `feedbackStorage`, at instant
`now` and with the outcomes `oracle` of its external calls.  With string fields
neither `try` block of the handler can throw, since `analyzeSingle` absorbs its own
failures. -/
def submit (now : Nat) (oracle : Nat → CallOutcome) (feedbackStorage : List Feedback)
    (body : Payload) : SubmitResult :=
  match validate body with
  | some rejection => { response := rejection, store := feedbackStorage, calls := 0 }
  | none =>
    let pass := sentimentPass now oracle 0 body.overallExperience body.suggestions
    let feedback := buildFeedback now body pass
    { response :=
        .created feedback.id (sentimentOrNull pass.sentimentAnalysis.combinedAnalysis)
          (JS.toFixed2 (averageRating (ratingsOf body))) feedback.analytics.recommendationScore
      store := feedbackStorage ++ [feedback]
      calls := pass.next }

/-- The test of the reprocess handler that lets it skip a record: `sentimentAnalysis`,
its `combinedAnalysis` and the `sentiment` of that are all truthy. -/
def alreadyAnalysed (feedback : Feedback) : Bool :=
  match feedback.sentimentAnalysis.combinedAnalysis with
  | none => false
  | some r => r.sentiment != ""

/-- The update that the reprocess handler applies to one record it does not skip
(lines 458 to 500), starting at call `start` of the oracle.  The texts of a stored
record are strings, so the `try` block around the update cannot throw. -/
def reprocessRecord (now : Nat) (oracle : Nat → CallOutcome) (start : Nat)
    (feedback : Feedback) : Feedback × Nat :=
  let pass := sentimentPass now oracle start
    (some feedback.feedback.overallExperience) (some feedback.feedback.suggestions)
  let analytics : Analytics :=
    match pass.sentimentAnalysis.combinedAnalysis with
    | some combined =>
      { feedback.analytics with
        hasNegativeFeedback := combined.sentiment == "negative"
        recommendationScore :=
          calculateRecommendationScore (JS.parseFloatString feedback.ratings.averageScore)
            (some combined)
        priorityLevel :=
          calculatePriorityLevel (some combined)
            (JS.parseFloatString feedback.ratings.averageScore) }
    | none => feedback.analytics
  ({ feedback with sentimentAnalysis := pass.sentimentAnalysis, analytics := analytics },
   pass.next)

/-- The state of the loop of the reprocess handler. -/
structure ReprocessResult where
  store : List Feedback
  processedCount : Nat
  updatedCount : Nat
  calls : Nat
deriving DecidableEq

/-- The `for` loop of the reprocess handler over the records from the current index
on; `start` is the index of the next call of the oracle. -/
def reprocessLoop (now : Nat) (oracle : Nat → CallOutcome) :
    List Feedback → Nat → ReprocessResult
  | [], start => { store := [], processedCount := 0, updatedCount := 0, calls := start }
  | feedback :: rest, start =>
    if alreadyAnalysed feedback then
      let tail := reprocessLoop now oracle rest start
      { tail with store := feedback :: tail.store, processedCount := tail.processedCount + 1 }
    else
      let updated := reprocessRecord now oracle start feedback
      let tail := reprocessLoop now oracle rest updated.2
      { store := updated.1 :: tail.store
        processedCount := tail.processedCount + 1
        updatedCount := tail.updatedCount + 1
        calls := tail.calls }

/-- The handler `router.post('/feedback/reprocess-sentiment')` on the store
`feedbackStorage`. -/
def reprocess (now : Nat) (oracle : Nat → CallOutcome) (feedbackStorage : List Feedback) :
    ReprocessResult :=
  reprocessLoop now oracle feedbackStorage 0

/-- The stores that the two writing handlers can produce from the empty store. -/
inductive Reachable : List Feedback → Prop where
  | init : Reachable []
  | afterSubmit (now : Nat) (oracle : Nat → CallOutcome) (store : List Feedback)
      (body : Payload) :
      Reachable store → Reachable (submit now oracle store body).store
  | afterReprocess (now : Nat) (oracle : Nat → CallOutcome) (store : List Feedback) :
      Reachable store → Reachable (reprocess now oracle store).store

/-! ## Definitions taken from the specification

These definitions follow the wording of the specification; the properties below compare
them with the definitions above, which follow the source. -/

/-- The rating scale of the specification: Excellent 4, Very Good 3, Average 2, Poor 1,
any other value 0. -/
def specRatingScore (rating : String) : ℚ :=
  if rating = "Excellent" then 4
  else if rating = "Very Good" then 3
  else if rating = "Average" then 2
  else if rating = "Poor" then 1
  else 0

/-! ## Concrete inputs -/

/-- A submission that passes validation, rates cleanliness `constructor` and the four
other categories Excellent, and carries a text too short to be classified. -/
def inheritedNamePayload : Payload :=
  { name := some "Asha", email := some "asha@example.com", mobile := some "9876543210"
    address := none, locationVisited := some "Ranchi"
    cleanliness := some "constructor", staffBehavior := some "Excellent"
    information := some "Excellent", signage := some "Excellent", safety := some "Excellent"
    overallExperience := some "ok", suggestions := none }

/-- A submission that passes validation, with an overall experience long enough to be
classified and no suggestions. -/
def samplePayload : Payload :=
  { name := some "Asha", email := some "asha@example.com", mobile := some "9876543210"
    address := none, locationVisited := some "Ranchi"
    cleanliness := some "Poor", staffBehavior := some "Average"
    information := some "Average", signage := some "Poor", safety := some "Average"
    overallExperience := some "The washrooms were dirty", suggestions := none }

/-- The response object of a call that resolves with the given message content. -/
def responseWith (content : JS.Value) : JS.Value :=
  .obj [("data", .obj [("choices", .arr [.obj [("message", .obj [("content", content)])]])])]

/-- An oracle whose every call resolves with a negative classification. -/
def negativeOracle : Nat → CallOutcome :=
  fun _ => .resolved (responseWith
    (.str "\x7b\"sentiment\":\"negative\",\"confidence\":0.9,\"key_phrases\":[\"dirty\"]\x7d"))

/-! ## Invariants of the store -/

/-- The three derived analytics fields of a record agree with its combined analysis and
its stored average score: `hasNegativeFeedback` holds exactly when the combined analysis
is present with sentiment `negative`, and the recommendation score and the priority
level are the values of the two scoring functions. -/
def AnalyticsConsistent (r : Feedback) : Prop :=
  (r.analytics.hasNegativeFeedback = true ↔
      ∃ c, r.sentimentAnalysis.combinedAnalysis = some c ∧ c.sentiment = "negative") ∧
    r.analytics.recommendationScore =
      calculateRecommendationScore (JS.parseFloatString r.ratings.averageScore)
        r.sentimentAnalysis.combinedAnalysis ∧
    r.analytics.priorityLevel =
      calculatePriorityLevel r.sentimentAnalysis.combinedAnalysis
        (JS.parseFloatString r.ratings.averageScore)

/-- The invariant that the handlers maintain: the analytics are consistent, and a
combined analysis that is present carries a non-empty sentiment. -/
def RecordInvariant (r : Feedback) : Prop :=
  AnalyticsConsistent r ∧
    ∀ c, r.sentimentAnalysis.combinedAnalysis = some c → c.sentiment ≠ ""

/-! ## The span of the JSON pattern -/

/-- The part of a text up to and including the last occurrence of a character. -/
def upToLast (c : Char) : List Char → Option (List Char)
  | [] => none
  | x :: xs =>
    match upToLast c xs with
    | some m => some (x :: m)
    | none => if x = c then some [x] else none

/-- The part of a text from its first `{` to its last `}`, when that `}` comes later. -/
def firstToLast : List Char → Option (List Char)
  | [] => none
  | x :: xs => if x = '{' then (upToLast '}' xs).map (fun m => x :: m) else firstToLast xs

/-! ## The JSON span of the specification, and sample responses -/

/-- The rest of a balanced `{...}` group after its opening brace; `depth` counts the
groups opened inside it that are still open. -/
def balancedRest : Nat → List Char → Option (List Char)
  | _, [] => none
  | depth, c :: cs =>
    if c = '}' then
      match depth with
      | 0 => some [c]
      | d + 1 => (balancedRest d cs).map (fun m => c :: m)
    else if c = '{' then (balancedRest (depth + 1) cs).map (fun m => c :: m)
    else (balancedRest depth cs).map (fun m => c :: m)

/-- The first balanced `{...}` substring of a text, in the words of the specification:
it starts at the leftmost `{` from which the braces balance and ends at the `}` that
closes it. -/
def firstBalanced : List Char → Option (List Char)
  | [] => none
  | c :: cs =>
    if c = '{' then
      match balancedRest 0 cs with
      | some m => some (c :: m)
      | none => firstBalanced cs
    else firstBalanced cs

/-- A response that holds one JSON object followed by text with another `}`. -/
def trailingBraceResponse : String :=
  "\x7b\"sentiment\":\"positive\",\"confidence\":0.9\x7d Note: a stray \x7d follows the object."

/-- The part of `trailingBraceResponse` from its first `{` to its last `}`. -/
def trailingBraceMatch : String :=
  "\x7b\"sentiment\":\"positive\",\"confidence\":0.9\x7d Note: a stray \x7d"

/-- The JSON object at the start of `trailingBraceResponse`. -/
def trailingBraceObject : String :=
  "\x7b\"sentiment\":\"positive\",\"confidence\":0.9\x7d"

/-- A response whose object carries a number as its sentiment. -/
def numericSentimentResponse : String :=
  "\x7b\"sentiment\":5,\"confidence\":0.9,\"emotions\":[\"happy\"]," ++
    "\"key_phrases\":[\"great trip\"]\x7d"

/-- A response whose object carries an empty sentiment. -/
def emptySentimentResponse : String :=
  "\x7b\"sentiment\":\"\",\"confidence\":0.9\x7d"

/-- The response of the worked example of the specification. -/
def greatTripResponse : String :=
  "\x7b\"sentiment\":\"POSITIVE\",\"confidence\":0.87,\"key_phrases\":[\"great trip\"]\x7d"

/-- A response whose object carries a sentiment, emotions and, as its confidence, an
object with a member `toString`. -/
def unreadableConfidenceResponse : String :=
  "\x7b\"sentiment\":\"POSITIVE\",\"confidence\":\x7b\"toString\":1\x7d," ++
    "\"emotions\":[\"happy\"]\x7d"

/-- A response whose object carries the confidence `0`. -/
def zeroConfidenceResponse : String :=
  "\x7b\"sentiment\":\"negative\",\"confidence\":0\x7d"

/-- A response whose object carries a confidence that is not a number. -/
def wordConfidenceResponse : String :=
  "\x7b\"sentiment\":\"negative\",\"confidence\":\"high\"\x7d"

/-- The emotions and the key phrases of a result are the lists of the parsed object,
and empty lists for a member that is absent. -/
def ListsKept (members : List (String × JS.Value)) (r : SentimentResult) : Prop :=
  (∀ items, JS.Value.ownProperty members "emotions" = some (.arr items) →
      r.emotions = .arr items) ∧
    (JS.Value.ownProperty members "emotions" = none → r.emotions = .arr []) ∧
    (∀ items, JS.Value.ownProperty members "key_phrases" = some (.arr items) →
      r.key_phrases = .arr items) ∧
    (JS.Value.ownProperty members "key_phrases" = none → r.key_phrases = .arr [])

/-! ## Required fields, the rating scale and sample submissions -/

/-- The ten required fields of a submission, in the order of the check. -/
def requiredFields (body : Payload) : List (Option String) :=
  [body.name, body.email, body.mobile, body.locationVisited, body.cleanliness,
   body.staffBehavior, body.information, body.signage, body.safety, body.overallExperience]

/-- The four rating values of the specification. -/
def ratingScale : List String := ["Excellent", "Very Good", "Average", "Poor"]

/-- A submission that passes validation and carries the two-character text `ok` and no
suggestions. -/
def shortTextPayload : Payload :=
  { name := some "Asha", email := some "asha@example.com", mobile := some "9876543210"
    address := none, locationVisited := some "Ranchi"
    cleanliness := some "Excellent", staffBehavior := some "Very Good"
    information := some "Average", signage := some "Very Good", safety := some "Excellent"
    overallExperience := some "ok", suggestions := none }

/-- The submission `shortTextPayload` without its name. -/
def missingNamePayload : Payload := { shortTextPayload with name := none }

/-- The submission `shortTextPayload` with an empty email. -/
def missingEmailPayload : Payload := { shortTextPayload with email := some "" }

/-- The submission `shortTextPayload` with the cleanliness rating `Terrible`. -/
def otherRatingPayload : Payload := { shortTextPayload with cleanliness := some "Terrible" }

/-! ## Sample submissions for the two patterns -/

/-- The submission `shortTextPayload` with the email `@.`. -/
def atDotEmailPayload : Payload := { shortTextPayload with email := some "@." }

/-- The submission `shortTextPayload` with the email `a.b@c`. -/
def dotBeforeAtPayload : Payload := { shortTextPayload with email := some "a.b@c" }

/-- The submission `shortTextPayload` with the mobile value `98765abcde`. -/
def lettersMobilePayload : Payload := { shortTextPayload with mobile := some "98765abcde" }

/-! ## The word count of the specification, and the texts of a stored record -/

/-- The number of tokens that start in a text, given whether the text continues a
token; a token is a maximal run of characters other than white space. -/
def countTokens : Bool → List Char → Nat
  | _, [] => 0
  | inToken, c :: cs =>
    if JS.isWhiteSpace c then countTokens false cs
    else (if inToken then 0 else 1) + countTokens true cs

/-- The number of whitespace-delimited tokens of a text, in the words of the
specification. -/
def specWordCount (text : String) : Nat := countTokens false text.toList

/-- The submission `shortTextPayload` with the text `Nice  place`, two spaces between
its two words. -/
def doubleSpacePayload : Payload :=
  { shortTextPayload with overallExperience := some "Nice  place" }

/-- The expression for `combinedText` of the submit handler (line 86) and of the
reprocess handler (line 476). -/
def combinedTextOf (overallExperience suggestions : Option String) : String :=
  JS.join ". " (([overallExperience, suggestions].filter longEnough).map (fun t => t.getD ""))

/-- The test `combinedText.trim().length >= 3` of the reprocess handler on the texts of
a stored record: the record gets a combined analysis when it is reprocessed. -/
def classifiable (feedback : Feedback) : Bool :=
  decide (3 ≤ JS.length (JS.trim (combinedTextOf (some feedback.feedback.overallExperience)
    (some feedback.feedback.suggestions))))

/-! ## Sample responses with other sentiments and confidences -/

/-- A response whose object carries the sentiment `Mixed`. -/
def mixedSentimentResponse : String :=
  "\x7b\"sentiment\":\"Mixed\",\"confidence\":0.8\x7d"

/-- A response whose object carries the confidence `7`. -/
def largeConfidenceResponse : String :=
  "\x7b\"sentiment\":\"positive\",\"confidence\":7\x7d"

/-- The three sentiment classes of the specification. -/
def sentimentClasses : List String := ["positive", "negative", "neutral"]

/-! ## Batches of the classifier adapter (`src/processor/sentimentAIProcessor.js`) -/

namespace FeedbackSentimentAnalyzer

/-- The loop of the method `analyzeBatch` over the texts from the current one on:
`analyzeSentiment` on each text in turn, its result pushed onto `results`.  `oracle k`
is the outcome of the `k`-th external call and `clock k` the instant read by the `k`-th
call of `analyzeSentiment`; `start` is the index of the next call. -/
def analyzeBatchFrom (clock : Nat → Nat) (oracle : Nat → CallOutcome) :
    Nat → List String → List SentimentResult
  | _, [] => []
  | start, feedback :: rest =>
    analyzeSentiment (clock start) (oracle start) feedback ::
      analyzeBatchFrom clock oracle (start + 1) rest

/-- The method `analyzeBatch`; the controller function `analyzeBatch`
(`src/controller/sentimentAI.js`) is this method of the analyzer of the module. -/
def analyzeBatch (clock : Nat → Nat) (oracle : Nat → CallOutcome)
    (feedbackList : List String) : List SentimentResult :=
  analyzeBatchFrom clock oracle 0 feedbackList

end FeedbackSentimentAnalyzer

/-- An oracle whose call number 1 is rejected and whose other calls resolve with a
positive classification. -/
def secondCallFails : Nat → CallOutcome := fun k =>
  if k = 1 then .rejected else .resolved (responseWith (.str greatTripResponse))

/-! ## Frequency ranking (`getTopItems`, `_getTopEmotions`) -/

/-- The value of a member of a `counts` object: a number, or a text that is not a
number (what `+ 1` makes of a function or an object). -/
inductive Tally where
  | num (n : Nat)
  | text
deriving DecidableEq

/-- The statement `counts[item] = (counts[item] || 0) + 1` on an object literal
`counts`, given by its own members in the order of their creation.  A name of
`Object.prototype` that is not yet an own member reads the inherited function or
object, and `+ 1` turns it into a text; the assignment of a text to `__proto__` is
ignored. -/
def tallyStep (counts : List (String × Tally)) (item : String) : List (String × Tally) :=
  match counts.find? (fun m => m.1 == item) with
  | some (_, .num n) => counts.map (fun m => if m.1 == item then (m.1, .num (n + 1)) else m)
  | some (_, .text) => counts
  | none =>
    if item = "__proto__" then counts
    else if item ∈ JS.objectPrototypeKeys then counts ++ [(item, .text)]
    else counts ++ [(item, .num 1)]

/-- The object `counts` after the loop over the keys of the items. -/
def tally (keys : List String) : List (String × Tally) := keys.foldl tallyStep []

/-- The read `counts[key]` of an own member. -/
def countOf (counts : List (String × Tally)) (key : String) : Tally :=
  match counts.find? (fun m => m.1 == key) with
  | some m => m.2
  | none => .text

/-- A key that is an array index: the canonical numeral of an integer below
`2 ^ 32 - 1`. -/
def isArrayIndex (key : String) : Bool :=
  key.toList != [] && key.toList.all JS.isDigit &&
    String.mk (JS.natDigits (JS.digitsValue key.toList)) == key &&
    decide (JS.digitsValue key.toList < 4294967295)

/-- `Object.keys(counts)`: the array indices in ascending order, then the other keys in
the order of their creation. -/
def ownKeys (counts : List (String × Tally)) : List String :=
  ((counts.map (fun m => m.1)).filter isArrayIndex).insertionSort
      (fun a b => JS.digitsValue a.toList ≤ JS.digitsValue b.toList) ++
    (counts.map (fun m => m.1)).filter (fun key => !isArrayIndex key)

/-- The comparator `(a, b) => counts[b] - counts[a]` does not ask for `b` before `a`:
its value is not positive.  A difference with a text is `NaN`, which `sort` reads
as 0. -/
def keepsOrder (counts : List (String × Tally)) (a b : String) : Bool :=
  match countOf counts a, countOf counts b with
  | .num x, .num y => decide (y ≤ x)
  | _, _ => true

/-- `Object.keys(counts).sort((a, b) => counts[b] - counts[a])`, a stable sort.  When
some count is a text the comparator is not consistent and the order that `sort` leaves
is left to the implementation; here such a key is taken as equal to every other. -/
def rankedKeys (counts : List (String × Tally)) : List String :=
  (ownKeys counts).insertionSort (fun a b => keepsOrder counts a b = true)

/-- The keys under which a list of items is counted: the conversion of each item to
text; `none` is the `TypeError` of an item that has none. -/
def keysOf : List JS.Value → Option (List String)
  | [] => some []
  | item :: rest =>
    match item.toText, keysOf rest with
    | some key, some keys => some (key :: keys)
    | _, _ => none

/-- An element of the result of `getTopItems`. -/
structure TopItem where
  item : String
  count : Tally
deriving DecidableEq

/-- The function `getTopItems`; `none` is a `TypeError` thrown while counting. -/
def getTopItems (items : List JS.Value) (topN : Nat) : Option (List TopItem) :=
  match keysOf items with
  | none => none
  | some keys =>
    some (((rankedKeys (tally keys)).take topN).map
      (fun item => { item := item, count := countOf (tally keys) item }))

namespace FeedbackSentimentAnalyzer

/-- The emotions that the two loops of `_getTopEmotions` run through, in order; `none`
is the `TypeError` of a result whose `emotions` are not iterable. -/
def allEmotions : List SentimentResult → Option (List JS.Value)
  | [] => some []
  | result :: rest =>
    match result.emotions.elements, allEmotions rest with
    | some items, some more => some (items ++ more)
    | _, _ => none

/-- The method `_getTopEmotions`; `none` is a `TypeError` thrown while counting. -/
def _getTopEmotions (results : List SentimentResult) (topN : Nat) : Option (List String) :=
  match allEmotions results with
  | none => none
  | some emotions =>
    match keysOf emotions with
    | none => none
    | some keys => some ((rankedKeys (tally keys)).take topN)

/-- The object that `getSummaryStatistics` builds for a non-empty list of results. -/
structure Summary where
  total_feedback : Nat
  positive : JS.Number
  negative : JS.Number
  neutral : JS.Number
  average_confidence : JS.Number
  most_common_emotions : List String
  analysis_timestamp : Nat
deriving DecidableEq

/-- The value of `getSummaryStatistics`: the empty object, or a summary. -/
inductive SummaryResult where
  | empty
  | summary (stats : Summary)
deriving DecidableEq

/-- The expression `sentiments.filter(s => s === label).length / total * 100`. -/
def percentage (sentiments : List String) (label : String) : JS.Number :=
  JS.Number.mul
    (JS.Number.div (.fin (sentiments.filter (fun s => s == label)).length)
      (.fin sentiments.length))
    (.fin 100)

/-- The method `getSummaryStatistics`; `none` is the `TypeError` that `_getTopEmotions`
throws, which the method does not catch. -/
def getSummaryStatistics (now : Nat) (results : List SentimentResult) : Option SummaryResult :=
  if results.length = 0 then some .empty
  else
    let sentiments := results.map (fun r => JS.toLowerCase r.sentiment)
    match _getTopEmotions results 5 with
    | none => none
    | some emotions =>
      some (.summary
        { total_feedback := sentiments.length
          positive := percentage sentiments "positive"
          negative := percentage sentiments "negative"
          neutral := percentage sentiments "neutral"
          average_confidence :=
            JS.Number.div
              (results.foldl (fun sum r => JS.Number.add sum r.confidence) (.fin 0))
              (.fin sentiments.length)
          most_common_emotions := emotions
          analysis_timestamp := now })

end FeedbackSentimentAnalyzer

/-- The items `a a b c c c` of the worked example. -/
def exampleItems : List JS.Value :=
  [.str "a", .str "a", .str "b", .str "c", .str "c", .str "c"]

/-! ## Statistics and insights (`src/routes/feedback.js`) -/

/-- An element of `insights`, by its kind and the values that fill the template of its
message: the rounded percentage of negative feedback, the category and its score, the
number of items of high priority, the recommendation score.  The text of the message
is not rendered. -/
inductive Insight where
  | warning (percentage : JS.Number)
  | improvement (category : String) (score : JS.Number)
  | urgent (high : Nat)
  | concern (recommendationScore : JS.Number)
  | positive (recommendationScore : JS.Number)
deriving DecidableEq

namespace Insight

/-- The member `type` of an insight. -/
def type : Insight → String
  | warning _ => "warning"
  | improvement _ _ => "improvement"
  | urgent _ => "urgent"
  | concern _ => "concern"
  | positive _ => "positive"

/-- The member `priority` of an insight. -/
def priority : Insight → String
  | warning _ => "high"
  | improvement _ _ => "medium"
  | urgent _ => "high"
  | concern _ => "medium"
  | positive _ => "low"

end Insight

/-- The member `averageRatings` of the statistics: each value is the number 0 or the
text written by `toFixed(2)`. -/
structure AverageRatings where
  cleanliness : JS.Value
  staffBehavior : JS.Value
  information : JS.Value
  signage : JS.Value
  safety : JS.Value
  overall : JS.Value
deriving DecidableEq

/-- The members of `averageRatings` in the order of `Object.keys`. -/
def AverageRatings.entries (a : AverageRatings) : List (String × JS.Value) :=
  [("cleanliness", a.cleanliness), ("staffBehavior", a.staffBehavior),
   ("information", a.information), ("signage", a.signage), ("safety", a.safety),
   ("overall", a.overall)]

/-- The member `sentimentDistribution` of the statistics. -/
structure SentimentDistribution where
  positive : Nat
  neutral : Nat
  negative : Nat
deriving DecidableEq

/-- The member `priorityDistribution` of the statistics. -/
structure PriorityDistribution where
  high : Nat
  medium : Nat
  low : Nat
deriving DecidableEq

/-- The member `emotionalInsights` of the statistics. -/
structure EmotionalInsights where
  topEmotions : List TopItem
  commonKeyPhrases : List TopItem
deriving DecidableEq

/-- The object `stats` of the statistics handler.  `byLocation` lists its members in
the order of `Object.keys`. -/
structure Stats where
  total : Nat
  byLocation : List (String × Tally)
  averageRatings : AverageRatings
  sentimentDistribution : SentimentDistribution
  priorityDistribution : PriorityDistribution
  emotionalInsights : EmotionalInsights
  recommendationScore : JS.Number
  insights : List Insight
deriving DecidableEq

/-- The rating insights of `generateInsights` (lines 401 to 410): one for each key of
`averageRatings` whose value reads as a score above 0 and below 2.5. -/
def ratingInsights (averageRatings : AverageRatings) : List Insight :=
  averageRatings.entries.filterMap (fun entry =>
    let score := JS.parseFloat entry.2
    if JS.Number.lt (.fin 0) score && JS.Number.lt score (.fin (5 / 2)) then
      some (.improvement entry.1 score)
    else none)

/-- The function `generateInsights`; its second argument is not read. -/
def generateInsights (stats : Stats) : List Insight :=
  (if JS.Number.lt (JS.Number.mul (.fin stats.total) (.fin (3 / 10)))
      (.fin stats.sentimentDistribution.negative) then
    [Insight.warning (JS.Math.round (JS.Number.mul
      (JS.Number.div (.fin stats.sentimentDistribution.negative) (.fin stats.total))
      (.fin 100)))]
  else []) ++
  ratingInsights stats.averageRatings ++
  (if 0 < stats.priorityDistribution.high then [Insight.urgent stats.priorityDistribution.high]
  else []) ++
  (if JS.Number.lt stats.recommendationScore (.fin 60) then
    [Insight.concern stats.recommendationScore]
  else if JS.Number.lt (.fin 80) stats.recommendationScore then
    [Insight.positive stats.recommendationScore]
  else [])

/-- The step of the first loop on `stats.priorityDistribution`: the member named by a
priority level that is not empty is incremented; a level other than the three adds a
member of its own and leaves the three as they are. -/
def countPriority (distribution : PriorityDistribution) (fb : Feedback) :
    PriorityDistribution :=
  if fb.analytics.priorityLevel = "high" then
    { distribution with high := distribution.high + 1 }
  else if fb.analytics.priorityLevel = "medium" then
    { distribution with medium := distribution.medium + 1 }
  else if fb.analytics.priorityLevel = "low" then
    { distribution with low := distribution.low + 1 }
  else distribution

/-- The step of the second loop on `stats.sentimentDistribution` (lines 316 to 320). -/
def countSentiment (distribution : SentimentDistribution) (fb : Feedback) :
    SentimentDistribution :=
  match fb.sentimentAnalysis.combinedAnalysis with
  | none => distribution
  | some combined =>
    if JS.toLowerCase combined.sentiment = "positive" then
      { distribution with positive := distribution.positive + 1 }
    else if JS.toLowerCase combined.sentiment = "negative" then
      { distribution with negative := distribution.negative + 1 }
    else { distribution with neutral := distribution.neutral + 1 }

/-- The member of `averageRatings` for one category, from the ratings of the records
under its key: `ratingCounts[key]` sums the scores `ratingValues[rating] || 0` of the
ratings that are not empty and counts them, and the mean is written by `toFixed(2)`
when the count is positive.  A total that has become a text divides to `NaN`. -/
def categoryAverage (ratings : List String) : JS.Value :=
  let populated := ratings.filter (fun rating => rating != "")
  if 0 < populated.length then
    match (populated.map (JS.lookupOrZero ratingValues)).foldl addScore (some 0) with
    | some total => .str (JS.toFixed2 (JS.Number.div (.fin total) (.fin populated.length)))
    | none => .str (JS.toFixed2 .nan)
  else .num (.fin 0)

/-- The test `r > 0` on a member of `averageRatings`.  The member is the number 0 or a
text written by `toFixed(2)`, and on such a text the conversion to a number reads the
value that `parseFloat` reads. -/
def aboveZero (r : JS.Value) : Bool := JS.Number.lt (.fin 0) (JS.parseFloat r)

/-- The member `overall` of `averageRatings` (lines 345 to 348), from the values of
`Object.values(stats.averageRatings)`. -/
def overallAverage (values : List JS.Value) : JS.Value :=
  let allRatings := values.filter aboveZero
  if 0 < allRatings.length then
    .str (JS.toFixed2 (JS.Number.div
      (allRatings.foldl (fun sum rating => JS.Number.add sum (JS.parseFloat rating)) (.fin 0))
      (.fin allRatings.length)))
  else .num (.fin 0)

/-- The member `averageRatings` of the statistics of a store. -/
def averageRatingsOf (feedbackStorage : List Feedback) : AverageRatings :=
  let cleanliness := categoryAverage (feedbackStorage.map (fun fb => fb.ratings.cleanliness))
  let staffBehavior := categoryAverage (feedbackStorage.map (fun fb => fb.ratings.staffBehavior))
  let information := categoryAverage (feedbackStorage.map (fun fb => fb.ratings.information))
  let signage := categoryAverage (feedbackStorage.map (fun fb => fb.ratings.signage))
  let safety := categoryAverage (feedbackStorage.map (fun fb => fb.ratings.safety))
  { cleanliness := cleanliness, staffBehavior := staffBehavior, information := information
    signage := signage, safety := safety
    overall := overallAverage
      [cleanliness, staffBehavior, information, signage, safety, .num (.fin 0)] }

/-- The variable `totalRecommendationScore` after the second loop: the sum of the
recommendation scores that are truthy. -/
def totalRecommendationScore (feedbackStorage : List Feedback) : JS.Number :=
  feedbackStorage.foldl
    (fun total fb =>
      if fb.analytics.recommendationScore.truthy then
        JS.Number.add total fb.analytics.recommendationScore
      else total)
    (.fin 0)

/-- The statement `if (value) { all.push(...value) }`; `none` is the `TypeError` of a
truthy value that is not iterable. -/
def pushAll (all : List JS.Value) (value : JS.Value) : Option (List JS.Value) :=
  if value.truthy then
    match value.elements with
    | some items => some (all ++ items)
    | none => none
  else some all

/-- The arrays `allEmotions` and `allKeyPhrases` after the second loop; `none` is a
`TypeError` thrown in the loop. -/
def pooled : List Feedback → List JS.Value → List JS.Value →
    Option (List JS.Value × List JS.Value)
  | [], allEmotions, allKeyPhrases => some (allEmotions, allKeyPhrases)
  | fb :: rest, allEmotions, allKeyPhrases =>
    match fb.sentimentAnalysis.combinedAnalysis with
    | none => pooled rest allEmotions allKeyPhrases
    | some combined =>
      match pushAll allEmotions combined.emotions with
      | none => none
      | some emotions =>
        match pushAll allKeyPhrases combined.key_phrases with
        | none => none
        | some keyPhrases => pooled rest emotions keyPhrases

/-- The object `stats` before the insights are added, given the two rankings. -/
def statsOf (feedbackStorage : List Feedback) (topEmotions commonKeyPhrases : List TopItem) :
    Stats :=
  { total := feedbackStorage.length
    byLocation :=
      (ownKeys (tally (feedbackStorage.map (fun fb => fb.visitInfo.locationVisited)))).map
        (fun location =>
          (location,
            countOf (tally (feedbackStorage.map (fun fb => fb.visitInfo.locationVisited)))
              location))
    averageRatings := averageRatingsOf feedbackStorage
    sentimentDistribution := feedbackStorage.foldl countSentiment ⟨0, 0, 0⟩
    priorityDistribution := feedbackStorage.foldl countPriority ⟨0, 0, 0⟩
    emotionalInsights := { topEmotions := topEmotions, commonKeyPhrases := commonKeyPhrases }
    recommendationScore :=
      if 0 < feedbackStorage.length then
        JS.Math.round (JS.Number.div (totalRecommendationScore feedbackStorage)
          (.fin feedbackStorage.length))
      else .fin 0
    insights := [] }

/-- The response of the statistics handler: the report of the empty store (its members
`total`, `recommendationScore` and `insights`; the other four are empty objects), the
report of a store with records, or status 500 after an exception. -/
inductive StatsResponse where
  | noFeedback (total : Nat) (recommendationScore : JS.Number) (insights : List Insight)
  | ok (stats : Stats)
  | serverError
deriving DecidableEq

/-- The handler `router.get('/feedback/stats')` on the store `feedbackStorage`. -/
def getStats (feedbackStorage : List Feedback) : StatsResponse :=
  if feedbackStorage.length = 0 then .noFeedback 0 (.fin 0) []
  else
    match pooled feedbackStorage [] [] with
    | none => .serverError
    | some (allEmotions, allKeyPhrases) =>
      match getTopItems allEmotions 5, getTopItems allKeyPhrases 10 with
      | some topEmotions, some commonKeyPhrases =>
        .ok { statsOf feedbackStorage topEmotions commonKeyPhrases with
              insights :=
                generateInsights (statsOf feedbackStorage topEmotions commonKeyPhrases) }
      | _, _ => .serverError

/-! ## Sample stores for the statistics -/

/-- The submission `shortTextPayload` with the five ratings `Poor`. -/
def allPoorPayload : Payload :=
  { shortTextPayload with
    cleanliness := some "Poor", staffBehavior := some "Poor", information := some "Poor"
    signage := some "Poor", safety := some "Poor" }

/-- The store that holds the record of the one submission `allPoorPayload`. -/
def allPoorStore : List Feedback := (submit 0 negativeOracle [] allPoorPayload).store

/-- The store that holds the record of the one submission `samplePayload`, classified
as negative. -/
def sampleStore : List Feedback := (submit 0 negativeOracle [] samplePayload).store

/-- The five rating categories. -/
def ratingCategories : List String :=
  ["cleanliness", "staffBehavior", "information", "signage", "safety"]

/-- The statistics of `sampleStore`. -/
def sampleStats : Stats :=
  { total := 1
    byLocation := [("Ranchi", .num 1)]
    averageRatings :=
      ⟨.str "1.00", .str "2.00", .str "2.00", .str "1.00", .str "2.00", .str "1.60"⟩
    sentimentDistribution := ⟨0, 0, 1⟩
    priorityDistribution := ⟨1, 0, 0⟩
    emotionalInsights := ⟨[], [⟨"dirty", .num 1⟩]⟩
    recommendationScore := .fin 29
    insights :=
      [.warning (.fin 100), .improvement "cleanliness" (.fin 1),
        .improvement "staffBehavior" (.fin 2), .improvement "information" (.fin 2),
        .improvement "signage" (.fin 1), .improvement "safety" (.fin 2),
        .improvement "overall" (.fin (8 / 5)), .urgent 1, .concern (.fin 29)] }

/-! ## Readings of a record for the statistics -/

/-- The constant `sentiment` of the second loop of the statistics handler for a record:
the combined sentiment in lower case, `none` when the record has no combined
analysis. -/
def combinedSentiment (fb : Feedback) : Option String :=
  fb.sentimentAnalysis.combinedAnalysis.map (fun combined => JS.toLowerCase combined.sentiment)

/-- A value that is a string. -/
def isLabel : JS.Value → Bool
  | .str _ => true
  | _ => false

/-- A value that is an array of strings. -/
def isLabelList : JS.Value → Bool
  | .arr items => items.all isLabel
  | _ => false

/-- A record whose combined analysis, when present, carries arrays of strings as its
emotions and key phrases. -/
def hasLabelLists (fb : Feedback) : Bool :=
  match fb.sentimentAnalysis.combinedAnalysis with
  | none => true
  | some combined => isLabelList combined.emotions && isLabelList combined.key_phrases

/-- A combined sentiment that is present is in lower case. -/
def LowerCaseSentiment (r : Feedback) : Prop :=
  ∀ c, r.sentimentAnalysis.combinedAnalysis = some c → JS.toLowerCase c.sentiment = c.sentiment

/-- The store with the record of `samplePayload`, classified as negative, followed by
the record of `shortTextPayload`, which has no combined analysis. -/
def mixedStore : List Feedback := (submit 1 negativeOracle sampleStore shortTextPayload).store

/-! ## The averages and the ranking of the specification, and sample inputs -/

/-- The mean of a category in the words of the specification: the mean of the mapped
ratings over the records that have the category populated, `none` when no record
has. -/
def specCategoryMean (ratings : List String) : Option ℚ :=
  if ratings.filter (fun rating => rating != "") = [] then none
  else
    some (((ratings.filter (fun rating => rating != "")).map specRatingScore).sum /
      (ratings.filter (fun rating => rating != "")).length)

/-- The overall rating in the words of the specification: the mean of the per-category
means over exactly the categories with at least one observation. -/
def specOverall (feedbackStorage : List Feedback) : Option ℚ :=
  let means :=
    [specCategoryMean (feedbackStorage.map (fun fb => fb.ratings.cleanliness)),
     specCategoryMean (feedbackStorage.map (fun fb => fb.ratings.staffBehavior)),
     specCategoryMean (feedbackStorage.map (fun fb => fb.ratings.information)),
     specCategoryMean (feedbackStorage.map (fun fb => fb.ratings.signage)),
     specCategoryMean (feedbackStorage.map (fun fb => fb.ratings.safety))].filterMap id
  if means = [] then none else some (means.sum / means.length)

/-- The store that holds the record of the one submission `otherRatingPayload`, whose
cleanliness rating is `Terrible`. -/
def otherRatingStore : List Feedback := (submit 0 negativeOracle [] otherRatingPayload).store

/-- The distinct labels of a list in the order of their first appearance. -/
def firstSeen (labels : List String) : List String :=
  labels.foldl (fun seen label => if label ∈ seen then seen else seen ++ [label]) []

/-- The ranking of the specification: each distinct label with its number of
occurrences, ordered by non-increasing count, labels of equal count in the order of
their first appearance, cut to the first `n`. -/
def specTopItems (labels : List String) (n : Nat) : List (String × Nat) :=
  (((firstSeen labels).map (fun label => (label, labels.count label))).insertionSort
    (fun a b => b.2 ≤ a.2)).take n

/-- A response whose object carries the number 5 as its emotions. -/
def numericEmotionsResponse : String :=
  "\x7b\"sentiment\":\"positive\",\"confidence\":0.9,\"emotions\":5\x7d"

/-- Two results with lists of emotions. -/
def twoResults : List SentimentResult :=
  [⟨"Lovely hills", "Positive", .fin (1 / 2), .arr [.str "happy"], .arr [], 0⟩,
   ⟨"Too crowded", "negative", .fin 1, .arr [.str "sad", .str "happy"], .arr [], 1⟩]

/-! ## Plain labels -/

/-- The number that an own member of `counts` holds, 0 for a text and for a key that
is not a member. -/
def numberOf (counts : List (String × Tally)) (key : String) : Nat :=
  match counts.find? (fun m => m.1 == key) with
  | some (_, .num n) => n
  | _ => 0

/-- A label that is counted as the specification says: it is no name of
`Object.prototype` and no array index. -/
def plainLabel (label : String) : Bool :=
  decide (label ∉ JS.objectPrototypeKeys) && !isArrayIndex label

/-! ## Sample classifications with other labels -/

/-- A response whose object carries the sentiment `constructor`, a name that every
object inherits. -/
def inheritedSentimentResponse : String :=
  "\x7b\"sentiment\":\"constructor\",\"confidence\":0.9\x7d"

/-- An oracle whose every call resolves with the sentiment `constructor`. -/
def inheritedSentimentOracle : Nat → CallOutcome :=
  fun _ => .resolved (responseWith (.str inheritedSentimentResponse))

/-- An oracle whose every call resolves with the sentiment `Mixed`. -/
def mixedOracle : Nat → CallOutcome :=
  fun _ => .resolved (responseWith (.str mixedSentimentResponse))

/-- The store that holds the record of the one submission `samplePayload`, classified
as `mixed`. -/
def mixedLabelStore : List Feedback := (submit 0 mixedOracle [] samplePayload).store

/-- An oracle whose every call resolves with the number 5 as the emotions. -/
def numericEmotionsOracle : Nat → CallOutcome :=
  fun _ => .resolved (responseWith (.str numericEmotionsResponse))

/-- The store that holds the record of the one submission `samplePayload`, classified
with the number 5 as its emotions. -/
def numericEmotionsStore : List Feedback :=
  (submit 0 numericEmotionsOracle [] samplePayload).store

/-! # Properties

## Arithmetic of the number model -/

open FeedbackSentimentAnalyzer

theorem number_mul_fin (a b : ℚ) : JS.Number.mul (.fin a) (.fin b) = .fin (a * b) := rfl

theorem number_add_fin (a b : ℚ) : JS.Number.add (.fin a) (.fin b) = .fin (a + b) := rfl

theorem number_sub_fin (a b : ℚ) : JS.Number.sub (.fin a) (.fin b) = .fin (a - b) := by
  simp [JS.Number.sub, JS.Number.neg, JS.Number.add, sub_eq_add_neg]

theorem mathMin_fin (a b : ℚ) : JS.Math.min (.fin a) (.fin b) = .fin (min a b) := by
  simp only [JS.Math.min, JS.Number.le]
  by_cases h : a ≤ b
  · simp [h]
  · simp [h, le_of_lt (not_le.mp h)]

theorem mathMax_fin (a b : ℚ) : JS.Math.max (.fin a) (.fin b) = .fin (max a b) := by
  simp only [JS.Math.max, JS.Number.le]
  by_cases h : a ≤ b
  · simp [h]
  · simp [h, le_of_lt (not_le.mp h)]

/-- Rounding and clamping in the number model are rounding and clamping of integers. -/
theorem clamp_round (x : ℚ) :
    JS.Math.max (.fin 0) (JS.Math.min (.fin 100) (JS.Math.round (.fin x))) =
      .fin ((max 0 (min 100 (round x)) : ℤ) : ℚ) := by
  simp only [JS.Math.round, mathMin_fin, mathMax_fin, round_eq]
  push_cast
  rfl

/-! ## Scoring -/

/-- A sentiment whose label is a name that every object inherits makes the bonus read
find the inherited member: the score becomes text and the function returns `NaN`,
whatever the average rating and the confidence are. -/
theorem calculateRecommendationScore_inherited (averageRating : JS.Number)
    (s : SentimentResult) (h : s.sentiment ∈ JS.objectPrototypeKeys) :
    calculateRecommendationScore averageRating (some s) = .nan := by
  have hl : JS.lookupOrZero sentimentBonus s.sentiment = none := by
    generalize s.sentiment = label at h
    simp only [JS.objectPrototypeKeys, List.mem_cons, List.mem_singleton, List.not_mem_nil,
      or_false] at h
    rcases h with h | h | h | h | h | h | h | h | h | h | h | h <;> subst h <;> decide!
  simp only [calculateRecommendationScore, hl]
  rfl

/-- C1 (the code departs from the claim). The bonus read `sentimentBonus[label] || 0`
finds an inherited member when the label is a name that every object inherits: for the
sentiment `constructor` with confidence 0.9 and the average rating 3.2 the score
becomes text and the function returns `NaN`, which is no integer of `[0, 100]`.  The
label reaches the function through the submit handler: a submission whose
classification carries that sentiment is stored with the recommendation score `NaN`.
A confidence that is `NaN` passes through the clamp as `NaN` too.  On the two sample
inputs of the claim the function returns 100 and 10, and a label outside the three
classes that no object inherits (`mixed`, at confidence 0.5) adds nothing to the score
of the ratings. -/
theorem calculateRecommendationScore_inherited_label :
    calculateRecommendationScore (.fin (16 / 5))
        (some ⟨"Fine", "constructor", .fin (9 / 10), .arr [], .arr [], 0⟩) = .nan ∧
      (submit 0 inheritedSentimentOracle [] samplePayload).store.map
          (fun r => (r.sentimentAnalysis.combinedAnalysis.map (fun c => c.sentiment),
            r.analytics.recommendationScore)) = [(some "constructor", .nan)] ∧
      calculateRecommendationScore (.fin 4)
        (some ⟨"Fine", "positive", .nan, .arr [], .arr [], 0⟩) = .nan ∧
      calculateRecommendationScore (.fin 4)
        (some ⟨"Fine", "positive", .fin (9 / 10), .arr [], .arr [], 0⟩) = .fin 100 ∧
      calculateRecommendationScore (.fin 1)
        (some ⟨"Fine", "negative", .fin (1 / 2), .arr [], .arr [], 0⟩) = .fin 10 ∧
      calculateRecommendationScore (.fin (16 / 5))
        (some ⟨"Fine", "mixed", .fin (1 / 2), .arr [], .arr [], 0⟩) = .fin 80 ∧
      calculateRecommendationScore (.fin (16 / 5)) none = .fin 80 := by
  decide!

/-- C2. `calculatePriorityLevel` is `high` when the average rating is at most 2 or the
sentiment is present and negative; otherwise `medium` when the average rating is at most
3 or the sentiment is present and neutral; otherwise `low`.  An average rating of 2 with
a positive sentiment gives `high`. -/
theorem calculatePriorityLevel_cases (averageRating : ℚ)
    (sentimentAnalysis : Option SentimentResult) :
    ((averageRating ≤ 2 ∨ ∃ s, sentimentAnalysis = some s ∧ s.sentiment = "negative") →
        calculatePriorityLevel sentimentAnalysis (.fin averageRating) = "high") ∧
      (¬(averageRating ≤ 2 ∨
            ∃ s, sentimentAnalysis = some s ∧ s.sentiment = "negative") →
        (averageRating ≤ 3 ∨ ∃ s, sentimentAnalysis = some s ∧ s.sentiment = "neutral") →
        calculatePriorityLevel sentimentAnalysis (.fin averageRating) = "medium") ∧
      (¬(averageRating ≤ 2 ∨
            ∃ s, sentimentAnalysis = some s ∧ s.sentiment = "negative") →
        ¬(averageRating ≤ 3 ∨
            ∃ s, sentimentAnalysis = some s ∧ s.sentiment = "neutral") →
        calculatePriorityLevel sentimentAnalysis (.fin averageRating) = "low") ∧
      calculatePriorityLevel (some ⟨"fine", "positive", .fin (9 / 10), .arr [], .arr [], 0⟩)
        (.fin 2) = "high" := by
  have hneg : (∃ s, sentimentAnalysis = some s ∧ s.sentiment = "negative") ↔
      hasSentiment sentimentAnalysis "negative" = true := by
    cases sentimentAnalysis <;> simp [hasSentiment]
  have hneu : (∃ s, sentimentAnalysis = some s ∧ s.sentiment = "neutral") ↔
      hasSentiment sentimentAnalysis "neutral" = true := by
    cases sentimentAnalysis <;> simp [hasSentiment]
  rw [hneg, hneu]
  refine ⟨?_, ?_, ?_, by decide!⟩
  · intro h
    simp only [calculatePriorityLevel, JS.Number.le, Bool.or_eq_true, decide_eq_true_eq]
    rw [if_pos h]
  · intro h1 h2
    simp only [calculatePriorityLevel, JS.Number.le, Bool.or_eq_true, decide_eq_true_eq]
    rw [if_neg h1, if_pos h2]
  · intro h1 h2
    simp only [calculatePriorityLevel, JS.Number.le, Bool.or_eq_true, decide_eq_true_eq]
    rw [if_neg h1, if_neg h2]

/-- C2 at the average rating 2 with a positive sentiment: the first case applies and
the level is `high`. -/
theorem calculatePriorityLevel_cases_witness :
    ((2 : ℚ) ≤ 2) ∧
      calculatePriorityLevel (some ⟨"fine", "positive", .fin (9 / 10), .arr [], .arr [], 0⟩)
        (.fin 2) = "high" :=
  ⟨le_refl 2, (calculatePriorityLevel_cases 2
    (some ⟨"fine", "positive", .fin (9 / 10), .arr [], .arr [], 0⟩)).1 (Or.inl (le_refl 2))⟩

/-! ## The average rating -/

theorem lookupOrZero_ratingValues (rating : String) (h : rating ∉ JS.objectPrototypeKeys) :
    JS.lookupOrZero ratingValues rating = some (specRatingScore rating) := by
  unfold JS.lookupOrZero ratingValues specRatingScore
  by_cases h1 : rating = "Excellent"
  · subst h1; decide!
  by_cases h2 : rating = "Very Good"
  · subst h2; decide!
  by_cases h3 : rating = "Average"
  · subst h3; decide!
  by_cases h4 : rating = "Poor"
  · subst h4; decide!
  have e1 : ("Excellent" == rating) = false := by simpa using fun e => h1 e.symm
  have e2 : ("Very Good" == rating) = false := by simpa using fun e => h2 e.symm
  have e3 : ("Average" == rating) = false := by simpa using fun e => h3 e.symm
  have e4 : ("Poor" == rating) = false := by simpa using fun e => h4 e.symm
  simp only [List.find?, e1, e2, e3, e4, h1, h2, h3, h4, if_false, if_neg h]

theorem foldl_addScore (ratings : List String) (h : ∀ r ∈ ratings, r ∉ JS.objectPrototypeKeys)
    (a : ℚ) :
    (ratings.map (JS.lookupOrZero ratingValues)).foldl addScore (some a) =
      some (a + (ratings.map specRatingScore).sum) := by
  induction ratings generalizing a with
  | nil => simp
  | cons r rs ih =>
    have hr := lookupOrZero_ratingValues r (h r (List.mem_cons_self r rs))
    simp only [List.map_cons, List.foldl_cons, hr, addScore, List.sum_cons]
    rw [ih (fun x hx => h x (List.mem_cons_of_mem r hx))]
    congr 1
    ring

/-- The average rating is the arithmetic mean of the mapped values whenever no rating
is a name inherited from `Object.prototype`. -/
theorem averageRating_mean (ratings : List String) (hne : ratings ≠ [])
    (h : ∀ r ∈ ratings, r ∉ JS.objectPrototypeKeys) :
    averageRating ratings = .fin ((ratings.map specRatingScore).sum / ratings.length) := by
  have hlen : ((ratings.length : ℕ) : ℚ) ≠ 0 := by
    have : ratings.length ≠ 0 := by simpa using hne
    exact_mod_cast this
  simp only [averageRating, foldl_addScore ratings h, List.length_map, JS.Number.div, zero_add]
  rw [if_neg hlen]

theorem specRatingScore_bounds (rating : String)
    (h : rating ∈ ["Excellent", "Very Good", "Average", "Poor"]) :
    rating ∉ JS.objectPrototypeKeys ∧ 1 ≤ specRatingScore rating ∧
      specRatingScore rating ≤ 4 := by
  simp only [List.mem_cons, List.mem_singleton, List.not_mem_nil, or_false] at h
  rcases h with h | h | h | h <;> subst h <;> refine ⟨by decide, by decide!, by decide!⟩

/-- C4. For five ratings each drawn from Excellent, Very Good, Average and Poor, the
average rating is a number between 1 and 4; five times Excellent gives 4, stored as
`4.00`, and five times Poor gives 1, stored as `1.00`. -/
theorem averageRating_bounds (cleanliness staffBehavior information signage safety : String)
    (h1 : cleanliness ∈ ["Excellent", "Very Good", "Average", "Poor"])
    (h2 : staffBehavior ∈ ["Excellent", "Very Good", "Average", "Poor"])
    (h3 : information ∈ ["Excellent", "Very Good", "Average", "Poor"])
    (h4 : signage ∈ ["Excellent", "Very Good", "Average", "Poor"])
    (h5 : safety ∈ ["Excellent", "Very Good", "Average", "Poor"]) :
    (∃ q : ℚ,
        averageRating [cleanliness, staffBehavior, information, signage, safety] = .fin q ∧
        1 ≤ q ∧ q ≤ 4) ∧
      averageRating ["Excellent", "Excellent", "Excellent", "Excellent", "Excellent"] = .fin 4 ∧
      JS.toFixed2 (averageRating ["Excellent", "Excellent", "Excellent", "Excellent", "Excellent"])
        = "4.00" ∧
      averageRating ["Poor", "Poor", "Poor", "Poor", "Poor"] = .fin 1 ∧
      JS.toFixed2 (averageRating ["Poor", "Poor", "Poor", "Poor", "Poor"]) = "1.00" := by
  refine ⟨?_, by decide!, by decide!, by decide!, by decide!⟩
  obtain ⟨k1, l1, u1⟩ := specRatingScore_bounds _ h1
  obtain ⟨k2, l2, u2⟩ := specRatingScore_bounds _ h2
  obtain ⟨k3, l3, u3⟩ := specRatingScore_bounds _ h3
  obtain ⟨k4, l4, u4⟩ := specRatingScore_bounds _ h4
  obtain ⟨k5, l5, u5⟩ := specRatingScore_bounds _ h5
  refine ⟨_, averageRating_mean _ (by simp) ?_, ?_, ?_⟩
  · intro r hr
    simp only [List.mem_cons, List.mem_singleton, List.not_mem_nil, or_false] at hr
    rcases hr with h | h | h | h | h <;> subst h <;> assumption
  · simp only [List.map_cons, List.map_nil, List.sum_cons, List.sum_nil, List.length_cons,
      List.length_nil]
    rw [le_div_iff₀ (by norm_num)]
    push_cast
    linarith
  · simp only [List.map_cons, List.map_nil, List.sum_cons, List.sum_nil, List.length_cons,
      List.length_nil]
    rw [div_le_iff₀ (by norm_num)]
    push_cast
    linarith

/-- C4 at five ratings Excellent: each is one of the four values and the average is 4. -/
theorem averageRating_bounds_witness :
    ("Excellent" : String) ∈ ["Excellent", "Very Good", "Average", "Poor"] ∧
      ∃ q : ℚ, averageRating ["Excellent", "Excellent", "Excellent", "Excellent", "Excellent"] =
        .fin q ∧ 1 ≤ q ∧ q ≤ 4 :=
  ⟨by decide, (averageRating_bounds "Excellent" "Excellent" "Excellent" "Excellent" "Excellent"
    (by decide) (by decide) (by decide) (by decide) (by decide)).1⟩

/-- C3. A rating that is a name inherited from `Object.prototype` is not mapped to 0:
with cleanliness `constructor` and four times Excellent the average rating is `NaN`, not
the mean `16 / 5` of the mapped values, and the record is stored with the average score
`NaN` and the recommendation score `NaN`. -/
theorem averageRating_inherited_name :
    averageRating ["constructor", "Excellent", "Excellent", "Excellent", "Excellent"] = .nan ∧
      (["constructor", "Excellent", "Excellent", "Excellent", "Excellent"].map
        specRatingScore).sum / 5 = (16 / 5 : ℚ) ∧
      averageRating ["constructor", "Excellent", "Excellent", "Excellent", "Excellent"] ≠
        .fin (16 / 5) ∧
      (submit 1700000000000 (fun _ => .rejected) [] inheritedNamePayload).response =
        .created "1700000000000" none "NaN" .nan := by
  refine ⟨by decide!, by decide!, by decide!, by decide!⟩

theorem lookupOrZero_ratingValues_nat (rating : String) :
    JS.lookupOrZero ratingValues rating = none ∨
      ∃ n : ℕ, n ≤ 4 ∧ JS.lookupOrZero ratingValues rating = some (n : ℚ) := by
  by_cases h : rating ∈ JS.objectPrototypeKeys
  · by_cases h1 : rating = "Excellent"
    · subst h1; exact absurd h (by decide)
    by_cases h2 : rating = "Very Good"
    · subst h2; exact absurd h (by decide)
    by_cases h3 : rating = "Average"
    · subst h3; exact absurd h (by decide)
    by_cases h4 : rating = "Poor"
    · subst h4; exact absurd h (by decide)
    left
    have e1 : ("Excellent" == rating) = false := by simpa using fun e => h1 e.symm
    have e2 : ("Very Good" == rating) = false := by simpa using fun e => h2 e.symm
    have e3 : ("Average" == rating) = false := by simpa using fun e => h3 e.symm
    have e4 : ("Poor" == rating) = false := by simpa using fun e => h4 e.symm
    simp only [JS.lookupOrZero, ratingValues, List.find?, e1, e2, e3, e4, if_pos h]
  · right
    rw [lookupOrZero_ratingValues rating h]
    unfold specRatingScore
    split_ifs
    · exact ⟨4, by norm_num, by norm_num⟩
    · exact ⟨3, by norm_num, by norm_num⟩
    · exact ⟨2, by norm_num, by norm_num⟩
    · exact ⟨1, by norm_num, by norm_num⟩
    · exact ⟨0, by norm_num, by norm_num⟩

theorem foldl_addScore_none (scores : List (Option ℚ)) :
    scores.foldl addScore none = none := by
  induction scores with
  | nil => rfl
  | cons x xs ih => simpa [List.foldl_cons, addScore] using ih

theorem foldl_addScore_nat (ratings : List String) (a : ℕ) :
    (ratings.map (JS.lookupOrZero ratingValues)).foldl addScore (some (a : ℚ)) = none ∨
      ∃ n : ℕ, n ≤ a + 4 * ratings.length ∧
        (ratings.map (JS.lookupOrZero ratingValues)).foldl addScore (some (a : ℚ)) =
          some (n : ℚ) := by
  induction ratings generalizing a with
  | nil => exact Or.inr ⟨a, by simp, rfl⟩
  | cons r rs ih =>
    rcases lookupOrZero_ratingValues_nat r with h | ⟨n, hn, h⟩
    · left
      simp only [List.map_cons, List.foldl_cons, h, addScore]
      exact foldl_addScore_none _
    · simp only [List.map_cons, List.foldl_cons, h, addScore]
      have hcast : ((a : ℚ) + (n : ℚ)) = ((a + n : ℕ) : ℚ) := by push_cast; ring
      rw [hcast]
      rcases ih (a + n) with h' | ⟨m, hm, h'⟩
      · exact Or.inl h'
      · refine Or.inr ⟨m, ?_, h'⟩
        simp only [List.length_cons]
        omega

theorem averageRating_five (a b c d e : String) :
    averageRating [a, b, c, d, e] = .nan ∨
      ∃ n : ℕ, n ≤ 20 ∧ averageRating [a, b, c, d, e] = .fin ((n : ℚ) / 5) := by
  have h := foldl_addScore_nat [a, b, c, d, e] 0
  simp only [Nat.cast_zero] at h
  rcases h with h | ⟨n, hn, h⟩
  · left
    simp only [averageRating, h]
  · right
    refine ⟨n, by simpa using hn, ?_⟩
    simp only [averageRating, h, JS.Number.div, List.length_map, List.length_cons,
      List.length_nil]
    norm_num

/-- The stored average score reads back as the average rating it was written from. -/
theorem parseFloat_toFixed2_averageRating (a b c d e : String) :
    JS.parseFloatString (JS.toFixed2 (averageRating [a, b, c, d, e])) =
      averageRating [a, b, c, d, e] := by
  rcases averageRating_five a b c d e with h | ⟨n, hn, h⟩
  · rw [h]; decide!
  · rw [h]
    interval_cases n <;> decide!

/-! ## The store invariant -/

theorem toLowerCase_ne_empty (s : String) (h : s ≠ "") : JS.toLowerCase s ≠ "" := by
  intro e
  apply h
  have h1 : (JS.toLowerCase s).data = [] := by rw [e]
  simp only [JS.toLowerCase, String.toList, List.map_eq_nil_iff] at h1
  exact String.ext h1

theorem or_neutral_label (v : JS.Value) (label : String)
    (h : v.or (.str "neutral") = .str label) : label ≠ "" := by
  unfold JS.Value.or at h
  split_ifs at h with ht
  · subst h
    simpa [JS.Value.truthy] using ht
  · cases h
    decide

theorem coerce_sentiment (now : Nat) (text : String) (data : JS.Value)
    (r : SentimentResult) (h : coerce now text data = .ok r) :
    r.sentiment ≠ "" := by
  unfold coerce at h
  split at h
  · split at h
    · rename_i label hl
      split at h
      · cases h
      · cases h
        exact toLowerCase_ne_empty _ (or_neutral_label _ _ hl)
    · cases h
  · cases h

theorem parseResponseTry_sentiment (now : Nat) (text : String) (response : JS.Value)
    (r : SentimentResult) (h : parseResponseTry now text response = .ok r) :
    r.sentiment ≠ "" := by
  unfold parseResponseTry at h
  split at h
  · split at h
    · split at h
      · cases h
      · exact coerce_sentiment _ _ _ r h
    · cases h
  · cases h

theorem parseResponse_sentiment (now : Nat) (text : String) (response : JS.Value) :
    (_parseResponse now text response).sentiment ≠ "" := by
  unfold _parseResponse
  split
  · rename_i r h
    exact parseResponseTry_sentiment now text response r h
  · simp [_createFallbackResult]

theorem analyzeSingle_sentiment (now : Nat) (outcome : CallOutcome) (text : String) :
    (analyzeSingle now outcome text).sentiment ≠ "" := by
  unfold analyzeSingle analyzeSentiment
  split
  · rename_i r h
    unfold analyzeSentimentTry at h
    split at h
    · cases h
    · split at h
      · cases h
      · cases h
        exact parseResponse_sentiment _ _ _
  · simp [_createFallbackResult]

theorem sentimentPass_combined (now : Nat) (oracle : Nat → CallOutcome) (start : Nat)
    (a b : Option String) (c : SentimentResult)
    (h : (sentimentPass now oracle start a b).sentimentAnalysis.combinedAnalysis = some c) :
    c.sentiment ≠ "" := by
  simp only [sentimentPass] at h
  split_ifs at h <;>
  · cases h
    exact analyzeSingle_sentiment _ _ _

theorem hasSentiment_iff (o : Option SentimentResult) (label : String) :
    hasSentiment o label = true ↔ ∃ c, o = some c ∧ c.sentiment = label := by
  cases o <;> simp [hasSentiment]

theorem buildFeedback_invariant (now : Nat) (body : Payload) (oracle : Nat → CallOutcome)
    (start : Nat) (a b : Option String) :
    RecordInvariant (buildFeedback now body (sentimentPass now oracle start a b)) := by
  refine ⟨⟨?_, ?_, ?_⟩, ?_⟩
  · exact hasSentiment_iff _ _
  · simp only [buildFeedback, ratingsOf, parseFloat_toFixed2_averageRating]
  · simp only [buildFeedback, ratingsOf, parseFloat_toFixed2_averageRating]
  · intro c hc
    exact sentimentPass_combined _ _ _ _ _ c hc

theorem submit_invariant (now : Nat) (oracle : Nat → CallOutcome) (store : List Feedback)
    (body : Payload) (h : ∀ r ∈ store, RecordInvariant r) :
    ∀ r ∈ (submit now oracle store body).store, RecordInvariant r := by
  unfold submit
  split
  · exact h
  · intro r hr
    simp only [List.mem_append, List.mem_singleton] at hr
    rcases hr with hr | hr
    · exact h r hr
    · subst hr
      exact buildFeedback_invariant _ _ _ _ _ _

theorem reprocessRecord_invariant (now : Nat) (oracle : Nat → CallOutcome) (start : Nat)
    (r : Feedback) (h : RecordInvariant r) (hna : alreadyAnalysed r = false) :
    RecordInvariant (reprocessRecord now oracle start r).1 := by
  have hold : r.sentimentAnalysis.combinedAnalysis = none := by
    cases hc : r.sentimentAnalysis.combinedAnalysis with
    | none => rfl
    | some c =>
      have := h.2 c hc
      simp [alreadyAnalysed, hc, this] at hna
  obtain ⟨⟨h1, h2, h3⟩, _⟩ := h
  rw [hold] at h1 h2 h3
  unfold reprocessRecord
  cases hc : (sentimentPass now oracle start (some r.feedback.overallExperience)
      (some r.feedback.suggestions)).sentimentAnalysis.combinedAnalysis with
  | none =>
    refine ⟨⟨?_, ?_, ?_⟩, ?_⟩
    · simp only [hc]; exact h1
    · simp only [hc]; exact h2
    · simp only [hc]; exact h3
    · intro c hc'
      simp only [hc] at hc'
      cases hc'
  | some c =>
    refine ⟨⟨?_, ?_, ?_⟩, ?_⟩
    · simp only [hc]
      simp
    · simp only [hc]
    · simp only [hc]
    · intro c' hc'
      simp only [hc] at hc'
      cases hc'
      exact sentimentPass_combined _ _ _ _ _ c hc

theorem reprocessLoop_invariant (now : Nat) (oracle : Nat → CallOutcome)
    (store : List Feedback) (start : Nat) (h : ∀ r ∈ store, RecordInvariant r) :
    ∀ r ∈ (reprocessLoop now oracle store start).store, RecordInvariant r := by
  induction store generalizing start with
  | nil => intro r hr; simp [reprocessLoop] at hr
  | cons x xs ih =>
    have hx := h x (List.mem_cons_self x xs)
    have hxs : ∀ r ∈ xs, RecordInvariant r := fun r hr => h r (List.mem_cons_of_mem x hr)
    intro r hr
    unfold reprocessLoop at hr
    split_ifs at hr with ha
    · simp only [List.mem_cons] at hr
      rcases hr with hr | hr
      · subst hr; exact hx
      · exact ih start hxs r hr
    · simp only [List.mem_cons] at hr
      rcases hr with hr | hr
      · subst hr
        exact reprocessRecord_invariant now oracle start x hx (by simpa using ha)
      · exact ih _ hxs r hr

theorem reachable_invariant (store : List Feedback) (h : Reachable store) :
    ∀ r ∈ store, RecordInvariant r := by
  induction h with
  | init => intro r hr; cases hr
  | afterSubmit now oracle store body _ ih => exact submit_invariant now oracle store body ih
  | afterReprocess now oracle store _ ih => exact reprocessLoop_invariant now oracle store 0 ih

/-- C5. In every store reachable from the empty store by submissions and reprocessing
runs, every record has `hasNegativeFeedback` true exactly when its combined analysis is
present with sentiment negative, its recommendation score equal to
`calculateRecommendationScore` of its stored average score and combined analysis, and
its priority level equal to `calculatePriorityLevel` of the same two values. -/
theorem analytics_consistent (store : List Feedback) (h : Reachable store) :
    ∀ r ∈ store, AnalyticsConsistent r :=
  fun r hr => (reachable_invariant store h r hr).1

/-- C5 on the store reached by one submission followed by one reprocessing run, which
holds one record, of negative sentiment and high priority. -/
theorem analytics_consistent_witness :
    Reachable (reprocess 1700000000500 negativeOracle
        (submit 1700000000000 negativeOracle [] samplePayload).store).store ∧
      (reprocess 1700000000500 negativeOracle
        (submit 1700000000000 negativeOracle [] samplePayload).store).store.map
          (fun r => r.analytics) = [⟨4, true, .fin 29, "high"⟩] ∧
      ∀ r ∈ (reprocess 1700000000500 negativeOracle
        (submit 1700000000000 negativeOracle [] samplePayload).store).store,
        AnalyticsConsistent r :=
  ⟨Reachable.afterReprocess _ _ _ (Reachable.afterSubmit _ _ _ _ Reachable.init),
    by decide!,
    analytics_consistent _
      (Reachable.afterReprocess _ _ _ (Reachable.afterSubmit _ _ _ _ Reachable.init))⟩

/-! ## The pattern `/\{[\s\S]*\}/` -/

theorem upToLast_eq_none (c : Char) (t : List Char) : upToLast c t = none ↔ c ∉ t := by
  induction t with
  | nil => simp [upToLast]
  | cons x xs ih =>
    simp only [upToLast, List.mem_cons, not_or]
    cases h : upToLast c xs with
    | none =>
      have := ih.mp h
      by_cases hx : x = c
      · simp [hx]
      · simp [hx, this, Ne.symm hx]
    | some m =>
      have : c ∈ xs := by
        by_contra hc
        rw [ih.mpr hc] at h
        cases h
      simp [this]

theorem upToLast_cons (c y : Char) (ys : List Char) :
    upToLast c (y :: ys) =
      match upToLast c ys with
      | some m => some (y :: m)
      | none => if y = c then some [y] else none := rfl

theorem upToLast_snoc (c x : Char) (a : List Char) :
    upToLast c (a ++ [x]) = if x = c then some (a ++ [x]) else upToLast c a := by
  induction a with
  | nil => simp [upToLast]
  | cons y ys ih =>
    rw [List.cons_append, upToLast_cons, ih, upToLast_cons]
    by_cases hx : x = c
    · simp [hx]
    · simp [hx]

theorem run_anyStar (t : List Char) : Regex.run Regex.anyStar.cls none t = t.length := by
  induction t with
  | nil => simp [Regex.run]
  | cons x xs ih =>
    have hx : Regex.anyStar.cls x = true := by
      simp [Regex.anyStar]
    simp [Regex.run, hx, ih]

theorem matchAt_cons (toEnd : Bool) (t : Regex.Term) (ts : List Regex.Term) (s : List Char) :
    Regex.matchAt toEnd (t :: ts) s =
      Regex.tryLengths (Regex.matchAt toEnd ts) s t.min (Regex.run t.cls t.max s) := rfl

theorem tryLengths_zero (next : List Char → Option (List Char)) (s : List Char) (min : Nat) :
    Regex.tryLengths next s min 0 = if min = 0 then next s else none := rfl

theorem tryLengths_succ (next : List Char → Option (List Char)) (s : List Char)
    (min k : Nat) :
    Regex.tryLengths next s min (k + 1) =
      if k + 1 < min then none
      else
        match next (s.drop (k + 1)) with
        | some m => some (s.take (k + 1) ++ m)
        | none => Regex.tryLengths next s min k := rfl

theorem run_lit_nil (c : Char) : Regex.run (Regex.lit c).cls (Regex.lit c).max [] = 0 := rfl

theorem run_lit_cons (c x : Char) (xs : List Char) :
    Regex.run (Regex.lit c).cls (Regex.lit c).max (x :: xs) = if x = c then 1 else 0 := by
  show Regex.run (fun y => y == c) (some 1) (x :: xs) = _
  by_cases hx : x = c
  · simp [Regex.run, hx]
  · simp [Regex.run, hx]

theorem matchAt_nil (s : List Char) : Regex.matchAt false [] s = some [] := rfl

theorem matchAt_lit (c : Char) (ts : List Regex.Term) (t : List Char) :
    Regex.matchAt false (Regex.lit c :: ts) t =
      match t with
      | [] => none
      | x :: xs =>
        if x = c then (Regex.matchAt false ts xs).map (fun m => x :: m) else none := by
  have hmin : (Regex.lit c).min = 1 := rfl
  cases t with
  | nil => rw [matchAt_cons, run_lit_nil, tryLengths_zero, hmin]; rfl
  | cons x xs =>
    rw [matchAt_cons, run_lit_cons, hmin]
    by_cases hx : x = c
    · simp only [hx, if_true]
      rw [tryLengths_succ]
      simp only [Nat.lt_irrefl, if_false, List.drop_succ_cons, List.drop_zero]
      cases Regex.matchAt false ts xs with
      | none => simp [tryLengths_zero]
      | some m => simp
    · simp only [hx, if_false]
      rw [tryLengths_zero]
      simp

theorem matchAt_lit_last (c : Char) (t : List Char) :
    Regex.matchAt false [Regex.lit c] t =
      match t with
      | [] => none
      | x :: _ => if x = c then some [x] else none := by
  rw [matchAt_lit]
  cases t with
  | nil => rfl
  | cons x xs => simp [matchAt_nil]

theorem tryLengths_lit (c : Char) (t : List Char) (k : Nat) :
    Regex.tryLengths (Regex.matchAt false [Regex.lit c]) t 0 k = upToLast c (t.take (k + 1)) := by
  induction k with
  | zero =>
    rw [tryLengths_zero, if_pos rfl, matchAt_lit_last]
    cases t with
    | nil => rfl
    | cons x xs =>
      show _ = upToLast c [x]
      rw [upToLast_cons]
      rfl
  | succ k ih =>
    rw [tryLengths_succ, if_neg (Nat.not_lt_zero _), ih, matchAt_lit_last]
    by_cases hlen : k + 1 < t.length
    · have hsplit : t.take (k + 1 + 1) = t.take (k + 1) ++ [t[k + 1]] := by
        rw [List.take_succ, List.getElem?_eq_getElem hlen]
        rfl
      have hdrop : t.drop (k + 1) = t[k + 1] :: t.drop (k + 2) := by
        exact List.drop_eq_getElem_cons hlen
      rw [hsplit, upToLast_snoc, hdrop]
      by_cases hx : t[k + 1] = c
      · simp only [hx, if_true]
      · simp only [hx, if_false]
    · have hle : t.length ≤ k + 1 := Nat.le_of_not_lt hlen
      rw [List.drop_eq_nil_of_le hle, List.take_of_length_le hle,
        List.take_of_length_le (Nat.le_succ_of_le hle)]

theorem matchAt_anyStar_lit (c : Char) (t : List Char) :
    Regex.matchAt false [Regex.anyStar, Regex.lit c] t = upToLast c t := by
  have hmin : Regex.anyStar.min = 0 := rfl
  have hmax : Regex.anyStar.max = none := rfl
  rw [matchAt_cons, hmin, hmax, run_anyStar, tryLengths_lit,
    List.take_of_length_le (Nat.le_succ _)]

theorem matchAt_jsonObject (t : List Char) :
    Regex.matchAt false Regex.jsonObject t =
      match t with
      | [] => none
      | x :: xs => if x = '{' then (upToLast '}' xs).map (fun m => x :: m) else none := by
  show Regex.matchAt false [Regex.lit '{', Regex.anyStar, Regex.lit '}'] t = _
  rw [matchAt_lit]
  cases t with
  | nil => rfl
  | cons x xs => simp only [matchAt_anyStar_lit]

theorem firstToLast_eq_none (xs : List Char) (h : '}' ∉ xs) : firstToLast xs = none := by
  induction xs with
  | nil => rfl
  | cons y ys ih =>
    simp only [List.mem_cons, not_or] at h
    simp only [firstToLast, (upToLast_eq_none _ _).mpr h.2, Option.map_none', ih h.2]
    simp

theorem search_jsonObject (s : List Char) :
    Regex.search false Regex.jsonObject s = firstToLast s := by
  induction s with
  | nil => simp [Regex.search, matchAt_jsonObject, firstToLast]
  | cons x xs ih =>
    simp only [Regex.search, matchAt_jsonObject, firstToLast]
    by_cases hx : x = '{'
    · simp only [hx, if_true]
      cases h : upToLast '}' xs with
      | some m => simp
      | none =>
        simp only [Option.map_none']
        rw [ih]
        exact firstToLast_eq_none xs ((upToLast_eq_none _ _).mp h)
    · simp only [hx, if_false]
      exact ih

/-! ## The classifier adapter -/

theorem parseResponseTry_label (now : Nat) (originalText response matched label : String)
    (members : List (String × JS.Value)) (text : String)
    (hm : jsonMatch response = some matched)
    (hp : JS.JSON.parse matched = some (.obj members))
    (hl : ((JS.Value.ownProperty members "sentiment").getD .undefined).or (.str "neutral") =
      .str label)
    (hc : (((JS.Value.ownProperty members "confidence").getD .undefined).or
      (.num (.fin (1 / 2)))).toText = some text) :
    parseResponseTry now originalText (.str response) =
      .ok { text := originalText
            sentiment := JS.toLowerCase label
            confidence := JS.parseFloat
              (((JS.Value.ownProperty members "confidence").getD .undefined).or
                (.num (.fin (1 / 2))))
            emotions :=
              ((JS.Value.ownProperty members "emotions").getD .undefined).or (.arr [])
            key_phrases :=
              ((JS.Value.ownProperty members "key_phrases").getD .undefined).or (.arr [])
            timestamp := now } := by
  simp only [parseResponseTry, coerce, hm, hp,
    JS.Value.getProp, hl, hc]

/-- The conversion of the confidence to text throws: the `try` block ends in a
`TypeError`, whatever the sentiment is. -/
theorem parseResponseTry_no_text (now : Nat) (originalText response matched : String)
    (members : List (String × JS.Value))
    (hm : jsonMatch response = some matched)
    (hp : JS.JSON.parse matched = some (.obj members))
    (hc : (((JS.Value.ownProperty members "confidence").getD .undefined).or
      (.num (.fin (1 / 2)))).toText = none) :
    parseResponseTry now originalText (.str response) = .error .typeError := by
  simp only [parseResponseTry, coerce, hm, hp, JS.Value.getProp, hc]
  split <;> rfl

theorem parseResponseTry_not_label (now : Nat) (originalText response matched : String)
    (members : List (String × JS.Value))
    (hm : jsonMatch response = some matched)
    (hp : JS.JSON.parse matched = some (.obj members))
    (hl : ∀ label,
      ((JS.Value.ownProperty members "sentiment").getD .undefined).or (.str "neutral") ≠
        .str label) :
    parseResponseTry now originalText (.str response) = .error .typeError := by
  simp only [parseResponseTry, coerce, hm, hp,
    JS.Value.getProp]

theorem parseResponse_of_no_match (now : Nat) (originalText response : String)
    (h : jsonMatch response = none) :
    _parseResponse now originalText (.str response) = _createFallbackResult now originalText := by
  simp only [_parseResponse, parseResponseTry, h]

theorem parseResponse_of_parse_none (now : Nat) (originalText response matched : String)
    (hm : jsonMatch response = some matched) (hp : JS.JSON.parse matched = none) :
    _parseResponse now originalText (.str response) = _createFallbackResult now originalText := by
  simp only [_parseResponse, parseResponseTry, hm, hp]

theorem coerce_text (now : Nat) (originalText : String) (data : JS.Value)
    (r : SentimentResult)
    (h : coerce now originalText data = .ok r) :
    r.text = originalText := by
  unfold coerce at h
  split at h
  · split at h
    · split at h
      · cases h
      · cases h; rfl
    · cases h
  · cases h

theorem parseResponse_text (now : Nat) (originalText : String) (response : JS.Value) :
    (_parseResponse now originalText response).text = originalText := by
  unfold _parseResponse
  split
  · rename_i r h
    unfold parseResponseTry at h
    split at h
    · split at h
      · split at h
        · cases h
        · exact coerce_text _ _ _ r h
      · cases h
    · cases h
  · rfl

theorem parseResponse_of_not_string (now : Nat) (originalText : String) (response : JS.Value)
    (h : ∀ s, response ≠ .str s) :
    _parseResponse now originalText response = _createFallbackResult now originalText := by
  cases response with
  | str s => exact absurd rfl (h s)
  | _ => rfl

/-- C6. For every input text and every outcome of the external call, `analyzeSentiment`
returns a result for that text: every exception of its `try` block, and of the `try`
block of `_parseResponse`, ends in the fallback result and none reaches the caller.
When the call is rejected, when the read of the message content throws, or when the
content is not a string, the result is the fallback result: the input text, sentiment
neutral, confidence 0, no emotions and no key phrases. -/
theorem analyzeSentiment_never_raises (now : Nat) (feedbackText : String)
    (outcome : CallOutcome) :
    (analyzeSentiment now outcome feedbackText).text = feedbackText ∧
      (∀ e, analyzeSentimentTry now outcome feedbackText = .error e →
        analyzeSentiment now outcome feedbackText =
          _createFallbackResult now feedbackText) ∧
      (∀ e content, parseResponseTry now feedbackText content = .error e →
        _parseResponse now feedbackText content = _createFallbackResult now feedbackText) ∧
      (outcome = .rejected →
        analyzeSentiment now outcome feedbackText =
          _createFallbackResult now feedbackText) ∧
      (∀ response, outcome = .resolved response →
        (∀ content, responseText response ≠ .ok (.str content)) →
        analyzeSentiment now outcome feedbackText =
          _createFallbackResult now feedbackText) ∧
      _createFallbackResult now feedbackText =
        { text := feedbackText, sentiment := "neutral", confidence := .fin 0
          emotions := .arr [], key_phrases := .arr [], timestamp := now } := by
  refine ⟨?_, ?_, ?_, ?_, ?_, rfl⟩
  · cases outcome with
    | rejected => rfl
    | resolved response =>
      simp only [analyzeSentiment, analyzeSentimentTry]
      cases h : responseText response with
      | error e => rfl
      | ok content => exact parseResponse_text _ _ _
  · intro e h
    simp only [analyzeSentiment, h]
  · intro e content h
    simp only [_parseResponse, h]
  · intro h
    subst h
    rfl
  · intro response h hno
    subst h
    simp only [analyzeSentiment, analyzeSentimentTry]
    cases h : responseText response with
    | error e => rfl
    | ok content =>
      simp only
      apply parseResponse_of_not_string
      intro s hs
      exact hno s (by rw [h, hs])

/-- C6 at a rejected call: the result is the fallback result for the input text. -/
theorem analyzeSentiment_never_raises_witness :
    (CallOutcome.rejected = CallOutcome.rejected) ∧
      analyzeSentiment 0 .rejected "Lovely waterfalls" =
        _createFallbackResult 0 "Lovely waterfalls" :=
  ⟨rfl, (analyzeSentiment_never_raises 0 "Lovely waterfalls" .rejected).2.2.2.1 rfl⟩

/-! ## Parsing of the response -/

theorem upToLast_eq_some (c : Char) (t m : List Char) :
    upToLast c t = some m ↔
      ∃ pre post, t = pre ++ c :: post ∧ c ∉ post ∧ m = pre ++ [c] := by
  induction t generalizing m with
  | nil =>
    constructor
    · intro h; cases h
    · rintro ⟨pre, post, h, -, -⟩
      cases pre <;> cases h
  | cons x xs ih =>
    rw [upToLast_cons]
    cases hx : upToLast c xs with
    | some m' =>
      obtain ⟨pre, post, h1, h2, h3⟩ := (ih m').mp hx
      constructor
      · intro h
        cases h
        exact ⟨x :: pre, post, by rw [h1]; rfl, h2, by rw [h3]; rfl⟩
      · rintro ⟨pre', post', h1', h2', h3'⟩
        cases pre' with
        | nil =>
          simp only [List.nil_append, List.cons.injEq] at h1'
          obtain ⟨-, hxs⟩ := h1'
          rw [hxs] at hx
          rw [(upToLast_eq_none c post').mpr h2'] at hx
          cases hx
        | cons y ys =>
          simp only [List.cons_append, List.cons.injEq] at h1'
          obtain ⟨hy, hxs⟩ := h1'
          have := (ih (ys ++ [c])).mpr ⟨ys, post', hxs, h2', rfl⟩
          rw [hx] at this
          cases this
          rw [h3', hy]
          rfl
    | none =>
      have hnot : c ∉ xs := (upToLast_eq_none c xs).mp hx
      constructor
      · intro h
        by_cases hxc : x = c
        · simp only [hxc, if_true, Option.some.injEq] at h
          exact ⟨[], xs, by rw [hxc]; rfl, hnot, by rw [← h]; rfl⟩
        · simp [hxc] at h
      · rintro ⟨pre', post', h1', h2', h3'⟩
        cases pre' with
        | nil =>
          simp only [List.nil_append, List.cons.injEq] at h1'
          obtain ⟨hxc, -⟩ := h1'
          simp [hxc, h3']
        | cons y ys =>
          simp only [List.cons_append, List.cons.injEq] at h1'
          obtain ⟨-, hxs⟩ := h1'
          exact absurd (by rw [hxs]; simp) hnot

theorem firstToLast_eq_some (s m : List Char) :
    firstToLast s = some m ↔
      ∃ pre mid post, s = pre ++ '{' :: (mid ++ '}' :: post) ∧ '{' ∉ pre ∧ '}' ∉ post ∧
        m = '{' :: (mid ++ ['}']) := by
  induction s generalizing m with
  | nil =>
    constructor
    · intro h; cases h
    · rintro ⟨pre, mid, post, h, -, -, -⟩
      cases pre <;> cases h
  | cons x xs ih =>
    simp only [firstToLast]
    by_cases hx : x = '{'
    · subst hx
      simp only [if_true]
      constructor
      · intro h
        cases hu : upToLast '}' xs with
        | none => rw [hu] at h; cases h
        | some m' =>
          rw [hu] at h
          simp only [Option.map_some', Option.some.injEq] at h
          obtain ⟨mid, post, h1, h2, h3⟩ := (upToLast_eq_some _ _ _).mp hu
          exact ⟨[], mid, post, by rw [h1]; rfl, by simp, h2, by rw [← h, h3]⟩
      · rintro ⟨pre, mid, post, h1, h2, h3, h4⟩
        cases pre with
        | nil =>
          simp only [List.nil_append, List.cons.injEq, true_and] at h1
          rw [(upToLast_eq_some _ _ _).mpr ⟨mid, post, h1, h3, rfl⟩, h4]
          rfl
        | cons y ys =>
          simp only [List.cons_append, List.cons.injEq] at h1
          exact absurd (by rw [← h1.1]; simp) h2
    · simp only [hx, if_false]
      rw [ih]
      constructor
      · rintro ⟨pre, mid, post, h1, h2, h3, h4⟩
        refine ⟨x :: pre, mid, post, by rw [h1]; rfl, ?_, h3, h4⟩
        simp only [List.mem_cons, not_or]
        exact ⟨fun e => hx e.symm, h2⟩
      · rintro ⟨pre, mid, post, h1, h2, h3, h4⟩
        cases pre with
        | nil =>
          simp only [List.nil_append, List.cons.injEq] at h1
          exact absurd h1.1 hx
        | cons y ys =>
          simp only [List.cons_append, List.cons.injEq] at h1
          simp only [List.mem_cons, not_or] at h2
          exact ⟨ys, mid, post, h1.2, h2.2, h3, h4⟩

theorem firstToLast_ne_none (pre mid post : List Char) :
    firstToLast (pre ++ '{' :: (mid ++ '}' :: post)) ≠ none := by
  induction pre with
  | nil =>
    simp only [List.nil_append, firstToLast, if_true]
    have hin : '}' ∈ mid ++ '}' :: post := by simp
    cases hu : upToLast '}' (mid ++ '}' :: post) with
    | none => exact absurd hin ((upToLast_eq_none _ _).mp hu)
    | some m' => simp
  | cons y ys ih =>
    simp only [List.cons_append, firstToLast]
    by_cases hy : y = '{'
    · simp only [hy, if_true]
      have hin : '}' ∈ ys ++ '{' :: (mid ++ '}' :: post) := by simp
      cases hu : upToLast '}' (ys ++ '{' :: (mid ++ '}' :: post)) with
      | none => exact absurd hin ((upToLast_eq_none _ _).mp hu)
      | some m' => simp
    · simp only [hy, if_false]
      exact ih

theorem jsonMatch_eq_some (response matched : String) :
    jsonMatch response = some matched ↔
      ∃ pre mid post, response.toList = pre ++ '{' :: (mid ++ '}' :: post) ∧ '{' ∉ pre ∧
        '}' ∉ post ∧ matched.toList = '{' :: (mid ++ ['}']) := by
  simp only [jsonMatch, search_jsonObject, Option.map_eq_some']
  constructor
  · rintro ⟨m, hm, rfl⟩
    exact (firstToLast_eq_some _ _).mp hm
  · intro h
    exact ⟨matched.toList, (firstToLast_eq_some _ _).mpr h, rfl⟩

theorem jsonMatch_eq_none (response : String) :
    jsonMatch response = none ↔
      ¬∃ pre mid post, response.toList = pre ++ '{' :: (mid ++ '}' :: post) := by
  simp only [jsonMatch, search_jsonObject, Option.map_eq_none']
  constructor
  · rintro h ⟨pre, mid, post, hs⟩
    rw [hs] at h
    exact firstToLast_ne_none pre mid post h
  · intro h
    cases hf : firstToLast response.toList with
    | none => rfl
    | some m =>
      obtain ⟨pre, mid, post, h1, -, -, -⟩ := (firstToLast_eq_some _ _).mp hf
      exact absurd ⟨pre, mid, post, h1⟩ h
section JsonObject

open JS JS.JSON

/-- The members of an object parse to an object. -/
theorem parseMembers_obj (fuel : Nat) (cs : List Char) (acc : List (String × Value))
    (v : Value) (rest : List Char) (h : parseMembers fuel cs acc = some (v, rest)) :
    ∃ members, v = .obj members := by
  induction fuel generalizing cs acc with
  | zero => simp [parseMembers] at h
  | succ f ih =>
    rw [parseMembers] at h
    split at h
    · cases h
    · split at h
      · cases h
      · split at h
        · cases h
        · split at h
          · cases h
          · split at h
            · cases h
            · split_ifs at h
              · exact ih _ _ h
              · cases h
                exact ⟨_, rfl⟩

/-- A text that starts with `{` parses to an object. -/
theorem parse_brace_obj (text : String) (tail : List Char) (data : Value)
    (ht : text.toList = '{' :: tail) (h : parse text = some data) :
    ∃ members, data = .obj members := by
  unfold parse at h
  rw [ht] at h
  rw [parseValue] at h
  have hws : skipWs ('{' :: tail) = '{' :: tail := by
    simp [skipWs, isWs]
  rw [hws] at h
  simp only [if_true] at h
  split at h
  · rename_i v rest hv
    split_ifs at h
    cases h
    split at hv
    · cases hv
      exact ⟨_, rfl⟩
    · exact parseMembers_obj _ _ _ _ _ hv
  · cases h

end JsonObject

/-- A text that the JSON pattern matches starts with `{`, so when it parses it parses to
an object. -/
theorem parse_matched_obj (response matched : String) (data : JS.Value)
    (hm : jsonMatch response = some matched) (hp : JS.JSON.parse matched = some data) :
    ∃ members, data = .obj members := by
  obtain ⟨pre, mid, post, -, -, -, h4⟩ := (jsonMatch_eq_some response matched).mp hm
  exact parse_brace_obj matched _ data h4 hp

/-- C7. For every original text and every raw response that contains no `{` followed
later by a `}`, or whose `{...}` match fails to parse as JSON, `_parseResponse` returns
the fallback result: the original text, sentiment neutral, confidence exactly 0, no
emotions and no key phrases. -/
theorem parseResponse_fallback (now : Nat) (originalText response : String)
    (h : (¬∃ pre mid post, response.toList = pre ++ '{' :: (mid ++ '}' :: post)) ∨
      ∃ matched, jsonMatch response = some matched ∧ JS.JSON.parse matched = none) :
    _parseResponse now originalText (.str response) =
      { text := originalText, sentiment := "neutral", confidence := .fin 0
        emotions := .arr [], key_phrases := .arr [], timestamp := now } := by
  rcases h with h | ⟨matched, hm, hp⟩
  · exact parseResponse_of_no_match now originalText response ((jsonMatch_eq_none response).mpr h)
  · exact parseResponse_of_parse_none now originalText response matched hm hp

/-- C7 at a response without braces, and at a response whose match is not JSON. -/
theorem parseResponse_fallback_witness :
    (¬∃ pre mid post, "I cannot rate this text.".toList = pre ++ '{' :: (mid ++ '}' :: post)) ∧
      _parseResponse 0 "Nice" (.str "I cannot rate this text.") =
        { text := "Nice", sentiment := "neutral", confidence := .fin 0
          emotions := .arr [], key_phrases := .arr [], timestamp := 0 } ∧
      (jsonMatch "\x7bsentiment: positive\x7d" = some "\x7bsentiment: positive\x7d" ∧
        JS.JSON.parse "\x7bsentiment: positive\x7d" = none) ∧
      _parseResponse 0 "Nice" (.str "\x7bsentiment: positive\x7d") =
        { text := "Nice", sentiment := "neutral", confidence := .fin 0
          emotions := .arr [], key_phrases := .arr [], timestamp := 0 } := by
  have h1 : ¬∃ pre mid post,
      "I cannot rate this text.".toList = pre ++ '{' :: (mid ++ '}' :: post) := by
    rintro ⟨pre, mid, post, h⟩
    have hin : '{' ∈ "I cannot rate this text.".toList := by rw [h]; simp
    exact absurd hin (by decide)
  have h2 : jsonMatch "\x7bsentiment: positive\x7d" = some "\x7bsentiment: positive\x7d" ∧
      JS.JSON.parse "\x7bsentiment: positive\x7d" = none := by decide!
  exact ⟨h1, parseResponse_fallback 0 "Nice" _ (Or.inl h1), h2,
    parseResponse_fallback 0 "Nice" _ (Or.inr ⟨_, h2⟩)⟩

theorem or_falsy (v d : JS.Value) (h : v.truthy = false) : v.or d = d := by
  simp [JS.Value.or, h]

theorem or_truthy (v d : JS.Value) (h : v.truthy = true) : v.or d = v := by
  simp [JS.Value.or, h]

theorem listsKept_coerced (members : List (String × JS.Value)) (r : SentimentResult)
    (he : r.emotions =
      ((JS.Value.ownProperty members "emotions").getD .undefined).or (.arr []))
    (hk : r.key_phrases =
      ((JS.Value.ownProperty members "key_phrases").getD .undefined).or (.arr [])) :
    ListsKept members r := by
  refine ⟨?_, ?_, ?_, ?_⟩
  · intro items h; rw [he, h]; rfl
  · intro h; rw [he, h]; rfl
  · intro items h; rw [hk, h]; rfl
  · intro h; rw [hk, h]; rfl

theorem toText_num (n : JS.Number) :
    (JS.Value.num n).toText = some (JS.numberToString n) := by
  simp [JS.Value.toText]

/-- C8, amended. For every raw response whose JSON object parses (a matched text that
parses is always an object, `parse_matched_obj`), the result of `_parseResponse` has the
original text.  When the conversion of the confidence to text throws (the confidence
member is an object with a member `toString`, or an array that holds one), the result
is the fallback result.  Otherwise: when the sentiment member of the object is absent or
falsy the sentiment is neutral, when it is a non-empty string the sentiment comes from
that string (for a string of ASCII characters it is the string with `A` to `Z`
lowered), and in both cases the emotions and key phrases are the lists of the object
(empty lists when absent).  When the sentiment member is any other value the result is
the fallback result.  The response of the worked example yields sentiment positive,
confidence 0.87, no emotions and the key phrase `great trip`. -/
theorem parseResponse_fields (now : Nat) (originalText response matched : String)
    (members : List (String × JS.Value))
    (hm : jsonMatch response = some matched)
    (hp : JS.JSON.parse matched = some (.obj members)) :
    (_parseResponse now originalText (.str response)).text = originalText ∧
      ((((JS.Value.ownProperty members "confidence").getD .undefined).or
          (.num (.fin (1 / 2)))).toText = none →
        _parseResponse now originalText (.str response) =
          _createFallbackResult now originalText) ∧
      (∀ text, (((JS.Value.ownProperty members "confidence").getD .undefined).or
          (.num (.fin (1 / 2)))).toText = some text →
        (((JS.Value.ownProperty members "sentiment").getD .undefined).truthy = false →
          (_parseResponse now originalText (.str response)).sentiment = "neutral" ∧
            ListsKept members (_parseResponse now originalText (.str response))) ∧
        (∀ label, label ≠ "" →
          JS.Value.ownProperty members "sentiment" = some (.str label) →
          ListsKept members (_parseResponse now originalText (.str response)) ∧
            (JS.isAscii label = true →
              (_parseResponse now originalText (.str response)).sentiment =
                JS.toLowerCase label))) ∧
      (∀ v, JS.Value.ownProperty members "sentiment" = some v → v.truthy = true →
        (∀ label, v ≠ .str label) →
        _parseResponse now originalText (.str response) =
          _createFallbackResult now originalText) ∧
      _parseResponse 0 "Had a great trip" (.str greatTripResponse) =
        { text := "Had a great trip", sentiment := "positive", confidence := .fin (87 / 100)
          emotions := .arr [], key_phrases := .arr [.str "great trip"], timestamp := 0 } := by
  refine ⟨parseResponse_text _ _ _, ?_, ?_, ?_, by decide!⟩
  · intro hc
    simp only [_parseResponse,
      parseResponseTry_no_text now originalText response matched members hm hp hc]
  · intro text hc
    constructor
    · intro hf
      have hl := or_falsy _ (.str "neutral") hf
      have h := parseResponseTry_label now originalText response matched "neutral" members
        text hm hp hl hc
      simp only [_parseResponse, h]
      exact ⟨by decide, listsKept_coerced _ _ rfl rfl⟩
    · intro label hne hs
      have hl : ((JS.Value.ownProperty members "sentiment").getD .undefined).or
          (.str "neutral") = .str label := by
        rw [hs]
        exact or_truthy _ _ (by simpa [JS.Value.truthy] using hne)
      have h := parseResponseTry_label now originalText response matched label members
        text hm hp hl hc
      simp only [_parseResponse, h]
      exact ⟨listsKept_coerced _ _ rfl rfl, fun _ => trivial⟩
  · intro v hs ht hnot
    have hl : ∀ label,
        ((JS.Value.ownProperty members "sentiment").getD .undefined).or (.str "neutral") ≠
          .str label := by
      intro label
      rw [hs]
      simp only [Option.getD_some, or_truthy _ _ ht]
      exact hnot label
    have h := parseResponseTry_not_label now originalText response matched members hm hp hl
    simp only [_parseResponse, h]

/-- C8 at the response of the worked example, whose sentiment member is the non-empty
ASCII string `POSITIVE` and whose confidence is a number; and at a response whose
confidence is an object with a member `toString`, for which the result is the fallback
result although the object carries a sentiment and a list of emotions. -/
theorem parseResponse_fields_witness :
    (jsonMatch greatTripResponse = some greatTripResponse ∧
        JS.JSON.parse greatTripResponse =
          some (.obj [("sentiment", .str "POSITIVE"), ("confidence", .num (.fin (87 / 100))),
            ("key_phrases", .arr [.str "great trip"])])) ∧
      (ListsKept [("sentiment", .str "POSITIVE"), ("confidence", .num (.fin (87 / 100))),
            ("key_phrases", .arr [.str "great trip"])]
          (_parseResponse 0 "Had a great trip" (.str greatTripResponse)) ∧
        (JS.isAscii "POSITIVE" = true →
          (_parseResponse 0 "Had a great trip" (.str greatTripResponse)).sentiment =
            JS.toLowerCase "POSITIVE")) ∧
      (jsonMatch unreadableConfidenceResponse = some unreadableConfidenceResponse ∧
        JS.JSON.parse unreadableConfidenceResponse =
          some (.obj [("sentiment", .str "POSITIVE"),
            ("confidence", .obj [("toString", .num (.fin 1))]),
            ("emotions", .arr [.str "happy"])])) ∧
      _parseResponse 0 "Had a great trip" (.str unreadableConfidenceResponse) =
        _createFallbackResult 0 "Had a great trip" := by
  have h : jsonMatch greatTripResponse = some greatTripResponse ∧
      JS.JSON.parse greatTripResponse =
        some (.obj [("sentiment", .str "POSITIVE"), ("confidence", .num (.fin (87 / 100))),
          ("key_phrases", .arr [.str "great trip"])]) := by decide!
  have h2 : jsonMatch unreadableConfidenceResponse = some unreadableConfidenceResponse ∧
      JS.JSON.parse unreadableConfidenceResponse =
        some (.obj [("sentiment", .str "POSITIVE"),
          ("confidence", .obj [("toString", .num (.fin 1))]),
          ("emotions", .arr [.str "happy"])]) := by decide!
  exact ⟨h, ((parseResponse_fields 0 "Had a great trip" greatTripResponse greatTripResponse _
      h.1 h.2).2.2.1 "0.87" (by decide!)).2 "POSITIVE" (by decide) (by decide!), h2,
    (parseResponse_fields 0 "Had a great trip" unreadableConfidenceResponse
      unreadableConfidenceResponse _ h2.1 h2.2).2.1 (by decide!)⟩

/-- C8 fails as stated.  The object with sentiment `5` parses, its emotions are
`["happy"]` and its key phrases `["great trip"]`, yet the result carries empty lists
(it is the fallback result); and for the object with the empty sentiment the result has
sentiment neutral, which is not the empty string lowercased. -/
theorem parseResponse_fields_counterexample :
    jsonMatch numericSentimentResponse = some numericSentimentResponse ∧
      JS.JSON.parse numericSentimentResponse =
        some (.obj [("sentiment", .num (.fin 5)), ("confidence", .num (.fin (9 / 10))),
          ("emotions", .arr [.str "happy"]), ("key_phrases", .arr [.str "great trip"])]) ∧
      (_parseResponse 0 "Had a great trip" (.str numericSentimentResponse)).emotions = .arr [] ∧
      (_parseResponse 0 "Had a great trip" (.str numericSentimentResponse)).emotions ≠
        .arr [.str "happy"] ∧
      (_parseResponse 0 "Had a great trip" (.str numericSentimentResponse)).key_phrases ≠
        .arr [.str "great trip"] ∧
      JS.JSON.parse emptySentimentResponse =
        some (.obj [("sentiment", .str ""), ("confidence", .num (.fin (9 / 10)))]) ∧
      (_parseResponse 0 "Had a great trip" (.str emptySentimentResponse)).sentiment = "neutral" ∧
      (_parseResponse 0 "Had a great trip" (.str emptySentimentResponse)).sentiment ≠
        JS.toLowerCase "" := by
  decide!

/-- C9. The confidence `0` of a parsed object is not kept: the result has confidence
0.5.  A confidence that cannot be parsed as a number does not give 0.5: the result has
confidence `NaN`, and the recommendation score computed from it is `NaN`. -/
theorem parseResponse_confidence_slips :
    JS.JSON.parse zeroConfidenceResponse =
        some (.obj [("sentiment", .str "negative"), ("confidence", .num (.fin 0))]) ∧
      (_parseResponse 0 "Dirty rooms" (.str zeroConfidenceResponse)).confidence = .fin (1 / 2) ∧
      (_parseResponse 0 "Dirty rooms" (.str zeroConfidenceResponse)).confidence ≠ .fin 0 ∧
      JS.JSON.parse wordConfidenceResponse =
        some (.obj [("sentiment", .str "negative"), ("confidence", .str "high")]) ∧
      (_parseResponse 0 "Dirty rooms" (.str wordConfidenceResponse)).confidence = .nan ∧
      (_parseResponse 0 "Dirty rooms" (.str wordConfidenceResponse)).confidence ≠ .fin (1 / 2) ∧
      calculateRecommendationScore (.fin 2)
        (some (_parseResponse 0 "Dirty rooms" (.str wordConfidenceResponse))) = .nan := by
  decide!

/-- C10 fails as stated.  For a response that holds one valid JSON object followed by
text with another `}`, the first balanced `{...}` substring is that object, but the text
handed to the parser runs on to the last `}`; it does not parse and the result is the
fallback result, whereas the object alone gives sentiment positive. -/
theorem jsonMatch_not_first_balanced :
    firstBalanced trailingBraceResponse.toList = some trailingBraceObject.toList ∧
      jsonMatch trailingBraceResponse ≠ some trailingBraceObject ∧
      jsonMatch trailingBraceResponse =
        some trailingBraceMatch ∧
      JS.JSON.parse trailingBraceObject =
        some (.obj [("sentiment", .str "positive"), ("confidence", .num (.fin (9 / 10)))]) ∧
      JS.JSON.parse trailingBraceMatch = none ∧
      _parseResponse 0 "Lovely" (.str trailingBraceResponse) =
        _createFallbackResult 0 "Lovely" ∧
      _parseResponse 0 "Lovely" (.str trailingBraceObject) =
        { text := "Lovely", sentiment := "positive", confidence := .fin (9 / 10)
          emotions := .arr [], key_phrases := .arr [], timestamp := 0 } := by
  decide!

theorem parseResponseTry_of_match (now : Nat) (originalText response matched : String)
    (hm : jsonMatch response = some matched) :
    (JS.JSON.parse matched = none →
        parseResponseTry now originalText (.str response) = .error .syntaxError) ∧
      ∀ data, JS.JSON.parse matched = some data →
        parseResponseTry now originalText (.str response) = coerce now originalText data := by
  constructor
  · intro hp
    simp only [parseResponseTry, hm, hp]
  · intro data hp
    simp only [parseResponseTry, hm, hp]

theorem jsonMatch_ne_inner (response : String) (pre mid tail : List Char)
    (h : response.toList = pre ++ '{' :: (mid ++ '}' :: tail)) (ht : '}' ∈ tail) :
    jsonMatch response ≠ some (String.mk ('{' :: (mid ++ ['}']))) := by
  intro hj
  obtain ⟨pre', mid', post', h1, h2, h3, h4⟩ := (jsonMatch_eq_some _ _).mp hj
  have hmid : mid' = mid := by
    have h4' : '{' :: (mid ++ ['}']) = '{' :: (mid' ++ ['}']) := h4
    simp only [List.cons.injEq, true_and] at h4'
    exact (List.append_cancel_right h4').symm
  subst hmid
  rw [h] at h1
  rcases List.append_eq_append_iff.mp h1 with ⟨a, ha, hb⟩ | ⟨c, hc, hd⟩
  · cases a with
    | nil =>
      simp only [List.nil_append, List.cons.injEq, true_and] at hb
      have := List.append_cancel_left hb
      simp only [List.cons.injEq, true_and] at this
      exact h3 (this ▸ ht)
    | cons x xs =>
      simp only [List.cons_append, List.cons.injEq] at hb
      exact h2 (by rw [ha, ← hb.1]; simp)
  · have hlen := congrArg List.length hd
    have hsuf1 : tail <:+ '{' :: (mid' ++ '}' :: post') :=
      ⟨c ++ '{' :: (mid' ++ ['}']), by rw [hd]; simp⟩
    have hsuf2 : post' <:+ '{' :: (mid' ++ '}' :: post') :=
      ⟨'{' :: (mid' ++ ['}']), by simp⟩
    have hle : tail.length ≤ post'.length := by
      simp only [List.length_cons, List.length_append] at hlen
      omega
    have hsuf := List.suffix_of_suffix_length_le hsuf1 hsuf2 hle
    exact h3 (hsuf.subset ht)

/-- C10, amended. The text that `_parseResponse` hands to the JSON parser is the part of
the response from its first `{` to its last `}`: the match is that part, and the `try`
block continues with the parse of exactly that text.  So for a response in which a
`{...}` group is followed by text that contains another `}`, the text handed over is not
that group, and the result is the fallback result whenever the longer text does not
parse. -/
theorem jsonMatch_first_to_last (now : Nat) (originalText response matched : String) :
    (jsonMatch response = some matched ↔
        ∃ pre mid post, response.toList = pre ++ '{' :: (mid ++ '}' :: post) ∧ '{' ∉ pre ∧
          '}' ∉ post ∧ matched.toList = '{' :: (mid ++ ['}'])) ∧
      (jsonMatch response = some matched → ∀ data, JS.JSON.parse matched = some data →
        parseResponseTry now originalText (.str response) = coerce now originalText data) ∧
      (∀ pre mid tail, response.toList = pre ++ '{' :: (mid ++ '}' :: tail) → '}' ∈ tail →
        jsonMatch response ≠ some (String.mk ('{' :: (mid ++ ['}'])))) ∧
      (jsonMatch response = some matched → JS.JSON.parse matched = none →
        _parseResponse now originalText (.str response) =
          _createFallbackResult now originalText) :=
  ⟨jsonMatch_eq_some response matched,
    fun hm => (parseResponseTry_of_match now originalText response matched hm).2,
    fun pre mid tail h ht => jsonMatch_ne_inner response pre mid tail h ht,
    parseResponse_of_parse_none now originalText response matched⟩

/-- C10 at the response with a stray closing brace: the match runs to the last `}`, it
does not parse, and the result is the fallback result. -/
theorem jsonMatch_first_to_last_witness :
    (jsonMatch trailingBraceResponse =
        some trailingBraceMatch ∧
      JS.JSON.parse trailingBraceMatch = none) ∧
      _parseResponse 0 "Lovely" (.str trailingBraceResponse) =
        _createFallbackResult 0 "Lovely" := by
  have h : jsonMatch trailingBraceResponse =
        some trailingBraceMatch ∧
      JS.JSON.parse trailingBraceMatch = none := by
    decide!
  exact ⟨h, (jsonMatch_first_to_last 0 "Lovely" trailingBraceResponse _).2.2.2 h.1 h.2⟩

/-! ## The budget of the JSON parser -/

section JsonBudget

open JS JS.JSON

theorem skipWs_length (cs : List Char) : (skipWs cs).length ≤ cs.length := by
  unfold skipWs
  exact (List.dropWhile_suffix _).length_le

theorem parseStringBody_length (fuel : Nat) (cs : List Char) (acc : List Nat) (s : String)
    (rest : List Char) (h : parseStringBody fuel cs acc = some (s, rest)) :
    rest.length < cs.length := by
  induction fuel generalizing cs acc with
  | zero => simp [parseStringBody] at h
  | succ f ih =>
    cases cs with
    | nil => simp [parseStringBody] at h
    | cons c cs =>
      simp only [parseStringBody] at h
      split_ifs at h with h1 h2 h3
      · cases h
        simp
      · split at h
        · split at h
          · have := ih _ _ h
            simp only [List.length_cons]
            omega
          · cases h
        · split at h
          · have := ih _ _ h
            simp only [List.length_cons]
            omega
          · cases h
        · cases h
      · have := ih _ _ h
        simp only [List.length_cons]
        omega

/-- The budget that the parser gives to a string literal, its length plus one, is never
used up: one more unit changes nothing. -/
theorem parseStringBody_fuel (fuel : Nat) (cs : List Char) (acc : List Nat)
    (h : cs.length + 1 ≤ fuel) :
    parseStringBody fuel cs acc = parseStringBody (fuel + 1) cs acc := by
  induction fuel generalizing cs acc with
  | zero => omega
  | succ f ih =>
    cases cs with
    | nil => rfl
    | cons c cs =>
      simp only [List.length_cons] at h
      simp only [parseStringBody]
      split_ifs with h1 h2 h3
      · rfl
      · split
        · split
          · apply ih
            simp only [List.length_cons] at h
            omega
          · rfl
        · split
          · apply ih
            simp only [List.length_cons] at h
            omega
          · rfl
        · rfl
      · rfl
      · apply ih
        omega

theorem dropWhile_length_le (p : Char → Bool) (cs : List Char) :
    (cs.dropWhile p).length ≤ cs.length :=
  (List.dropWhile_suffix p).length_le

theorem dropWhile_length_lt (p : Char → Bool) (cs : List Char) (h : cs.takeWhile p ≠ []) :
    (cs.dropWhile p).length < cs.length := by
  have h1 : (cs.takeWhile p).length + (cs.dropWhile p).length = cs.length := by
    rw [← List.length_append, List.takeWhile_append_dropWhile]
  have h2 : 0 < (cs.takeWhile p).length := List.length_pos.mpr h
  omega

theorem parseFraction_length (afterInt : List Char) (q : ℚ) (rest : List Char)
    (h : parseFraction afterInt = some (q, rest)) : rest.length ≤ afterInt.length := by
  unfold parseFraction at h
  split at h
  · split_ifs at h
    cases h
    have := dropWhile_length_le isDigit ‹List Char›
    simp only [List.length_cons]
    omega
  · cases h
    exact le_refl _

theorem parseExponentDigits_length (negative : Bool) (ds : List Char) (q : ℚ)
    (rest : List Char) (h : parseExponentDigits negative ds = some (q, rest)) :
    rest.length ≤ ds.length := by
  unfold parseExponentDigits at h
  split_ifs at h
  cases h
  exact dropWhile_length_le isDigit ds

theorem parseExponent_length (afterFrac : List Char) (q : ℚ) (rest : List Char)
    (h : parseExponent afterFrac = some (q, rest)) : rest.length ≤ afterFrac.length := by
  unfold parseExponent at h
  split at h
  · cases h
    exact le_refl _
  · split_ifs at h
    · split at h
      · have := parseExponentDigits_length _ _ _ _ h
        simp only [List.length_cons]
        omega
      · have := parseExponentDigits_length _ _ _ _ h
        simp only [List.length_cons]
        omega
      · have := parseExponentDigits_length _ _ _ _ h
        simp only [List.length_cons]
        omega
    · cases h
      exact le_refl _

theorem parseUnsigned_length (body : List Char) (q : ℚ) (rest : List Char)
    (h : parseUnsigned body = some (q, rest)) : rest.length < body.length := by
  unfold parseUnsigned at h
  split_ifs at h with hbad
  have hint : body.takeWhile isDigit ≠ [] := fun e => hbad (Or.inl e)
  have hafter := dropWhile_length_lt isDigit body hint
  split at h
  · cases h
  · rename_i frac afterFrac hfrac
    have h1 := parseFraction_length _ _ _ hfrac
    split at h
    · cases h
    · rename_i factor rest' hexp
      have h2 := parseExponent_length _ _ _ hexp
      cases h
      omega

theorem parseNumber_length (cs : List Char) (q : ℚ) (rest : List Char)
    (h : parseNumber cs = some (q, rest)) : rest.length < cs.length := by
  unfold parseNumber at h
  split at h
  · split at h
    · rename_i q' rest' hu
      have := parseUnsigned_length _ _ _ hu
      cases h
      simp only [List.length_cons]
      omega
    · cases h
  · exact parseUnsigned_length _ _ _ h

theorem skipWs_cons_length (cs rest : List Char) (c : Char) (h : skipWs cs = c :: rest) :
    rest.length < cs.length := by
  have := skipWs_length cs
  rw [h, List.length_cons] at this
  omega

theorem closes_length (c : Char) (cs after : List Char) (h : closes c cs = some after) :
    after.length < cs.length := by
  unfold closes at h
  split at h
  · cases h
  · rename_i x r hws
    split_ifs at h
    cases h
    exact skipWs_cons_length _ _ _ hws

theorem stripWord_length (word cs after : List Char) (hw : word ≠ [])
    (h : stripWord word cs = some after) : after.length < cs.length := by
  unfold stripWord at h
  split_ifs at h with ht
  cases h
  have h1 : (cs.take word.length).length = word.length := by rw [ht]
  have h2 : 0 < word.length := List.length_pos.mpr hw
  simp only [List.length_take] at h1
  simp only [List.length_drop]
  omega

/-- Every successful step of the descent consumes at least one character. -/
theorem parse_length (fuel : Nat) :
    (∀ cs v rest, parseValue fuel cs = some (v, rest) → rest.length < cs.length) ∧
      (∀ cs acc v rest, parseElements fuel cs acc = some (v, rest) →
        rest.length < cs.length) ∧
      (∀ cs acc v rest, parseMembers fuel cs acc = some (v, rest) →
        rest.length < cs.length) := by
  induction fuel with
  | zero =>
    refine ⟨?_, ?_, ?_⟩
    · intro cs v rest h; simp [parseValue] at h
    · intro cs acc v rest h; simp [parseElements] at h
    · intro cs acc v rest h; simp [parseMembers] at h
  | succ f ih =>
    obtain ⟨ihV, ihE, ihM⟩ := ih
    refine ⟨?_, ?_, ?_⟩
    · intro cs v rest h
      rw [parseValue] at h
      split at h
      · cases h
      · rename_i c r hws
        have h0 := skipWs_cons_length _ _ _ hws
        have h0' : (c :: r).length ≤ cs.length := by
          have := skipWs_length cs
          rwa [hws] at this
        split_ifs at h
        · split at h
          · rename_i after hc
            have := closes_length _ _ _ hc
            cases h
            omega
          · have := ihM _ _ _ _ h
            omega
        · split at h
          · rename_i after hc
            have := closes_length _ _ _ hc
            cases h
            omega
          · have := ihE _ _ _ _ h
            omega
        · split at h
          · rename_i s after hs
            have := parseStringBody_length _ _ _ _ _ hs
            cases h
            omega
          · cases h
        · split at h
          · rename_i after hs
            have := stripWord_length _ _ _ (by simp) hs
            cases h
            omega
          · split at h
            · rename_i after hs
              have := stripWord_length _ _ _ (by simp) hs
              cases h
              omega
            · split at h
              · rename_i after hs
                have := stripWord_length _ _ _ (by simp) hs
                cases h
                omega
              · split at h
                · rename_i q after hn
                  have := parseNumber_length _ _ _ hn
                  cases h
                  omega
                · cases h
    · intro cs acc v rest h
      rw [parseElements] at h
      split at h
      · cases h
      · rename_i v' r hv
        have h0 := ihV _ _ _ hv
        split at h
        · cases h
        · rename_i x after hws
          have h1 := skipWs_cons_length _ _ _ hws
          split_ifs at h
          · have := ihE _ _ _ _ h
            omega
          · cases h
            omega
    · intro cs acc v rest h
      rw [parseMembers] at h
      split at h
      · cases h
      · rename_i r hc
        have h0 := closes_length _ _ _ hc
        split at h
        · cases h
        · rename_i key afterKey hk
          have h1 := parseStringBody_length _ _ _ _ _ hk
          split at h
          · cases h
          · rename_i afterColon hc2
            have h2 := closes_length _ _ _ hc2
            split at h
            · cases h
            · rename_i v' r2 hv
              have h3 := ihV _ _ _ hv
              split at h
              · cases h
              · rename_i x after hws3
                have h4 := skipWs_cons_length _ _ _ hws3
                split_ifs at h
                · have := ihM _ _ _ _ h
                  omega
                · cases h
                  omega

/-- One more unit of budget changes no result once the budget exceeds twice the length of
the text. -/
theorem parse_fuel (fuel : Nat) :
    (∀ cs, 2 * cs.length + 1 ≤ fuel → parseValue fuel cs = parseValue (fuel + 1) cs) ∧
      (∀ cs acc, 2 * cs.length + 2 ≤ fuel →
        parseElements fuel cs acc = parseElements (fuel + 1) cs acc) ∧
      (∀ cs acc, 2 * cs.length + 2 ≤ fuel →
        parseMembers fuel cs acc = parseMembers (fuel + 1) cs acc) := by
  induction fuel with
  | zero =>
    refine ⟨?_, ?_, ?_⟩
    · intro cs h; omega
    · intro cs acc h; omega
    · intro cs acc h; omega
  | succ f ih =>
    obtain ⟨ihV, ihE, ihM⟩ := ih
    refine ⟨?_, ?_, ?_⟩
    · intro cs hb
      rw [parseValue, parseValue]
      cases hws : skipWs cs with
      | nil => rfl
      | cons c r =>
        have h0 := skipWs_cons_length _ _ _ hws
        simp only
        split_ifs
        · cases hc : closes '}' r with
          | some after => rfl
          | none => exact ihM r [] (by omega)
        · cases hc : closes ']' r with
          | some after => rfl
          | none => exact ihE r [] (by omega)
        · rfl
        · rfl
    · intro cs acc hb
      rw [parseElements, parseElements, ← ihV cs (by omega)]
      cases hv : parseValue f cs with
      | none => rfl
      | some p =>
        obtain ⟨v, rest⟩ := p
        have h0 := (parse_length f).1 _ _ _ hv
        simp only
        cases hws : skipWs rest with
        | nil => rfl
        | cons x after =>
          have h1 := skipWs_cons_length _ _ _ hws
          simp only
          split_ifs
          · exact ihE after _ (by omega)
          · rfl
          · rfl
    · intro cs acc hb
      rw [parseMembers, parseMembers]
      cases hc : closes '"' cs with
      | none => rfl
      | some rest =>
        have h0 := closes_length _ _ _ hc
        simp only
        cases hk : parseStringBody (rest.length + 1) rest [] with
        | none => rfl
        | some p =>
          obtain ⟨key, afterKey⟩ := p
          have h1 := parseStringBody_length _ _ _ _ _ hk
          simp only
          cases hc2 : closes ':' afterKey with
          | none => rfl
          | some afterColon =>
            have h2 := closes_length _ _ _ hc2
            simp only
            rw [← ihV afterColon (by omega)]
            cases hv : parseValue f afterColon with
            | none => rfl
            | some p2 =>
              obtain ⟨v, rest2⟩ := p2
              have h3 := (parse_length f).1 _ _ _ hv
              simp only
              cases hws : skipWs rest2 with
              | nil => rfl
              | cons x after =>
                have h4 := skipWs_cons_length _ _ _ hws
                simp only
                split_ifs
                · exact ihM after _ (by omega)
                · rfl
                · rfl

/-- A larger budget than the one `JSON.parse` gives its descent changes nothing: the
budget is never used up. -/
theorem parseValue_fuel (cs : List Char) (extra : Nat) :
    parseValue (2 * cs.length + 2 + extra) cs = parseValue (2 * cs.length + 2) cs := by
  induction extra with
  | zero => rfl
  | succ n ih =>
    rw [← ih]
    exact ((parse_fuel (2 * cs.length + 2 + n)).1 cs (by omega)).symm

end JsonBudget

/-! ## Validation and the frame of the submit handler -/

theorem validate_missing (body : Payload)
    (h : ∃ f ∈ requiredFields body, f = none ∨ f = some "") :
    validate body =
      some (.badRequest "Missing required fields" "Please fill in all required fields") := by
  have hm : ∀ f : Option String, (f = none ∨ f = some "") → isMissing f = true := by
    intro f hf
    rcases hf with hf | hf <;> subst hf <;> rfl
  obtain ⟨f, hf, hv⟩ := h
  have := hm f hv
  simp only [requiredFields, List.mem_cons, List.mem_singleton, List.not_mem_nil,
    or_false] at hf
  unfold validate
  rw [if_pos]
  rcases hf with hf | hf | hf | hf | hf | hf | hf | hf | hf | hf <;> subst hf <;>
    simp [this]

theorem submit_of_validate_some (now : Nat) (oracle : Nat → CallOutcome)
    (store : List Feedback) (body : Payload) (rejection : SubmitResponse)
    (h : validate body = some rejection) :
    submit now oracle store body = { response := rejection, store := store, calls := 0 } := by
  simp only [submit, h]

theorem submit_of_validate_none (now : Nat) (oracle : Nat → CallOutcome)
    (store : List Feedback) (body : Payload) (h : validate body = none) :
    submit now oracle store body =
      { response :=
          .created (String.mk (JS.natDigits now))
            (sentimentOrNull (sentimentPass now oracle 0 body.overallExperience
              body.suggestions).sentimentAnalysis.combinedAnalysis)
            (JS.toFixed2 (averageRating (ratingsOf body)))
            (buildFeedback now body (sentimentPass now oracle 0 body.overallExperience
              body.suggestions)).analytics.recommendationScore
        store := store ++ [buildFeedback now body
          (sentimentPass now oracle 0 body.overallExperience body.suggestions)]
        calls := (sentimentPass now oracle 0 body.overallExperience body.suggestions).next } := by
  simp only [submit, h]
  rfl

theorem validate_badRequest (body : Payload) (rejection : SubmitResponse)
    (h : validate body = some rejection) : ∃ e m, rejection = .badRequest e m := by
  unfold validate at h
  split_ifs at h <;> cases h <;> exact ⟨_, _, rfl⟩

/-- C16, amended. Every submission in which at least one of the ten required fields is
missing or empty is rejected with status 400 and the error `Missing required fields`:
one fixed error for every such submission, whichever field is missing.  The store is
left unchanged and no classifier call is made. -/
theorem submit_missing_field (now : Nat) (oracle : Nat → CallOutcome)
    (store : List Feedback) (body : Payload)
    (h : ∃ f ∈ requiredFields body, f = none ∨ f = some "") :
    (submit now oracle store body).response =
        .badRequest "Missing required fields" "Please fill in all required fields" ∧
      (submit now oracle store body).store = store ∧
      (submit now oracle store body).calls = 0 := by
  rw [submit_of_validate_some now oracle store body _ (validate_missing body h)]
  exact ⟨rfl, rfl, rfl⟩

/-- C16 at the submission without a name. -/
theorem submit_missing_field_witness :
    (∃ f ∈ requiredFields missingNamePayload, f = none ∨ f = some "") ∧
      (submit 0 negativeOracle [] missingNamePayload).response =
        .badRequest "Missing required fields" "Please fill in all required fields" :=
  ⟨⟨none, by decide, Or.inl rfl⟩,
    (submit_missing_field 0 negativeOracle [] missingNamePayload
      ⟨none, by decide, Or.inl rfl⟩).1⟩

/-- C16 fails as stated.  A submission without a name and a submission with an empty
email receive the same response, so the error does not tell which field is missing. -/
theorem submit_missing_field_not_named :
    missingNamePayload.name = none ∧ missingNamePayload.email = some "asha@example.com" ∧
      missingEmailPayload.name = some "Asha" ∧ missingEmailPayload.email = some "" ∧
      (submit 0 negativeOracle [] missingNamePayload).response =
        (submit 0 negativeOracle [] missingEmailPayload).response ∧
      (submit 0 negativeOracle [] missingNamePayload).response =
        .badRequest "Missing required fields" "Please fill in all required fields" := by
  decide!

theorem validate_none_required (body : Payload) (h : validate body = none) :
    ∀ f ∈ requiredFields body, ∃ s, f = some s ∧ s ≠ "" := by
  intro f hf
  by_contra hne
  have hmiss : f = none ∨ f = some "" := by
    cases f with
    | none => exact Or.inl rfl
    | some s =>
      right
      by_contra hs
      exact hne ⟨s, rfl, fun e => hs (by rw [e])⟩
  rw [validate_missing body ⟨f, hf, hmiss⟩] at h
  cases h

theorem getD_of_some (f : Option String) (s : String) (h : f = some s) : f.getD "" = s := by
  rw [h]
  rfl

/-- C20. A submission is answered with a validation error exactly when `validate`
rejects it; then the store is unchanged and no classifier call is made.  When it is
accepted the answer is the success response and the store afterwards is the previous
store with one record appended at the end: its length grows by one and every earlier
position holds the record it held before. -/
theorem submit_frame (now : Nat) (oracle : Nat → CallOutcome) (store : List Feedback)
    (body : Payload) :
    ((∃ e m, (submit now oracle store body).response = .badRequest e m) ↔
        validate body ≠ none) ∧
      (validate body ≠ none →
        (submit now oracle store body).store = store ∧
          (submit now oracle store body).calls = 0) ∧
      (validate body = none →
        (∃ id s a r, (submit now oracle store body).response = .created id s a r) ∧
          ∃ record, (submit now oracle store body).store = store ++ [record] ∧
            (submit now oracle store body).store.length = store.length + 1 ∧
            ∀ i, i < store.length → (submit now oracle store body).store[i]? = store[i]?) := by
  cases hv : validate body with
  | some rejection =>
    rw [submit_of_validate_some now oracle store body rejection hv]
    obtain ⟨e, m, hr⟩ := validate_badRequest body rejection hv
    refine ⟨⟨fun _ => by simp, fun _ => ⟨e, m, hr⟩⟩, fun _ => ⟨rfl, rfl⟩, fun h => by cases h⟩
  | none =>
    rw [submit_of_validate_none now oracle store body hv]
    refine ⟨⟨?_, fun h => absurd rfl h⟩, fun h => absurd rfl h, fun _ => ⟨⟨_, _, _, _, rfl⟩,
      ⟨_, rfl, by simp, ?_⟩⟩⟩
    · rintro ⟨e, m, h⟩
      cases h
    · intro i hi
      exact List.getElem?_append_left hi

/-- C20 at an accepted submission followed by a rejected one: the first appends one
record to the empty store, the second leaves that store as it is. -/
theorem submit_frame_witness :
    validate shortTextPayload = none ∧
      (submit 1700000000000 negativeOracle [] shortTextPayload).store.length = 1 ∧
      validate missingNamePayload ≠ none ∧
      (submit 1700000000500 negativeOracle
          (submit 1700000000000 negativeOracle [] shortTextPayload).store
          missingNamePayload).store =
        (submit 1700000000000 negativeOracle [] shortTextPayload).store := by
  have h1 : validate shortTextPayload = none := by decide!
  have h2 : validate missingNamePayload ≠ none := by decide!
  obtain ⟨record, -, hlen, -⟩ :=
    ((submit_frame 1700000000000 negativeOracle [] shortTextPayload).2.2 h1).2
  exact ⟨h1, hlen, h2,
    ((submit_frame 1700000000500 negativeOracle _ missingNamePayload).2.1 h2).1⟩

/-- C19, amended. The record that `submit` stores for an accepted submission carries
each of the five ratings of the submission as it was sent, and each is a non-empty
string; no rating is compared with the four values of the scale. -/
theorem submit_ratings (now : Nat) (oracle : Nat → CallOutcome) (store : List Feedback)
    (body : Payload) (h : validate body = none) :
    ∃ record, (submit now oracle store body).store = store ++ [record] ∧
      (body.cleanliness = some record.ratings.cleanliness ∧ record.ratings.cleanliness ≠ "") ∧
      (body.staffBehavior = some record.ratings.staffBehavior ∧
        record.ratings.staffBehavior ≠ "") ∧
      (body.information = some record.ratings.information ∧
        record.ratings.information ≠ "") ∧
      (body.signage = some record.ratings.signage ∧ record.ratings.signage ≠ "") ∧
      (body.safety = some record.ratings.safety ∧ record.ratings.safety ≠ "") := by
  have hreq := validate_none_required body h
  obtain ⟨c, hc, hc'⟩ := hreq body.cleanliness (by simp [requiredFields])
  obtain ⟨s, hs, hs'⟩ := hreq body.staffBehavior (by simp [requiredFields])
  obtain ⟨i, hi, hi'⟩ := hreq body.information (by simp [requiredFields])
  obtain ⟨g, hg, hg'⟩ := hreq body.signage (by simp [requiredFields])
  obtain ⟨f, hf, hf'⟩ := hreq body.safety (by simp [requiredFields])
  rw [submit_of_validate_none now oracle store body h]
  refine ⟨_, rfl, ?_, ?_, ?_, ?_, ?_⟩ <;>
    simp only [buildFeedback, hc, hs, hi, hg, hf, Option.getD_some] <;>
    exact ⟨trivial, by assumption⟩

/-- C19 at the accepted submission with the cleanliness rating `Terrible`. -/
theorem submit_ratings_witness :
    validate otherRatingPayload = none ∧
      ∃ record, (submit 1700000000000 negativeOracle [] otherRatingPayload).store =
          [] ++ [record] ∧
        otherRatingPayload.cleanliness = some record.ratings.cleanliness := by
  have h : validate otherRatingPayload = none := by decide!
  obtain ⟨record, h1, h2, -⟩ := submit_ratings 1700000000000 negativeOracle [] _ h
  exact ⟨h, record, h1, h2.1⟩

/-- C19 fails as stated.  The submission with the cleanliness rating `Terrible`, which is
none of the four values, passes validation and is stored with that rating. -/
theorem submit_stores_other_rating :
    "Terrible" ∉ ratingScale ∧ validate otherRatingPayload = none ∧
      (submit 1700000000000 negativeOracle [] otherRatingPayload).store.map
        (fun r => r.ratings) =
        [{ cleanliness := "Terrible", staffBehavior := "Very Good", information := "Average"
           signage := "Very Good", safety := "Excellent", averageScore := "2.40" }] := by
  decide!

theorem calculateRecommendationScore_none (a : ℚ) :
    calculateRecommendationScore (.fin a) none =
      .fin ((max 0 (min 100 (round (a * 25))) : ℤ) : ℚ) := by
  simp only [calculateRecommendationScore, number_mul_fin]
  exact clamp_round _

theorem longEnough_short (s : String) (h : JS.length (JS.trim s) < 3) :
    longEnough (some s) = false := by
  simp only [longEnough, Bool.and_eq_false_iff, decide_eq_false_iff_not, not_le]
  exact Or.inr h

theorem sentimentPass_short (now : Nat) (oracle : Nat → CallOutcome) (start : Nat)
    (a b : Option String) (ha : longEnough a = false) (hb : longEnough b = false) :
    sentimentPass now oracle start a b =
      { sentimentAnalysis :=
          { overallExperience := none, suggestions := none, combinedAnalysis := none }
        combinedText := ""
        next := start } := by
  have hlen : ¬ 3 ≤ JS.length (JS.trim "") := by decide
  simp only [sentimentPass, ha, hb, List.filter_cons_of_neg, List.filter_nil, List.map_nil,
    JS.join, Bool.false_eq_true, if_false, not_false_eq_true, hlen]

/-- C13. For every accepted submission whose overall experience has fewer than 3 code
units after trimming and whose suggestions are missing or have fewer than 3 code units
after trimming, `submit` makes no classifier call and appends a record whose three
sentiment analyses are all absent and whose recommendation score is the rating-only
value: `calculateRecommendationScore` without a sentiment, that is
`averageRating * 25` rounded and clamped to `[0, 100]`. -/
theorem submit_short_text (now : Nat) (oracle : Nat → CallOutcome) (store : List Feedback)
    (body : Payload) (overallExperience : String)
    (hv : validate body = none)
    (ho : body.overallExperience = some overallExperience)
    (hshort : JS.length (JS.trim overallExperience) < 3)
    (hs : body.suggestions = none ∨
      ∃ s, body.suggestions = some s ∧ JS.length (JS.trim s) < 3) :
    (submit now oracle store body).calls = 0 ∧
      ∃ record, (submit now oracle store body).store = store ++ [record] ∧
        record.sentimentAnalysis =
          { overallExperience := none, suggestions := none, combinedAnalysis := none } ∧
        record.analytics.recommendationScore =
          calculateRecommendationScore (averageRating (ratingsOf body)) none ∧
        ∀ a : ℚ, averageRating (ratingsOf body) = .fin a →
          record.analytics.recommendationScore =
            .fin ((max 0 (min 100 (round (a * 25))) : ℤ) : ℚ) := by
  have ha : longEnough body.overallExperience = false := by
    rw [ho]
    exact longEnough_short _ hshort
  have hb : longEnough body.suggestions = false := by
    rcases hs with hs | ⟨s, hs, hlen⟩
    · rw [hs]; rfl
    · rw [hs]; exact longEnough_short _ hlen
  rw [submit_of_validate_none now oracle store body hv,
    sentimentPass_short now oracle 0 _ _ ha hb]
  refine ⟨rfl, _, rfl, rfl, rfl, ?_⟩
  intro a h
  simp only [buildFeedback, h]
  exact calculateRecommendationScore_none a

/-- C13 at the overall experience `ok` with no suggestions: no call, no analysis, and
the score 80 of the average rating 3.2. -/
theorem submit_short_text_witness :
    (validate shortTextPayload = none ∧ shortTextPayload.overallExperience = some "ok" ∧
        JS.length (JS.trim "ok") < 3 ∧ shortTextPayload.suggestions = none) ∧
      (submit 1700000000000 negativeOracle [] shortTextPayload).calls = 0 ∧
      (submit 1700000000000 negativeOracle [] shortTextPayload).store.map
        (fun r => (r.sentimentAnalysis, r.analytics.recommendationScore)) =
        [({ overallExperience := none, suggestions := none, combinedAnalysis := none },
          .fin 80)] := by
  have h : validate shortTextPayload = none ∧ shortTextPayload.overallExperience = some "ok" ∧
      JS.length (JS.trim "ok") < 3 ∧ shortTextPayload.suggestions = none := by decide!
  exact ⟨h, (submit_short_text 1700000000000 negativeOracle [] shortTextPayload "ok"
    h.1 h.2.1 h.2.2.1 (Or.inl h.2.2.2)).1, by decide!⟩

/-! ## The two patterns of the submit handler -/

theorem run_nil (cls : Char → Bool) (mx : Option Nat) : Regex.run cls mx [] = 0 := by
  cases mx with
  | none => rfl
  | some m => cases m <;> rfl

theorem run_zero (cls : Char → Bool) (s : List Char) : Regex.run cls (some 0) s = 0 := by
  cases s <;> rfl

theorem run_cons_some (cls : Char → Bool) (m : Nat) (c : Char) (cs : List Char) :
    Regex.run cls (some (m + 1)) (c :: cs) =
      if cls c then Regex.run cls (some m) cs + 1 else 0 := rfl

theorem run_cons_none (cls : Char → Bool) (c : Char) (cs : List Char) :
    Regex.run cls none (c :: cs) = if cls c then Regex.run cls none cs + 1 else 0 := rfl

/-- The repetition counts that a term allows at the start of a text are those up to
`Regex.run`: within the text, within the upper bound, and over characters of the class. -/
theorem le_run_iff (cls : Char → Bool) (mx : Option Nat) (s : List Char) (k : Nat) :
    k ≤ Regex.run cls mx s ↔
      k ≤ s.length ∧ (∀ c ∈ s.take k, cls c = true) ∧ ∀ m, mx = some m → k ≤ m := by
  induction s generalizing k mx with
  | nil =>
    rw [run_nil]
    constructor
    · intro h
      have : k = 0 := by omega
      subst this
      simp
    · intro h
      simpa using h.1
  | cons c cs ih =>
    cases k with
    | zero => simp
    | succ k =>
      cases mx with
      | none =>
        rw [run_cons_none]
        by_cases hc : cls c = true
        · simp only [hc, if_true, Nat.add_le_add_iff_right, ih none k, List.length_cons,
            List.take_succ_cons, List.mem_cons, forall_eq_or_imp, true_and]
          simp
        · simp only [hc, List.length_cons, List.take_succ_cons, List.mem_cons,
            forall_eq_or_imp, false_and, and_false]
          simp
      | some m =>
        cases m with
        | zero =>
          rw [run_zero]
          simp
        | succ m =>
          rw [run_cons_some]
          by_cases hc : cls c = true
          · simp only [hc, if_true, Nat.add_le_add_iff_right, ih (some m) k, List.length_cons,
              List.take_succ_cons, List.mem_cons, forall_eq_or_imp, true_and]
            simp
          · simp only [hc, List.length_cons, List.take_succ_cons, List.mem_cons,
              forall_eq_or_imp, false_and, and_false]
            simp

theorem tryLengths_isSome (next : List Char → Option (List Char)) (s : List Char)
    (min K : Nat) :
    (Regex.tryLengths next s min K).isSome = true ↔
      ∃ k, min ≤ k ∧ k ≤ K ∧ (next (s.drop k)).isSome = true := by
  induction K with
  | zero =>
    rw [tryLengths_zero]
    constructor
    · intro h
      split_ifs at h with hm
      · exact ⟨0, by omega, le_refl 0, by simpa using h⟩
      · simp at h
    · rintro ⟨k, h1, h2, h3⟩
      have hk : k = 0 := by omega
      subst hk
      have hm : min = 0 := by omega
      simpa [hm] using h3
  | succ K ih =>
    rw [tryLengths_succ]
    by_cases hlt : K + 1 < min
    · simp only [hlt, if_true]
      constructor
      · intro h; simp at h
      · rintro ⟨k, h1, h2, -⟩
        omega
    · simp only [hlt, if_false]
      cases hn : next (s.drop (K + 1)) with
      | some m =>
        simp only [Option.isSome_some, true_iff]
        exact ⟨K + 1, by omega, le_refl _, by rw [hn]; rfl⟩
      | none =>
        simp only
        rw [ih]
        constructor
        · rintro ⟨k, h1, h2, h3⟩
          exact ⟨k, h1, by omega, h3⟩
        · rintro ⟨k, h1, h2, h3⟩
          have hk : k ≠ K + 1 := by
            intro e
            rw [e, hn] at h3
            simp at h3
          exact ⟨k, h1, by omega, h3⟩

/-- A sequence of terms matches at the start of a text exactly when some allowed number
of repetitions of the first term is followed by a match of the rest. -/
theorem matchAt_cons_isSome (toEnd : Bool) (t : Regex.Term) (ts : List Regex.Term)
    (s : List Char) :
    (Regex.matchAt toEnd (t :: ts) s).isSome = true ↔
      ∃ k, t.min ≤ k ∧ k ≤ s.length ∧ (∀ c ∈ s.take k, t.cls c = true) ∧
        (∀ m, t.max = some m → k ≤ m) ∧
        (Regex.matchAt toEnd ts (s.drop k)).isSome = true := by
  rw [matchAt_cons]
  rw [tryLengths_isSome]
  constructor
  · rintro ⟨k, h1, h2, h3⟩
    obtain ⟨a, b, c⟩ := (le_run_iff _ _ _ _).mp h2
    exact ⟨k, h1, a, b, c, h3⟩
  · rintro ⟨k, h1, a, b, c, h3⟩
    exact ⟨k, h1, (le_run_iff _ _ _ _).mpr ⟨a, b, c⟩, h3⟩

theorem search_isSome (toEnd : Bool) (ts : List Regex.Term) (s : List Char) :
    (Regex.search toEnd ts s).isSome = true ↔
      ∃ pre rest, s = pre ++ rest ∧ (Regex.matchAt toEnd ts rest).isSome = true := by
  induction s with
  | nil =>
    simp only [Regex.search]
    constructor
    · intro h
      exact ⟨[], [], rfl, h⟩
    · rintro ⟨pre, rest, h1, h2⟩
      have hr : rest = [] := (List.append_eq_nil.mp h1.symm).2
      rw [hr] at h2
      exact h2
  | cons c cs ih =>
    simp only [Regex.search]
    cases hm : Regex.matchAt toEnd ts (c :: cs) with
    | some m =>
      simp only [Option.isSome_some, true_iff]
      exact ⟨[], c :: cs, rfl, by rw [hm]; rfl⟩
    | none =>
      simp only
      rw [ih]
      constructor
      · rintro ⟨pre, rest, h1, h2⟩
        exact ⟨c :: pre, rest, by rw [h1]; rfl, h2⟩
      · rintro ⟨pre, rest, h1, h2⟩
        cases pre with
        | nil =>
          simp only [List.nil_append] at h1
          rw [← h1, hm] at h2
          simp at h2
        | cons p ps =>
          simp only [List.cons_append, List.cons.injEq] at h1
          exact ⟨ps, rest, h1.2, h2⟩

theorem isDigit_iff (c : Char) :
    JS.isDigit c = true ↔ c ∈ ['0', '1', '2', '3', '4', '5', '6', '7', '8', '9'] := by
  constructor
  · intro h
    simp only [JS.isDigit, Bool.and_eq_true, decide_eq_true_eq] at h
    obtain ⟨h1, h2⟩ := h
    have hc : c = Char.ofNat c.toNat := (Char.ofNat_toNat c).symm
    rw [hc]
    generalize c.toNat = n at h1 h2
    interval_cases n <;> decide
  · intro h
    simp only [List.mem_cons, List.mem_singleton, List.not_mem_nil, or_false] at h
    rcases h with h | h | h | h | h | h | h | h | h | h <;> subst h <;> rfl

theorem matchAt_end_nil (s : List Char) :
    (Regex.matchAt true [] s).isSome = true ↔ s = [] := by
  simp only [Regex.matchAt, if_true]
  split_ifs with h
  · simp [h]
  · simp [h]

/-- The pattern `/^\d{10}$/` accepts exactly the texts of ten decimal digits. -/
theorem mobileRegex_iff (s : List Char) :
    (Regex.matchAt true Regex.mobileRegex s).isSome = true ↔
      s.length = 10 ∧ ∀ c ∈ s, c ∈ ['0', '1', '2', '3', '4', '5', '6', '7', '8', '9'] := by
  unfold Regex.mobileRegex
  rw [matchAt_cons_isSome]
  simp only [Regex.digits, matchAt_end_nil, Option.some.injEq, forall_eq']
  constructor
  · rintro ⟨k, h1, h2, h3, h4, h5⟩
    have hk : k = 10 := by omega
    subst hk
    have hl : s.length = 10 := by
      have := List.drop_eq_nil_iff.mp h5
      omega
    refine ⟨hl, fun c hc => (isDigit_iff c).mp (h3 c ?_)⟩
    rw [List.take_of_length_le (by omega)]
    exact hc
  · rintro ⟨hl, hd⟩
    refine ⟨10, le_refl _, by omega, fun c hc => (isDigit_iff c).mpr (hd c ?_), le_refl _, ?_⟩
    · exact List.mem_of_mem_take hc
    · exact List.drop_eq_nil_iff.mpr (by omega)

theorem validate_of_required (body : Payload)
    (hreq : ∀ f ∈ requiredFields body, isMissing f = false) :
    validate body =
      if (Regex.search false Regex.emailRegex (body.email.getD "").toList).isNone then
        some (.badRequest "Invalid email format" "Please provide a valid email address")
      else if (Regex.matchAt true Regex.mobileRegex (body.mobile.getD "").toList).isNone then
        some (.badRequest "Invalid mobile number" "Mobile number must be 10 digits")
      else none := by
  simp only [requiredFields, List.mem_cons, List.mem_singleton, List.not_mem_nil, or_false,
    forall_eq_or_imp, forall_eq] at hreq
  obtain ⟨h1, h2, h3, h4, h5, h6, h7, h8, h9, h10⟩ := hreq
  unfold validate
  rw [if_neg]
  simp [h1, h2, h3, h4, h5, h6, h7, h8, h9, h10]

/-- C17. For a submission with all required fields whose email passes the email check,
validation passes exactly when the mobile value consists of ten decimal digits
`0` to `9` and nothing else; then the record is stored.  Otherwise the submission is
rejected with status 400 and the error `Invalid mobile number`, the store is left
unchanged and no classifier call is made. -/
theorem submit_mobile_check (now : Nat) (oracle : Nat → CallOutcome) (store : List Feedback)
    (body : Payload) (mobile : String)
    (hreq : ∀ f ∈ requiredFields body, isMissing f = false)
    (hemail : (Regex.search false Regex.emailRegex (body.email.getD "").toList).isSome = true)
    (hmobile : body.mobile = some mobile) :
    (validate body = none ↔
        mobile.toList.length = 10 ∧
          ∀ c ∈ mobile.toList, c ∈ ['0', '1', '2', '3', '4', '5', '6', '7', '8', '9']) ∧
      (validate body = none →
        (submit now oracle store body).store.length = store.length + 1) ∧
      (validate body ≠ none →
        (submit now oracle store body).response =
            .badRequest "Invalid mobile number" "Mobile number must be 10 digits" ∧
          (submit now oracle store body).store = store ∧
          (submit now oracle store body).calls = 0) := by
  have hv := validate_of_required body hreq
  have he : (Regex.search false Regex.emailRegex (body.email.getD "").toList).isNone = false := by
    cases hs : Regex.search false Regex.emailRegex (body.email.getD "").toList with
    | none =>
      rw [hs] at hemail
      cases hemail
    | some m => rfl
  rw [he, hmobile] at hv
  simp only [Bool.false_eq_true, if_false, Option.getD_some] at hv
  have hiff := mobileRegex_iff mobile.toList
  refine ⟨?_, ?_, ?_⟩
  · rw [← hiff, hv]
    by_cases hm : (Regex.matchAt true Regex.mobileRegex mobile.toList).isNone = true
    · rw [if_pos hm]
      constructor
      · intro h
        cases h
      · intro h
        rw [Option.isNone_iff_eq_none.mp hm] at h
        cases h
    · rw [if_neg hm]
      refine ⟨fun _ => ?_, fun _ => rfl⟩
      cases hs : Regex.matchAt true Regex.mobileRegex mobile.toList with
      | none => exact absurd (by rw [hs]; rfl) hm
      | some m => rfl
  · intro h
    rw [submit_of_validate_none now oracle store body h]
    simp
  · intro h
    have hr : validate body =
        some (.badRequest "Invalid mobile number" "Mobile number must be 10 digits") := by
      rw [hv]
      rw [hv] at h
      by_cases hm : (Regex.matchAt true Regex.mobileRegex mobile.toList).isNone = true
      · rw [if_pos hm]
      · rw [if_neg hm] at h
        exact absurd rfl h
    rw [submit_of_validate_some now oracle store body _ hr]
    exact ⟨rfl, rfl, rfl⟩

/-- C17 at the sample submission, whose mobile value `9876543210` passes. -/
theorem submit_mobile_check_witness :
    (∀ f ∈ requiredFields samplePayload, isMissing f = false) ∧
      (Regex.search false Regex.emailRegex (samplePayload.email.getD "").toList).isSome = true ∧
      samplePayload.mobile = some "9876543210" ∧ validate samplePayload = none :=
  ⟨by decide, by decide!, rfl,
    (submit_mobile_check 0 negativeOracle [] samplePayload "9876543210" (by decide)
      (by decide!) rfl).1.mpr ⟨by decide, by decide⟩⟩

theorem matchAt_lit_isSome (c : Char) (ts : List Regex.Term) (s : List Char) :
    (Regex.matchAt false (Regex.lit c :: ts) s).isSome = true ↔
      ∃ rest, s = c :: rest ∧ (Regex.matchAt false ts rest).isSome = true := by
  rw [matchAt_lit]
  cases s with
  | nil => simp
  | cons x xs =>
    by_cases hx : x = c
    · subst hx
      simp
    · simp only [hx, if_false]
      constructor
      · intro h
        simp at h
      · rintro ⟨rest, h1, -⟩
        simp only [List.cons.injEq] at h1
        exact absurd h1.1 hx

theorem matchAt_nonSpacePlus_isSome (ts : List Regex.Term) (s : List Char) :
    (Regex.matchAt false (Regex.nonSpacePlus :: ts) s).isSome = true ↔
      ∃ x rest, s = x ++ rest ∧ x ≠ [] ∧ (∀ c ∈ x, JS.isWhiteSpace c = false) ∧
        (Regex.matchAt false ts rest).isSome = true := by
  rw [matchAt_cons_isSome]
  simp only [Regex.nonSpacePlus, Bool.not_eq_true', reduceCtorEq, false_implies,
    implies_true, true_and]
  constructor
  · rintro ⟨k, h1, h2, h3, h4⟩
    refine ⟨s.take k, s.drop k, (List.take_append_drop k s).symm, ?_, h3, h4⟩
    intro h
    have := congrArg List.length h
    simp only [List.length_take, List.length_nil] at this
    omega
  · rintro ⟨x, rest, h1, h2, h3, h4⟩
    subst h1
    refine ⟨x.length, ?_, by simp, ?_, ?_⟩
    · cases x with
      | nil => exact absurd rfl h2
      | cons a as => simp
    · simpa using h3
    · simpa using h4

/-- The pattern `/\S+@\S+\.\S+/` is found in a text exactly when the text holds, one
after the other, a run of characters other than white space, an `@`, a second such
run, a `.` and a third such run, none of the three runs empty. -/
theorem emailRegex_iff (s : List Char) :
    (Regex.search false Regex.emailRegex s).isSome = true ↔
      ∃ pre x y z post, s = pre ++ (x ++ '@' :: (y ++ '.' :: (z ++ post))) ∧
        x ≠ [] ∧ y ≠ [] ∧ z ≠ [] ∧ (∀ c ∈ x, JS.isWhiteSpace c = false) ∧
        (∀ c ∈ y, JS.isWhiteSpace c = false) ∧ ∀ c ∈ z, JS.isWhiteSpace c = false := by
  rw [search_isSome]
  unfold Regex.emailRegex
  constructor
  · rintro ⟨pre, r0, h0, hm⟩
    obtain ⟨x, r1, h1, hx, hxs, hm⟩ := (matchAt_nonSpacePlus_isSome _ _).mp hm
    obtain ⟨r2, h2, hm⟩ := (matchAt_lit_isSome _ _ _).mp hm
    obtain ⟨y, r3, h3, hy, hys, hm⟩ := (matchAt_nonSpacePlus_isSome _ _).mp hm
    obtain ⟨r4, h4, hm⟩ := (matchAt_lit_isSome _ _ _).mp hm
    obtain ⟨z, post, h5, hz, hzs, -⟩ := (matchAt_nonSpacePlus_isSome _ _).mp hm
    refine ⟨pre, x, y, z, post, ?_, hx, hy, hz, hxs, hys, hzs⟩
    rw [h0, h1, h2, h3, h4, h5]
  · rintro ⟨pre, x, y, z, post, h, hx, hy, hz, hxs, hys, hzs⟩
    refine ⟨pre, _, h, ?_⟩
    refine (matchAt_nonSpacePlus_isSome _ _).mpr ⟨x, _, rfl, hx, hxs, ?_⟩
    refine (matchAt_lit_isSome _ _ _).mpr ⟨_, rfl, ?_⟩
    refine (matchAt_nonSpacePlus_isSome _ _).mpr ⟨y, _, rfl, hy, hys, ?_⟩
    refine (matchAt_lit_isSome _ _ _).mpr ⟨_, rfl, ?_⟩
    refine (matchAt_nonSpacePlus_isSome _ _).mpr ⟨z, post, rfl, hz, hzs, ?_⟩
    rfl

theorem submit_invalid_email_iff (now : Nat) (oracle : Nat → CallOutcome)
    (store : List Feedback) (body : Payload)
    (hreq : ∀ f ∈ requiredFields body, isMissing f = false) :
    (submit now oracle store body).response =
        .badRequest "Invalid email format" "Please provide a valid email address" ↔
      (Regex.search false Regex.emailRegex (body.email.getD "").toList).isSome = false := by
  have hv := validate_of_required body hreq
  cases hs : Regex.search false Regex.emailRegex (body.email.getD "").toList with
  | none =>
    rw [hs] at hv
    rw [submit_of_validate_some now oracle store body _ hv]
    simp
  | some m =>
    rw [hs] at hv
    simp only [Option.isNone_some, Bool.false_eq_true, if_false] at hv
    simp only [Option.isSome_some, Bool.true_eq_false, iff_false]
    by_cases hm : (Regex.matchAt true Regex.mobileRegex (body.mobile.getD "").toList).isNone = true
    · rw [if_pos hm] at hv
      rw [submit_of_validate_some now oracle store body _ hv]
      intro h
      simp only [SubmitResponse.badRequest.injEq] at h
      exact absurd h.1 (by decide)
    · rw [if_neg hm] at hv
      rw [submit_of_validate_none now oracle store body hv]
      intro h
      cases h

/-- C18, amended. A submission with all required fields passes the email check exactly
when its email holds, one after the other, a run of characters other than white space,
an `@`, a second such run, a `.` and a third such run, none of the three runs empty.
An email that passes therefore contains an `@` and a `.`, but containing both is not
enough.  A submission that fails the check is rejected with status 400 and the error
`Invalid email format`, the store is left unchanged and no classifier call is made. -/
theorem submit_email_check (now : Nat) (oracle : Nat → CallOutcome) (store : List Feedback)
    (body : Payload) (email : String)
    (hreq : ∀ f ∈ requiredFields body, isMissing f = false)
    (hemail : body.email = some email) :
    ((submit now oracle store body).response ≠
          .badRequest "Invalid email format" "Please provide a valid email address" ↔
        ∃ pre x y z post, email.toList = pre ++ (x ++ '@' :: (y ++ '.' :: (z ++ post))) ∧
          x ≠ [] ∧ y ≠ [] ∧ z ≠ [] ∧ (∀ c ∈ x, JS.isWhiteSpace c = false) ∧
          (∀ c ∈ y, JS.isWhiteSpace c = false) ∧ ∀ c ∈ z, JS.isWhiteSpace c = false) ∧
      ((submit now oracle store body).response ≠
          .badRequest "Invalid email format" "Please provide a valid email address" →
        '@' ∈ email.toList ∧ '.' ∈ email.toList) ∧
      ((submit now oracle store body).response =
          .badRequest "Invalid email format" "Please provide a valid email address" →
        (submit now oracle store body).store = store ∧
          (submit now oracle store body).calls = 0) := by
  have hiff := submit_invalid_email_iff now oracle store body hreq
  rw [hemail] at hiff
  simp only [Option.getD_some] at hiff
  have hshape := emailRegex_iff email.toList
  have hpass : (submit now oracle store body).response ≠
        .badRequest "Invalid email format" "Please provide a valid email address" ↔
      (Regex.search false Regex.emailRegex email.toList).isSome = true := by
    rw [Ne, hiff]
    cases (Regex.search false Regex.emailRegex email.toList).isSome <;> decide
  refine ⟨hpass.trans hshape, ?_, ?_⟩
  · intro h
    obtain ⟨pre, x, y, z, post, he, -⟩ := (hpass.trans hshape).mp h
    rw [he]
    constructor <;> simp
  · intro h
    have hv := validate_of_required body hreq
    rw [hemail] at hv
    simp only [Option.getD_some] at hv
    have hn := hiff.mp h
    have hnone : (Regex.search false Regex.emailRegex email.toList).isNone = true := by
      cases hs : Regex.search false Regex.emailRegex email.toList with
      | none => rfl
      | some m =>
        rw [hs] at hn
        cases hn
    rw [if_pos hnone] at hv
    rw [submit_of_validate_some now oracle store body _ hv]
    exact ⟨rfl, rfl⟩

/-- C18 at the sample submission, whose email `asha@example.com` passes. -/
theorem submit_email_check_witness :
    (∀ f ∈ requiredFields samplePayload, isMissing f = false) ∧
      samplePayload.email = some "asha@example.com" ∧
      '@' ∈ "asha@example.com".toList ∧ '.' ∈ "asha@example.com".toList :=
  ⟨by decide, rfl,
    (submit_email_check 0 negativeOracle [] samplePayload "asha@example.com" (by decide)
      rfl).2.1 (by decide!)⟩

/-- C18 fails as stated.  The emails `@.` and `a.b@c` contain an `@` and a `.`, and the
submissions that carry them, with all required fields, are rejected by the email
check. -/
theorem submit_email_at_and_dot_rejected :
    ('@' ∈ "@.".toList ∧ '.' ∈ "@.".toList) ∧
      ('@' ∈ "a.b@c".toList ∧ '.' ∈ "a.b@c".toList) ∧
      atDotEmailPayload.email = some "@." ∧ dotBeforeAtPayload.email = some "a.b@c" ∧
      (∀ f ∈ requiredFields atDotEmailPayload, isMissing f = false) ∧
      (∀ f ∈ requiredFields dotBeforeAtPayload, isMissing f = false) ∧
      (submit 0 negativeOracle [] atDotEmailPayload).response =
        .badRequest "Invalid email format" "Please provide a valid email address" ∧
      (submit 0 negativeOracle [] dotBeforeAtPayload).response =
        .badRequest "Invalid email format" "Please provide a valid email address" := by
  decide!

/-! ## The word count and the reprocess handler -/

theorem splitOn_ne_nil (sep : Char) (s : List Char) : JS.splitOn sep s ≠ [] := by
  cases s with
  | nil => simp [JS.splitOn]
  | cons c cs =>
    simp only [JS.splitOn]
    split
    · simp
    · split_ifs <;> simp

/-- The number of pieces of `split` is the number of separators plus one. -/
theorem splitOn_length (sep : Char) (s : List Char) :
    (JS.splitOn sep s).length = s.count sep + 1 := by
  induction s with
  | nil => rfl
  | cons c cs ih =>
    simp only [JS.splitOn]
    split
    · rename_i h
      exact absurd h (splitOn_ne_nil sep cs)
    · rename_i piece pieces h
      rw [h] at ih
      by_cases hc : c = sep
      · subst hc
        simp only [if_true, List.length_cons, List.count_cons_self]
        simp only [List.length_cons] at ih
        omega
      · simp only [hc, if_false, List.length_cons]
        rw [List.count_cons_of_ne (fun e => hc e.symm)]
        simpa using ih

/-- The word count stored with an accepted submission is the number of space
characters of the combined text plus one. -/
theorem submit_totalWords (now : Nat) (oracle : Nat → CallOutcome) (store : List Feedback)
    (body : Payload) (h : validate body = none) :
    (submit now oracle store body).store.map (fun r => r.analytics.totalWords) =
      store.map (fun r => r.analytics.totalWords) ++
        [(combinedTextOf body.overallExperience body.suggestions).toList.count ' ' + 1] := by
  rw [submit_of_validate_none now oracle store body h]
  simp only [List.map_append, List.map_cons, List.map_nil, buildFeedback, splitOn_length]
  rfl

/-- C14 fails in the code.  The submission `shortTextPayload` is accepted and its
combined text is empty: the stored word count is 1, where the empty text has 0
whitespace-delimited tokens.  The submission `doubleSpacePayload` is accepted with the
combined text `Nice  place`: the stored word count is 3, where the text has 2
tokens. -/
theorem submit_totalWords_diverges :
    validate shortTextPayload = none ∧
      combinedTextOf shortTextPayload.overallExperience shortTextPayload.suggestions = "" ∧
      (submit 0 negativeOracle [] shortTextPayload).store.map
        (fun r => r.analytics.totalWords) = [1] ∧
      specWordCount "" = 0 ∧
      validate doubleSpacePayload = none ∧
      combinedTextOf doubleSpacePayload.overallExperience doubleSpacePayload.suggestions =
        "Nice  place" ∧
      (submit 0 negativeOracle [] doubleSpacePayload).store.map
        (fun r => r.analytics.totalWords) = [3] ∧
      specWordCount "Nice  place" = 2 := by
  decide!

theorem sentimentPass_combinedAnalysis_isSome (now : Nat) (oracle : Nat → CallOutcome)
    (start : Nat) (a b : Option String) :
    ((sentimentPass now oracle start a b).sentimentAnalysis.combinedAnalysis =
        if 3 ≤ JS.length (JS.trim (combinedTextOf a b)) then
          some (analyzeSingle now
            (oracle ((if longEnough b then
              (if longEnough a then start + 1 else start) + 1
              else (if longEnough a then start + 1 else start))))
            (combinedTextOf a b))
        else none) := rfl

theorem reprocessRecord_alreadyAnalysed (now : Nat) (oracle : Nat → CallOutcome)
    (start : Nat) (feedback : Feedback) :
    alreadyAnalysed (reprocessRecord now oracle start feedback).1 = classifiable feedback := by
  simp only [reprocessRecord, alreadyAnalysed, classifiable]
  rw [sentimentPass_combinedAnalysis_isSome]
  by_cases h : 3 ≤ JS.length (JS.trim (combinedTextOf (some feedback.feedback.overallExperience)
      (some feedback.feedback.suggestions)))
  · rw [if_pos h]
    simp only [h, decide_True, bne_iff_ne, ne_eq]
    exact analyzeSingle_sentiment _ _ _
  · rw [if_neg h]
    simp [h]

theorem reprocessLoop_updatedCount (now : Nat) (oracle : Nat → CallOutcome)
    (store : List Feedback) (start : Nat) :
    (reprocessLoop now oracle store start).updatedCount =
      (store.filter (fun r => !alreadyAnalysed r)).length := by
  induction store generalizing start with
  | nil => rfl
  | cons r rest ih =>
    simp only [reprocessLoop]
    by_cases h : alreadyAnalysed r = true
    · simp [h, ih]
    · simp [h, ih]

theorem reprocessLoop_store_pending (now : Nat) (oracle : Nat → CallOutcome)
    (store : List Feedback) (start : Nat) :
    ((reprocessLoop now oracle store start).store.filter (fun r => !alreadyAnalysed r)).length =
      (store.filter (fun r => !alreadyAnalysed r && !classifiable r)).length := by
  induction store generalizing start with
  | nil => rfl
  | cons r rest ih =>
    simp only [reprocessLoop]
    by_cases h : alreadyAnalysed r = true
    · simp [h, ih]
    · simp only [h, Bool.false_eq_true, if_false]
      by_cases hc : classifiable r = true
      · simp [h, hc, ih, reprocessRecord_alreadyAnalysed]
      · simp [h, hc, ih, reprocessRecord_alreadyAnalysed]

/-- C15, amended. For every store, reachable or not, and whatever the classifier
answers: a run of the reprocess handler reports as `updatedCount` the number of records
without a combined sentiment, and a second run right after it reports the number of
records of the original store that had no combined sentiment and whose texts are too
short to be classified.  The second `updatedCount` is 0 exactly when the store holds no
such record. -/
theorem reprocess_twice (now now2 : Nat) (oracle oracle2 : Nat → CallOutcome)
    (store : List Feedback) :
    (reprocess now oracle store).updatedCount =
        (store.filter (fun r => !alreadyAnalysed r)).length ∧
      (reprocess now2 oracle2 (reprocess now oracle store).store).updatedCount =
        (store.filter (fun r => !alreadyAnalysed r && !classifiable r)).length ∧
      ((reprocess now2 oracle2 (reprocess now oracle store).store).updatedCount = 0 ↔
        ∀ r ∈ store, alreadyAnalysed r = true ∨ classifiable r = true) := by
  have h1 := reprocessLoop_updatedCount now oracle store 0
  have h2 : (reprocess now2 oracle2 (reprocess now oracle store).store).updatedCount =
      (store.filter (fun r => !alreadyAnalysed r && !classifiable r)).length := by
    unfold reprocess
    rw [reprocessLoop_updatedCount, reprocessLoop_store_pending]
  refine ⟨h1, h2, ?_⟩
  rw [h2, List.length_eq_zero, List.filter_eq_nil_iff]
  constructor
  · intro h r hr
    have := h r hr
    cases ha : alreadyAnalysed r <;> cases hc : classifiable r <;> simp_all
  · intro h r hr
    rcases h r hr with ha | hc
    · simp [ha]
    · simp [hc]

/-- C15 at the store of the sample submission, whose text is classified: a second run
of the reprocess handler reports `updatedCount = 0`. -/
theorem reprocess_twice_witness :
    (reprocess 2 negativeOracle
      (reprocess 1 negativeOracle
        (submit 0 negativeOracle [] samplePayload).store).store).updatedCount = 0 :=
  (reprocess_twice 1 2 negativeOracle negativeOracle
    (submit 0 negativeOracle [] samplePayload).store).2.2.mpr (by decide!)

/-- C15 fails as stated.  The store that holds the one record of the accepted submission
`shortTextPayload` is reachable, and each of two runs of the reprocess handler in a row
reports `updatedCount = 1` on it. -/
theorem reprocess_twice_short_text :
    Reachable (submit 0 negativeOracle [] shortTextPayload).store ∧
      (submit 0 negativeOracle [] shortTextPayload).store.length = 1 ∧
      (reprocess 1 negativeOracle (submit 0 negativeOracle [] shortTextPayload).store).updatedCount
        = 1 ∧
      (reprocess 2 negativeOracle
        (reprocess 1 negativeOracle
          (submit 0 negativeOracle [] shortTextPayload).store).store).updatedCount = 1 :=
  ⟨Reachable.afterSubmit 0 negativeOracle [] shortTextPayload Reachable.init, by decide!,
    by decide!, by decide!⟩

/-! ## The values of the sentiment and of the confidence -/

theorem lowerChar_idem (c : Char) : JS.lowerChar (JS.lowerChar c) = JS.lowerChar c := by
  by_cases h : 65 ≤ c.toNat ∧ c.toNat ≤ 90
  · have hc : c = Char.ofNat c.toNat := (Char.ofNat_toNat c).symm
    obtain ⟨h1, h2⟩ := h
    rw [hc]
    generalize c.toNat = n at h1 h2
    interval_cases n <;> decide
  · have hl : JS.lowerChar c = c := by
      unfold JS.lowerChar
      rw [if_neg h]
    rw [hl, hl]

theorem toLowerCase_idem (s : String) : JS.toLowerCase (JS.toLowerCase s) = JS.toLowerCase s := by
  simp only [JS.toLowerCase, String.toList, List.map_map]
  congr 1
  apply List.map_congr_left
  intro c _
  exact lowerChar_idem c

/-- The members of a result that the `try` block of `_parseResponse` builds from a
parsed object. -/
theorem parseResponseTry_ok (now : Nat) (originalText : String) (response : JS.Value)
    (r : SentimentResult) (h : parseResponseTry now originalText response = .ok r) :
    ∃ text matched members label, response = .str text ∧ jsonMatch text = some matched ∧
      JS.JSON.parse matched = some (.obj members) ∧
      ((JS.Value.ownProperty members "sentiment").getD .undefined).or (.str "neutral") =
        .str label ∧
      r.sentiment = JS.toLowerCase label ∧
      r.confidence = JS.parseFloat
        (((JS.Value.ownProperty members "confidence").getD .undefined).or
          (.num (.fin (1 / 2)))) := by
  cases response with
  | str text =>
    cases hm : jsonMatch text with
    | none => simp [parseResponseTry, hm] at h
    | some matched =>
      cases hp : JS.JSON.parse matched with
      | none => simp [parseResponseTry, hm, hp] at h
      | some data =>
        obtain ⟨members, hd⟩ := parse_matched_obj text matched data hm hp
        subst hd
        by_cases hl : ∃ label,
            ((JS.Value.ownProperty members "sentiment").getD .undefined).or (.str "neutral") =
              .str label
        · obtain ⟨label, hl⟩ := hl
          cases hc : (((JS.Value.ownProperty members "confidence").getD .undefined).or
              (.num (.fin (1 / 2)))).toText with
          | none =>
            rw [parseResponseTry_no_text now originalText text matched members hm hp hc] at h
            cases h
          | some shown =>
            rw [parseResponseTry_label now originalText text matched label members shown
              hm hp hl hc] at h
            cases h
            exact ⟨text, matched, members, label, rfl, hm, hp, hl, rfl, rfl⟩
        · rw [parseResponseTry_not_label now originalText text matched members hm hp
            (fun label e => hl ⟨label, e⟩)] at h
          cases h
  | _ => simp [parseResponseTry] at h

theorem parseResponse_sentiment_cases (now : Nat) (originalText : String)
    (response : JS.Value) :
    (_parseResponse now originalText response).sentiment = "neutral" ∨
      ∃ text matched members label, response = .str text ∧ jsonMatch text = some matched ∧
        JS.JSON.parse matched = some (.obj members) ∧
        JS.Value.ownProperty members "sentiment" = some (.str label) ∧ label ≠ "" ∧
        (_parseResponse now originalText response).sentiment = JS.toLowerCase label := by
  cases h : parseResponseTry now originalText response with
  | error e =>
    left
    simp only [_parseResponse, h]
    rfl
  | ok r =>
    obtain ⟨text, matched, members, label, h1, h2, h3, h4, h5, -⟩ :=
      parseResponseTry_ok now originalText response r h
    have hr : (_parseResponse now originalText response).sentiment = r.sentiment := by
      simp only [_parseResponse, h]
    rw [hr, h5]
    by_cases ht : ((JS.Value.ownProperty members "sentiment").getD .undefined).truthy = true
    · right
      rw [or_truthy _ _ ht] at h4
      refine ⟨text, matched, members, label, h1, h2, h3, ?_, ?_, rfl⟩
      · cases ho : JS.Value.ownProperty members "sentiment" with
        | none =>
          rw [ho] at h4
          cases h4
        | some v =>
          rw [ho] at h4
          simp only [Option.getD_some] at h4
          rw [h4]
      · rw [h4] at ht
        simpa [JS.Value.truthy] using ht
    · left
      rw [or_falsy _ _ (by simpa using ht)] at h4
      cases h4
      decide!

theorem parseResponse_sentiment_lower (now : Nat) (originalText : String)
    (response : JS.Value) :
    JS.toLowerCase (_parseResponse now originalText response).sentiment =
      (_parseResponse now originalText response).sentiment := by
  rcases parseResponse_sentiment_cases now originalText response with
    h | ⟨_, _, _, label, _, _, _, _, _, h⟩
  · rw [h]
    decide!
  · rw [h]
    exact toLowerCase_idem label

/-- C11, amended. For every original text and every raw response, the sentiment of the
result of `_parseResponse` is a non-empty string that is either `neutral` or comes from
the non-empty string that the parsed object carries as its sentiment, whatever that
string is: for a string of ASCII characters it is that string with `A` to `Z` lowered.
The same holds for `analyzeSentiment`, for every outcome of the external call: its
sentiment is non-empty, and it is `neutral` or the sentiment that `_parseResponse` gives
for the content of the response. -/
theorem parseResponse_sentiment_values (now : Nat) (originalText : String)
    (response : JS.Value) (outcome : CallOutcome) :
    (_parseResponse now originalText response).sentiment ≠ "" ∧
      ((_parseResponse now originalText response).sentiment = "neutral" ∨
        ∃ text matched members label, response = .str text ∧ jsonMatch text = some matched ∧
          JS.JSON.parse matched = some (.obj members) ∧
          JS.Value.ownProperty members "sentiment" = some (.str label) ∧ label ≠ "" ∧
          (JS.isAscii label = true →
            (_parseResponse now originalText response).sentiment = JS.toLowerCase label)) ∧
      (analyzeSentiment now outcome originalText).sentiment ≠ "" ∧
      ((analyzeSentiment now outcome originalText).sentiment = "neutral" ∨
        ∃ reply content, outcome = .resolved reply ∧ responseText reply = .ok content ∧
          analyzeSentiment now outcome originalText =
            _parseResponse now originalText content) := by
  refine ⟨parseResponse_sentiment _ _ _, ?_, analyzeSingle_sentiment _ _ _, ?_⟩
  · rcases parseResponse_sentiment_cases now originalText response with
      h | ⟨text, matched, members, label, h1, h2, h3, h4, h5, h6⟩
    · exact Or.inl h
    · exact Or.inr ⟨text, matched, members, label, h1, h2, h3, h4, h5, fun _ => h6⟩
  · cases outcome with
    | rejected => exact Or.inl rfl
    | resolved reply =>
      cases h : responseText reply with
      | error e =>
        left
        simp only [analyzeSentiment, analyzeSentimentTry, h]
        rfl
      | ok content =>
        right
        exact ⟨reply, content, rfl, h, by simp only [analyzeSentiment, analyzeSentimentTry, h]⟩

/-- C11 fails as stated.  The response whose object carries the sentiment `Mixed` gives a
result with the sentiment `mixed`, which is none of positive, negative and neutral; so
does `analyzeSentiment` when the call resolves with that response. -/
theorem parseResponse_sentiment_mixed :
    (_parseResponse 0 "Good and bad" (.str mixedSentimentResponse)).sentiment = "mixed" ∧
      (_parseResponse 0 "Good and bad" (.str mixedSentimentResponse)).sentiment ∉
        sentimentClasses ∧
      (analyzeSentiment 0 (.resolved (responseWith (.str mixedSentimentResponse)))
        "Good and bad").sentiment = "mixed" := by
  decide!

/-- C11 at the response of the worked example, whose label `POSITIVE` is made of ASCII
characters: the sentiment is `positive`. -/
theorem parseResponse_sentiment_values_witness :
    (_parseResponse 0 "Had a great trip" (.str greatTripResponse)).sentiment ≠ "" ∧
      ((_parseResponse 0 "Had a great trip" (.str greatTripResponse)).sentiment = "neutral" ∨
        ∃ text matched members label, JS.Value.str greatTripResponse = .str text ∧
          jsonMatch text = some matched ∧
          JS.JSON.parse matched = some (.obj members) ∧
          JS.Value.ownProperty members "sentiment" = some (.str label) ∧ label ≠ "" ∧
          (JS.isAscii label = true →
            (_parseResponse 0 "Had a great trip" (.str greatTripResponse)).sentiment =
              JS.toLowerCase label)) ∧
      JS.isAscii "POSITIVE" = true ∧
      (_parseResponse 0 "Had a great trip" (.str greatTripResponse)).sentiment = "positive" :=
  ⟨(parseResponse_sentiment_values 0 "Had a great trip" (.str greatTripResponse) .rejected).1,
    (parseResponse_sentiment_values 0 "Had a great trip" (.str greatTripResponse)
      .rejected).2.1, by decide!, by decide!⟩

/-- C12, amended. The confidence of the fallback result is 0.  For a response whose
object parses and whose sentiment is accepted, the confidence is 0.5 when the object
has no confidence member, and it is the number of that member when this is a number
other than 0: no bound is applied to it.  When that number lies in `[0, 1]`, so does the
confidence, and the adjustment `(confidence - 0.5) * 10` of the recommendation score
lies in `[-5, 5]`. -/
theorem parseResponse_confidence_values (now : Nat) (originalText response matched : String)
    (members : List (String × JS.Value)) (label : String)
    (hm : jsonMatch response = some matched)
    (hp : JS.JSON.parse matched = some (.obj members))
    (hl : ((JS.Value.ownProperty members "sentiment").getD .undefined).or (.str "neutral") =
      .str label) :
    (_createFallbackResult now originalText).confidence = .fin 0 ∧
      (JS.Value.ownProperty members "confidence" = none →
        (_parseResponse now originalText (.str response)).confidence = .fin (1 / 2)) ∧
      (∀ n : JS.Number, n.truthy = true →
        JS.Value.ownProperty members "confidence" = some (.num n) →
        (_parseResponse now originalText (.str response)).confidence = n) ∧
      (∀ c : ℚ, 0 < c → c ≤ 1 →
        JS.Value.ownProperty members "confidence" = some (.num (.fin c)) →
        JS.Number.le (.fin (-5))
            (JS.Number.mul
              (JS.Number.sub (_parseResponse now originalText (.str response)).confidence
                (.fin (1 / 2))) (.fin 10)) = true ∧
          JS.Number.le
            (JS.Number.mul
              (JS.Number.sub (_parseResponse now originalText (.str response)).confidence
                (.fin (1 / 2))) (.fin 10)) (.fin 5) = true) := by
  have hnum : ∀ n : JS.Number, n.truthy = true →
      JS.Value.ownProperty members "confidence" = some (.num n) →
      (_parseResponse now originalText (.str response)).confidence = n := by
    intro n hn hs
    have hv : ((JS.Value.ownProperty members "confidence").getD .undefined).or
        (.num (.fin (1 / 2))) = .num n := by
      rw [hs]
      exact or_truthy _ _ (by simpa [JS.Value.truthy] using hn)
    have h := parseResponseTry_label now originalText response matched label members _
      hm hp hl (by rw [hv]; exact toText_num n)
    simp only [_parseResponse, h, hv]
    rfl
  refine ⟨rfl, ?_, hnum, ?_⟩
  · intro hn
    have hv : ((JS.Value.ownProperty members "confidence").getD .undefined).or
        (.num (.fin (1 / 2))) = .num (.fin (1 / 2)) := by
      rw [hn]
      rfl
    have h := parseResponseTry_label now originalText response matched label members _
      hm hp hl (by rw [hv]; exact toText_num _)
    simp only [_parseResponse, h, hv]
    rfl
  · intro c h0 h1 hs
    have hv := hnum (.fin c) (by simpa [JS.Number.truthy] using h0.ne') hs
    rw [hv, number_sub_fin, number_mul_fin]
    simp only [JS.Number.le, decide_eq_true_eq]
    constructor <;> linarith

/-- C12 at the response of the worked example, whose confidence 0.87 is kept and lies in
`[0, 1]`. -/
theorem parseResponse_confidence_values_witness :
    jsonMatch greatTripResponse = some greatTripResponse ∧
      JS.JSON.parse greatTripResponse =
        some (.obj [("sentiment", .str "POSITIVE"), ("confidence", .num (.fin (87 / 100))),
          ("key_phrases", .arr [.str "great trip"])]) ∧
      (_parseResponse 0 "Had a great trip" (.str greatTripResponse)).confidence =
        .fin (87 / 100) :=
  ⟨by decide!, by decide!,
    (parseResponse_confidence_values 0 "Had a great trip" greatTripResponse greatTripResponse
      [("sentiment", .str "POSITIVE"), ("confidence", .num (.fin (87 / 100))),
        ("key_phrases", .arr [.str "great trip"])] "POSITIVE"
      (by decide!) (by decide!) (by decide!)).2.2.1 (.fin (87 / 100)) (by decide!)
        (by decide!)⟩

/-- C12 fails as stated.  The response whose object carries the confidence `7` gives a
result with the confidence 7, outside `[0, 1]`; the adjustment of the recommendation
score is then 65, and an average rating of 1 scores 100. -/
theorem parseResponse_confidence_seven :
    JS.JSON.parse largeConfidenceResponse =
        some (.obj [("sentiment", .str "positive"), ("confidence", .num (.fin 7))]) ∧
      (_parseResponse 0 "Fine" (.str largeConfidenceResponse)).confidence = .fin 7 ∧
      JS.Number.mul
          (JS.Number.sub (_parseResponse 0 "Fine" (.str largeConfidenceResponse)).confidence
            (.fin (1 / 2))) (.fin 10) = .fin 65 ∧
      calculateRecommendationScore (.fin 1)
        (some (_parseResponse 0 "Fine" (.str largeConfidenceResponse))) = .fin 100 := by
  decide!

/-! ## The score of the fallback result -/

theorem calculateRecommendationScore_fallback (now : Nat) (text : String) (a : ℚ) :
    calculateRecommendationScore (.fin a) (some (_createFallbackResult now text)) =
      .fin ((max 0 (min 100 (round (a * 25 - 5))) : ℤ) : ℚ) := by
  have hn : JS.lookupOrZero sentimentBonus "neutral" = some 0 := by decide!
  simp only [calculateRecommendationScore, _createFallbackResult, hn, number_mul_fin,
    number_add_fin, number_sub_fin, clamp_round]
  congr 4
  ring_nf

/-- C30. The average rating that the handlers pass to the function is the mean of five
ratings scored 0 to 4, that is `k / 5` with `k ≤ 20` (or `NaN`).  For every such average
the fallback result (sentiment neutral, confidence 0) scores `averageRating * 25 - 5`
rounded and clamped to `[0, 100]`, which is `5 * k - 5` and not below 0; the same
average without a sentiment scores `5 * k`.  So the score of the fallback result is
never greater than the rating-only score and at most 5 points less. -/
theorem fallback_score_below_rating_only (now : Nat) (text : String) (k : ℕ) (hk : k ≤ 20) :
    calculateRecommendationScore (.fin ((k : ℚ) / 5))
        (some (_createFallbackResult now text)) =
        .fin ((max 0 (min 100 (round ((k : ℚ) / 5 * 25 - 5))) : ℤ) : ℚ) ∧
      calculateRecommendationScore (.fin ((k : ℚ) / 5))
        (some (_createFallbackResult now text)) = .fin ((max 0 (5 * (k : ℤ) - 5) : ℤ) : ℚ) ∧
      calculateRecommendationScore (.fin ((k : ℚ) / 5)) none = .fin ((5 * (k : ℤ) : ℤ) : ℚ) ∧
      JS.Number.le
        (calculateRecommendationScore (.fin ((k : ℚ) / 5))
          (some (_createFallbackResult now text)))
        (calculateRecommendationScore (.fin ((k : ℚ) / 5)) none) = true ∧
      5 * (k : ℤ) - max 0 (5 * (k : ℤ) - 5) ≤ 5 ∧
      (∀ a b c d e : String, averageRating [a, b, c, d, e] = .nan ∨
        ∃ n : ℕ, n ≤ 20 ∧ averageRating [a, b, c, d, e] = .fin ((n : ℚ) / 5)) := by
  have e1 : (k : ℚ) / 5 * 25 = ((5 * (k : ℤ) : ℤ) : ℚ) := by
    push_cast
    ring
  have e2 : (k : ℚ) / 5 * 25 - 5 = ((5 * (k : ℤ) - 5 : ℤ) : ℚ) := by
    push_cast
    ring
  have hf := calculateRecommendationScore_fallback now text ((k : ℚ) / 5)
  have hn := calculateRecommendationScore_none ((k : ℚ) / 5)
  have c1 : max 0 (min 100 (5 * (k : ℤ) - 5)) = max 0 (5 * (k : ℤ) - 5) := by omega
  have c2 : max 0 (min 100 (5 * (k : ℤ))) = 5 * (k : ℤ) := by omega
  have hf2 : calculateRecommendationScore (.fin ((k : ℚ) / 5))
      (some (_createFallbackResult now text)) = .fin ((max 0 (5 * (k : ℤ) - 5) : ℤ) : ℚ) := by
    rw [hf, e2, round_intCast, c1]
  have hn2 : calculateRecommendationScore (.fin ((k : ℚ) / 5)) none =
      .fin ((5 * (k : ℤ) : ℤ) : ℚ) := by
    rw [hn, e1, round_intCast, c2]
  refine ⟨hf, hf2, hn2, ?_, by omega, averageRating_five⟩
  rw [hf2, hn2]
  simp only [JS.Number.le, decide_eq_true_eq]
  exact_mod_cast (by omega : max 0 (5 * (k : ℤ) - 5) ≤ 5 * (k : ℤ))

/-- C30 at the average rating 3.2 = 16 / 5: the fallback result scores 75, the absent
sentiment scores 80.  And through the submit handler: a submission with the average
1.60 whose every classification call fails is stored with the score 35, where the
ratings alone score 40. -/
theorem fallback_score_below_rating_only_witness :
    (16 ≤ 20) ∧
      calculateRecommendationScore (.fin (16 / 5)) (some (_createFallbackResult 0 "ok then")) =
        .fin 75 ∧
      calculateRecommendationScore (.fin (16 / 5)) none = .fin 80 ∧
      JS.Number.le
        (calculateRecommendationScore (.fin ((16 : ℕ) / 5))
          (some (_createFallbackResult 0 "ok then")))
        (calculateRecommendationScore (.fin ((16 : ℕ) / 5)) none) = true ∧
      (submit 0 (fun _ => .rejected) [] samplePayload).store.map
          (fun r => (r.ratings.averageScore, r.analytics.recommendationScore)) =
        [("1.60", .fin 35)] ∧
      calculateRecommendationScore (.fin (8 / 5)) none = .fin 40 :=
  ⟨by decide, by decide!, by decide!,
    (fallback_score_below_rating_only 0 "ok then" 16 (by decide)).2.2.2.1, by decide!,
    by decide!⟩

/-! ## Batches -/

theorem analyzeSentiment_text (now : Nat) (outcome : CallOutcome) (feedbackText : String) :
    (analyzeSentiment now outcome feedbackText).text = feedbackText := by
  cases outcome with
  | rejected => rfl
  | resolved response =>
    simp only [analyzeSentiment, analyzeSentimentTry]
    cases h : responseText response with
    | error e => rfl
    | ok content => exact parseResponse_text _ _ _

theorem analyzeSentiment_of_error (now : Nat) (outcome : CallOutcome) (feedbackText : String)
    (e : Thrown) (h : analyzeSentimentTry now outcome feedbackText = .error e) :
    analyzeSentiment now outcome feedbackText = _createFallbackResult now feedbackText := by
  simp only [analyzeSentiment, h]

theorem analyzeBatchFrom_length (clock : Nat → Nat) (oracle : Nat → CallOutcome)
    (start : Nat) (feedbackList : List String) :
    (analyzeBatchFrom clock oracle start feedbackList).length = feedbackList.length := by
  induction feedbackList generalizing start with
  | nil => rfl
  | cons t rest ih => simp [analyzeBatchFrom, ih]

theorem analyzeBatchFrom_get (clock : Nat → Nat) (oracle : Nat → CallOutcome)
    (start : Nat) (feedbackList : List String) (i : Nat) (text : String)
    (h : feedbackList[i]? = some text) :
    (analyzeBatchFrom clock oracle start feedbackList)[i]? =
      some (analyzeSentiment (clock (start + i)) (oracle (start + i)) text) := by
  induction feedbackList generalizing start i with
  | nil => simp at h
  | cons t rest ih =>
    cases i with
    | zero =>
      simp only [List.getElem?_cons_zero, Option.some.injEq] at h
      subst h
      simp [analyzeBatchFrom]
    | succ i =>
      simp only [List.getElem?_cons_succ] at h
      simp only [analyzeBatchFrom, List.getElem?_cons_succ]
      rw [ih (start + 1) i h]
      congr 3 <;> omega

/-- C28. For every list of texts, `analyzeBatch` returns a list of the same length.
Its element at position `i` is the result of `analyzeSentiment` on the text at position
`i`, with the outcome of call number `i`, and carries that text.  When that call is
rejected, or when its `try` block throws in any other way, the element is the fallback
result for that text; the elements at the other positions do not depend on it. -/
theorem analyzeBatch_pointwise (clock : Nat → Nat) (oracle : Nat → CallOutcome)
    (feedbackList : List String) :
    (analyzeBatch clock oracle feedbackList).length = feedbackList.length ∧
      ∀ i text, feedbackList[i]? = some text →
        (analyzeBatch clock oracle feedbackList)[i]? =
            some (analyzeSentiment (clock i) (oracle i) text) ∧
          (analyzeSentiment (clock i) (oracle i) text).text = text ∧
          (oracle i = .rejected →
            (analyzeBatch clock oracle feedbackList)[i]? =
              some (_createFallbackResult (clock i) text)) ∧
          (∀ e, analyzeSentimentTry (clock i) (oracle i) text = .error e →
            (analyzeBatch clock oracle feedbackList)[i]? =
              some (_createFallbackResult (clock i) text)) := by
  refine ⟨analyzeBatchFrom_length clock oracle 0 feedbackList, ?_⟩
  intro i text h
  have hg : (analyzeBatch clock oracle feedbackList)[i]? =
      some (analyzeSentiment (clock i) (oracle i) text) := by
    have := analyzeBatchFrom_get clock oracle 0 feedbackList i text h
    simpa [analyzeBatch] using this
  refine ⟨hg, analyzeSentiment_text _ _ _, ?_, ?_⟩
  · intro hr
    rw [hg, hr]
    rfl
  · intro e he
    rw [hg, analyzeSentiment_of_error _ _ _ e he]

/-- C28 at three texts whose second call is rejected: the second result is the fallback
result, the first and the third are classified. -/
theorem analyzeBatch_pointwise_witness :
    (analyzeBatch (fun k => 100 + k) secondCallFails
        ["Had a great trip", "Too crowded", "Lovely hills"]).map
        (fun r => (r.text, r.sentiment, r.confidence)) =
      [("Had a great trip", "positive", .fin (87 / 100)), ("Too crowded", "neutral", .fin 0),
        ("Lovely hills", "positive", .fin (87 / 100))] ∧
      (analyzeBatch (fun k => 100 + k) secondCallFails
        ["Had a great trip", "Too crowded", "Lovely hills"])[1]? =
        some (_createFallbackResult 101 "Too crowded") :=
  ⟨by decide!,
    ((analyzeBatch_pointwise (fun k => 100 + k) secondCallFails
      ["Had a great trip", "Too crowded", "Lovely hills"]).2 1 "Too crowded" rfl).2.2.1 rfl⟩

/-! ## Insights -/

theorem mem_ratingInsights (averageRatings : AverageRatings) (i : Insight) :
    i ∈ ratingInsights averageRatings ↔
      ∃ entry ∈ averageRatings.entries,
        (JS.Number.lt (.fin 0) (JS.parseFloat entry.2) = true ∧
          JS.Number.lt (JS.parseFloat entry.2) (.fin (5 / 2)) = true) ∧
        i = .improvement entry.1 (JS.parseFloat entry.2) := by
  simp only [ratingInsights, List.mem_filterMap]
  constructor
  · rintro ⟨entry, he, h⟩
    refine ⟨entry, he, ?_⟩
    split_ifs at h with hc
    · simp only [Bool.and_eq_true] at hc
      simp only [Option.some.injEq] at h
      exact ⟨hc, h.symm⟩
  · rintro ⟨entry, he, hc, hi⟩
    refine ⟨entry, he, ?_⟩
    rw [if_pos (by simpa using hc), hi]

theorem mem_generateInsights (stats : Stats) (i : Insight) :
    i ∈ generateInsights stats ↔
      (JS.Number.lt (JS.Number.mul (.fin stats.total) (.fin (3 / 10)))
            (.fin stats.sentimentDistribution.negative) = true ∧
          i = .warning (JS.Math.round (JS.Number.mul
            (JS.Number.div (.fin stats.sentimentDistribution.negative) (.fin stats.total))
            (.fin 100)))) ∨
        i ∈ ratingInsights stats.averageRatings ∨
        (0 < stats.priorityDistribution.high ∧ i = .urgent stats.priorityDistribution.high) ∨
        (JS.Number.lt stats.recommendationScore (.fin 60) = true ∧
          i = .concern stats.recommendationScore) ∨
        (JS.Number.lt stats.recommendationScore (.fin 60) = false ∧
          JS.Number.lt (.fin 80) stats.recommendationScore = true ∧
          i = .positive stats.recommendationScore) := by
  simp only [generateInsights, List.mem_append]
  constructor
  · rintro (((h | h) | h) | h)
    · split_ifs at h with hc
      · exact Or.inl ⟨hc, by simpa using h⟩
      · simp at h
    · exact Or.inr (Or.inl h)
    · split_ifs at h with hc
      · exact Or.inr (Or.inr (Or.inl ⟨hc, by simpa using h⟩))
      · simp at h
    · split_ifs at h with hc hd
      · exact Or.inr (Or.inr (Or.inr (Or.inl ⟨hc, by simpa using h⟩)))
      · exact Or.inr (Or.inr (Or.inr (Or.inr ⟨by simpa using hc, hd, by simpa using h⟩)))
      · simp at h
  · rintro (⟨hc, h⟩ | h | ⟨hc, h⟩ | ⟨hc, h⟩ | ⟨hc, hd, h⟩)
    · left; left; left
      rw [if_pos hc, h]
      simp
    · left; left; right
      exact h
    · left; right
      rw [if_pos hc, h]
      simp
    · right
      rw [if_pos hc, h]
      simp
    · right
      rw [if_neg (by simp [hc]), if_pos hd, h]
      simp

theorem number_lt_lt_false (x : JS.Number) (a b : ℚ) (hab : a ≤ b)
    (h1 : JS.Number.lt x (.fin a) = true) : JS.Number.lt (.fin b) x = false := by
  cases x with
  | nan => rfl
  | inf s =>
    cases s
    · simp [JS.Number.lt] at h1
    · simp [JS.Number.lt]
  | fin q =>
    simp only [JS.Number.lt, decide_eq_true_eq] at h1
    simp only [JS.Number.lt, decide_eq_false_iff_not, not_lt]
    linarith

/-- C24. For every statistics object, `generateInsights` emits a concern insight exactly
when the recommendation score is below 60 and a positive insight exactly when it is
above 80; the two are never emitted together, and a score from 60 to 80 inclusive
gives neither. -/
theorem generateInsights_recommendation (stats : Stats) :
    ((∃ i ∈ generateInsights stats, i.type = "concern") ↔
        JS.Number.lt stats.recommendationScore (.fin 60) = true) ∧
      ((∃ i ∈ generateInsights stats, i.type = "positive") ↔
        JS.Number.lt (.fin 80) stats.recommendationScore = true) ∧
      ¬((∃ i ∈ generateInsights stats, i.type = "concern") ∧
        ∃ i ∈ generateInsights stats, i.type = "positive") ∧
      ∀ q : ℚ, stats.recommendationScore = .fin q →
        ((∃ i ∈ generateInsights stats, i.type = "concern") ↔ q < 60) ∧
          ((∃ i ∈ generateInsights stats, i.type = "positive") ↔ 80 < q) ∧
          (60 ≤ q → q ≤ 80 → ∀ i ∈ generateInsights stats,
            i.type ≠ "concern" ∧ i.type ≠ "positive") := by
  have hc : (∃ i ∈ generateInsights stats, i.type = "concern") ↔
      JS.Number.lt stats.recommendationScore (.fin 60) = true := by
    constructor
    · rintro ⟨i, hi, ht⟩
      rcases (mem_generateInsights stats i).mp hi with
        ⟨-, h⟩ | h | ⟨-, h⟩ | ⟨hlt, -⟩ | ⟨-, -, h⟩
      · rw [h] at ht; simp [Insight.type] at ht
      · obtain ⟨entry, -, -, h⟩ := (mem_ratingInsights _ i).mp h
        rw [h] at ht; simp [Insight.type] at ht
      · rw [h] at ht; simp [Insight.type] at ht
      · exact hlt
      · rw [h] at ht; simp [Insight.type] at ht
    · intro h
      exact ⟨_, (mem_generateInsights stats _).mpr
        (Or.inr (Or.inr (Or.inr (Or.inl ⟨h, rfl⟩)))), rfl⟩
  have hp : (∃ i ∈ generateInsights stats, i.type = "positive") ↔
      JS.Number.lt (.fin 80) stats.recommendationScore = true := by
    constructor
    · rintro ⟨i, hi, ht⟩
      rcases (mem_generateInsights stats i).mp hi with
        ⟨-, h⟩ | h | ⟨-, h⟩ | ⟨-, h⟩ | ⟨-, hgt, -⟩
      · rw [h] at ht; simp [Insight.type] at ht
      · obtain ⟨entry, -, -, h⟩ := (mem_ratingInsights _ i).mp h
        rw [h] at ht; simp [Insight.type] at ht
      · rw [h] at ht; simp [Insight.type] at ht
      · rw [h] at ht; simp [Insight.type] at ht
      · exact hgt
    · intro h
      have hn : JS.Number.lt stats.recommendationScore (.fin 60) = false := by
        cases hx : JS.Number.lt stats.recommendationScore (.fin 60) with
        | false => rfl
        | true =>
          have := number_lt_lt_false stats.recommendationScore 60 80 (by norm_num) hx
          rw [h] at this
          cases this
      exact ⟨_, (mem_generateInsights stats _).mpr
        (Or.inr (Or.inr (Or.inr (Or.inr ⟨hn, h, rfl⟩)))), rfl⟩
  refine ⟨hc, hp, ?_, ?_⟩
  · rintro ⟨h1, h2⟩
    have := number_lt_lt_false stats.recommendationScore 60 80 (by norm_num) (hc.mp h1)
    rw [hp.mp h2] at this
    cases this
  · intro q hq
    rw [hq] at hc hp
    simp only [JS.Number.lt, decide_eq_true_eq] at hc hp
    refine ⟨hc, hp, ?_⟩
    intro h60 h80 i hi
    constructor
    · intro ht
      have := hc.mp ⟨i, hi, ht⟩
      linarith
    · intro ht
      have := hp.mp ⟨i, hi, ht⟩
      linarith

/-- C24 at the statistics of the sample store, whose recommendation score is 29: a
concern insight and no positive insight. -/
theorem generateInsights_recommendation_witness :
    getStats sampleStore = .ok sampleStats ∧ sampleStats.recommendationScore = .fin 29 ∧
      (∃ i ∈ generateInsights sampleStats, i.type = "concern") ∧
      ¬∃ i ∈ generateInsights sampleStats, i.type = "positive" :=
  ⟨by decide!, rfl,
    ((generateInsights_recommendation sampleStats).2.2.2 29 rfl).1.mpr (by norm_num),
    fun hp => absurd (((generateInsights_recommendation sampleStats).2.2.2 29 rfl).2.1.mp hp)
      (by norm_num)⟩

/-- C26. For the empty store the statistics handler answers with the report of no
feedback: `total` 0, `recommendationScore` 0 and no insights; it does not end in the
error response. -/
theorem getStats_empty :
    getStats [] = .noFeedback 0 (.fin 0) [] ∧ getStats [] ≠ .serverError ∧
      ∀ stats, getStats [] ≠ .ok stats := by
  refine ⟨rfl, ?_, ?_⟩
  · intro h
    cases h
  · intro stats h
    cases h

theorem filterMap_ite_eq_map_filter {α β : Type} (p : α → Bool) (f : α → β) (l : List α) :
    l.filterMap (fun x => if p x then some (f x) else none) = (l.filter p).map f := by
  induction l with
  | nil => rfl
  | cons x xs ih =>
    by_cases h : p x = true
    · simp [List.filterMap_cons, h, ih]
    · simp [List.filterMap_cons, h, ih]

theorem ratingInsights_eq (averageRatings : AverageRatings) :
    ratingInsights averageRatings =
      (averageRatings.entries.filter (fun entry =>
        JS.Number.lt (.fin 0) (JS.parseFloat entry.2) &&
          JS.Number.lt (JS.parseFloat entry.2) (.fin (5 / 2)))).map
        (fun entry => .improvement entry.1 (JS.parseFloat entry.2)) := by
  unfold ratingInsights
  exact filterMap_ite_eq_map_filter _ _ _

/-- C23, amended. For every statistics object, the improvement insights of
`generateInsights` are one for each key of `averageRatings` whose value reads as a
score strictly between 0 and 2.5, in the order of the keys, each with priority medium
and with that key and score.  The keys are the five rating categories and `overall`;
the number of improvement insights is the number of these six keys that qualify. -/
theorem generateInsights_improvement (stats : Stats) :
    (generateInsights stats).filter (fun i => i.type == "improvement") =
        (stats.averageRatings.entries.filter (fun entry =>
          JS.Number.lt (.fin 0) (JS.parseFloat entry.2) &&
            JS.Number.lt (JS.parseFloat entry.2) (.fin (5 / 2)))).map
          (fun entry => .improvement entry.1 (JS.parseFloat entry.2)) ∧
      ((generateInsights stats).filter (fun i => i.type == "improvement")).length =
        (stats.averageRatings.entries.filter (fun entry =>
          JS.Number.lt (.fin 0) (JS.parseFloat entry.2) &&
            JS.Number.lt (JS.parseFloat entry.2) (.fin (5 / 2)))).length ∧
      stats.averageRatings.entries.map (fun entry => entry.1) = ratingCategories ++ ["overall"] ∧
      ∀ i ∈ generateInsights stats, i.type = "improvement" → i.priority = "medium" := by
  have hf : (generateInsights stats).filter (fun i => i.type == "improvement") =
      ratingInsights stats.averageRatings := by
    have hr : (ratingInsights stats.averageRatings).filter (fun i => i.type == "improvement") =
        ratingInsights stats.averageRatings := by
      rw [List.filter_eq_self]
      intro i hi
      obtain ⟨entry, -, -, h⟩ := (mem_ratingInsights _ i).mp hi
      rw [h]
      rfl
    simp only [generateInsights, List.filter_append, hr]
    have h1 : ∀ (c : Prop) [Decidable c] (x : Insight), x.type ≠ "improvement" →
        (if c then [x] else []).filter (fun i => i.type == "improvement") = [] := by
      intro c _ x hx
      split_ifs
      · simp [hx]
      · rfl
    rw [h1 _ _ (by simp [Insight.type]), h1 _ _ (by simp [Insight.type])]
    have h2 : (if JS.Number.lt stats.recommendationScore (.fin 60) = true then
          [Insight.concern stats.recommendationScore]
        else if JS.Number.lt (.fin 80) stats.recommendationScore = true then
          [Insight.positive stats.recommendationScore]
        else []).filter (fun i => i.type == "improvement") = [] := by
      split_ifs <;> simp [Insight.type]
    rw [h2]
    simp
  refine ⟨?_, ?_, rfl, ?_⟩
  · rw [hf, ratingInsights_eq]
  · rw [hf, ratingInsights_eq, List.length_map]
  · intro i _ ht
    cases i <;> simp [Insight.type] at ht
    rfl

/-- C23 at the statistics of the sample store: the six keys all qualify and there are
six improvement insights. -/
theorem generateInsights_improvement_witness :
    ((generateInsights sampleStats).filter (fun i => i.type == "improvement")).length = 6 ∧
      (sampleStats.averageRatings.entries.filter (fun entry =>
        JS.Number.lt (.fin 0) (JS.parseFloat entry.2) &&
          JS.Number.lt (JS.parseFloat entry.2) (.fin (5 / 2)))).length = 6 :=
  ⟨((generateInsights_improvement sampleStats).2.1).trans (by decide!), by decide!⟩

/-- C23 fails as stated.  For the store with one record whose five ratings are `Poor`,
the five categories have the average 1.00 and so has `overall`; the statistics carry
six improvement insights, the sixth for the key `overall`, which is none of the five
rating categories. -/
theorem generateInsights_improvement_overall :
    (∃ stats, getStats allPoorStore = .ok stats ∧
      stats.averageRatings =
        ⟨.str "1.00", .str "1.00", .str "1.00", .str "1.00", .str "1.00", .str "1.00"⟩ ∧
      (stats.insights.filter (fun i => i.type == "improvement")).length = 6 ∧
      Insight.improvement "overall" (.fin 1) ∈ stats.insights) ∧
      "overall" ∉ ratingCategories ∧ ratingCategories.length = 5 := by
  refine ⟨⟨_, rfl, ?_, ?_, ?_⟩, by decide, rfl⟩ <;> decide!

/-! ## The statistics of a store -/

theorem getStats_ok (store : List Feedback) (stats : Stats) (h : getStats store = .ok stats) :
    store ≠ [] ∧ ∃ topEmotions commonKeyPhrases,
      stats = { statsOf store topEmotions commonKeyPhrases with
        insights := generateInsights (statsOf store topEmotions commonKeyPhrases) } := by
  unfold getStats at h
  split_ifs at h with hl
  constructor
  · intro e
    rw [e] at hl
    exact hl rfl
  · split at h
    · cases h
    · split at h
      · rename_i te ck _ _
        simp only [StatsResponse.ok.injEq] at h
        exact ⟨te, ck, h.symm⟩
      · cases h

theorem foldl_countSentiment (store : List Feedback) (d : SentimentDistribution) :
    (store.foldl countSentiment d).positive =
        d.positive + store.countP (fun r => combinedSentiment r == some "positive") ∧
      (store.foldl countSentiment d).negative =
        d.negative + store.countP (fun r => combinedSentiment r == some "negative") ∧
      (store.foldl countSentiment d).neutral =
        d.neutral + store.countP (fun r => (combinedSentiment r).isSome &&
          (combinedSentiment r != some "positive" &&
            combinedSentiment r != some "negative")) := by
  induction store generalizing d with
  | nil => simp
  | cons r rest ih =>
    simp only [List.foldl_cons, List.countP_cons]
    obtain ⟨h1, h2, h3⟩ := ih (countSentiment d r)
    rw [h1, h2, h3]
    cases hc : r.sentimentAnalysis.combinedAnalysis with
    | none =>
      simp [countSentiment, combinedSentiment, hc]
    | some c =>
      by_cases hp : JS.toLowerCase c.sentiment = "positive"
      · simp [countSentiment, combinedSentiment, hc, hp]
        omega
      · by_cases hn : JS.toLowerCase c.sentiment = "negative"
        · simp [countSentiment, combinedSentiment, hc, hp, hn]
          omega
        · simp [countSentiment, combinedSentiment, hc, hp, hn]
          omega

theorem foldl_countPriority_high (store : List Feedback) (d : PriorityDistribution) :
    (store.foldl countPriority d).high =
      d.high + store.countP (fun r => r.analytics.priorityLevel == "high") := by
  induction store generalizing d with
  | nil => simp
  | cons r rest ih =>
    simp only [List.foldl_cons, List.countP_cons]
    rw [ih]
    by_cases hh : r.analytics.priorityLevel = "high"
    · simp [countPriority, hh]
      omega
    · by_cases hm : r.analytics.priorityLevel = "medium"
      · simp [countPriority, hm]
      · by_cases hl : r.analytics.priorityLevel = "low"
        · simp [countPriority, hl]
        · simp [countPriority, hh, hm, hl]

theorem toText_str (s : String) : (JS.Value.str s).toText = some s := by
  simp [JS.Value.toText]

theorem keysOf_labels (items : List JS.Value) (h : ∀ v ∈ items, isLabel v = true) :
    ∃ keys, keysOf items = some keys := by
  induction items with
  | nil => exact ⟨[], rfl⟩
  | cons v rest ih =>
    obtain ⟨keys, hk⟩ := ih (fun w hw => h w (List.mem_cons_of_mem v hw))
    have hv := h v (List.mem_cons_self v rest)
    cases v with
    | str s => exact ⟨s :: keys, by simp [keysOf, toText_str, hk]⟩
    | _ => simp [isLabel] at hv

theorem getTopItems_labels (items : List JS.Value) (topN : Nat)
    (h : ∀ v ∈ items, isLabel v = true) : ∃ top, getTopItems items topN = some top := by
  obtain ⟨keys, hk⟩ := keysOf_labels items h
  exact ⟨_, by simp only [getTopItems, hk]; rfl⟩

theorem pushAll_labels (all : List JS.Value) (value : JS.Value)
    (ha : ∀ v ∈ all, isLabel v = true) (hv : isLabelList value = true) :
    ∃ more, pushAll all value = some more ∧ ∀ v ∈ more, isLabel v = true := by
  cases value with
  | arr items =>
    refine ⟨all ++ items, by simp [pushAll, JS.Value.truthy, JS.Value.elements], ?_⟩
    intro v hm
    rcases List.mem_append.mp hm with hm | hm
    · exact ha v hm
    · simp only [isLabelList, List.all_eq_true] at hv
      exact hv v hm
  | _ => simp [isLabelList] at hv

theorem pooled_labels (store : List Feedback) (a b : List JS.Value)
    (h : ∀ r ∈ store, hasLabelLists r = true)
    (ha : ∀ v ∈ a, isLabel v = true) (hb : ∀ v ∈ b, isLabel v = true) :
    ∃ emotions keyPhrases, pooled store a b = some (emotions, keyPhrases) ∧
      (∀ v ∈ emotions, isLabel v = true) ∧ ∀ v ∈ keyPhrases, isLabel v = true := by
  induction store generalizing a b with
  | nil => exact ⟨a, b, rfl, ha, hb⟩
  | cons r rest ih =>
    have hr := h r (List.mem_cons_self r rest)
    have hrest : ∀ x ∈ rest, hasLabelLists x = true :=
      fun x hx => h x (List.mem_cons_of_mem r hx)
    cases hc : r.sentimentAnalysis.combinedAnalysis with
    | none =>
      simp only [pooled, hc]
      exact ih a b hrest ha hb
    | some c =>
      simp only [hasLabelLists, hc, Bool.and_eq_true] at hr
      obtain ⟨a2, h1, ha2⟩ := pushAll_labels a c.emotions ha hr.1
      obtain ⟨b2, h2, hb2⟩ := pushAll_labels b c.key_phrases hb hr.2
      simp only [pooled, hc, h1, h2]
      exact ih a2 b2 hrest ha2 hb2

/-- The statistics handler answers with a report for every store that is not empty and
whose combined analyses carry arrays of strings as emotions and key phrases. -/
theorem getStats_of_labels (store : List Feedback) (hne : store ≠ [])
    (h : ∀ r ∈ store, hasLabelLists r = true) : ∃ stats, getStats store = .ok stats := by
  obtain ⟨emotions, keyPhrases, hp, he, hk⟩ :=
    pooled_labels store [] [] h (fun v hv => by cases hv) (fun v hv => by cases hv)
  obtain ⟨te, hte⟩ := getTopItems_labels emotions 5 he
  obtain ⟨ck, hck⟩ := getTopItems_labels keyPhrases 10 hk
  have hl : ¬ store.length = 0 := fun e => hne (List.length_eq_zero.mp e)
  exact ⟨_, by simp only [getStats, hl, if_false, hp, hte, hck]; rfl⟩

theorem countP_add_three {α : Type} (p q s t : α → Bool) (l : List α)
    (h : ∀ x, (p x).toNat + (q x).toNat + (s x).toNat = (t x).toNat) :
    l.countP p + l.countP q + l.countP s = l.countP t := by
  induction l with
  | nil => rfl
  | cons x xs ih =>
    have hx := h x
    simp only [List.countP_cons]
    cases hp : p x <;> cases hq : q x <;> cases hs : s x <;> cases ht : t x <;>
      simp [hp, hq, hs, ht] at hx ⊢ <;> omega

/-- C25, amended. Whenever the statistics handler answers with a report, the counts of
`sentimentDistribution` are taken over the records with a combined analysis: positive
counts the records whose sentiment in lower case is positive, negative those whose
sentiment is negative, neutral those with any other sentiment, and the three sum to the
number of records with a combined analysis; a record without one leaves the three
counts as they are.  The handler answers with a report for every store that is not
empty and whose combined analyses carry lists of strings. -/
theorem sentimentDistribution_counts (store : List Feedback) :
    (∀ stats, getStats store = .ok stats →
        stats.sentimentDistribution.positive =
            store.countP (fun r => combinedSentiment r == some "positive") ∧
          stats.sentimentDistribution.negative =
            store.countP (fun r => combinedSentiment r == some "negative") ∧
          stats.sentimentDistribution.neutral =
            store.countP (fun r => (combinedSentiment r).isSome &&
              (combinedSentiment r != some "positive" &&
                combinedSentiment r != some "negative")) ∧
          stats.sentimentDistribution.positive + stats.sentimentDistribution.neutral +
              stats.sentimentDistribution.negative =
            store.countP (fun r => r.sentimentAnalysis.combinedAnalysis.isSome)) ∧
      (∀ distribution r, r.sentimentAnalysis.combinedAnalysis = none →
        countSentiment distribution r = distribution) ∧
      (store ≠ [] → (∀ r ∈ store, hasLabelLists r = true) →
        ∃ stats, getStats store = .ok stats) := by
  refine ⟨?_, ?_, getStats_of_labels store⟩
  · intro stats h
    obtain ⟨-, te, ck, hs⟩ := getStats_ok store stats h
    have hd : stats.sentimentDistribution = store.foldl countSentiment ⟨0, 0, 0⟩ := by
      rw [hs]
      rfl
    obtain ⟨h1, h2, h3⟩ := foldl_countSentiment store ⟨0, 0, 0⟩
    simp only [Nat.zero_add] at h1 h2 h3
    rw [hd]
    refine ⟨h1, h2, h3, ?_⟩
    rw [h1, h2, h3]
    apply countP_add_three
    intro r
    cases hc : r.sentimentAnalysis.combinedAnalysis with
    | none => simp [combinedSentiment, hc]
    | some c =>
      by_cases hp : JS.toLowerCase c.sentiment = "positive"
      · simp [combinedSentiment, hc, hp]
      · by_cases hn : JS.toLowerCase c.sentiment = "negative"
        · simp [combinedSentiment, hc, hp, hn]
        · have h4 : (JS.toLowerCase c.sentiment == "positive") = false := by simpa using hp
          have h5 : (JS.toLowerCase c.sentiment == "negative") = false := by simpa using hn
          simp [combinedSentiment, hc, h4, h5, bne]
  · intro d r hr
    simp only [countSentiment, hr]

theorem getStats_sentimentDistribution (store : List Feedback) (stats : Stats)
    (h : getStats store = .ok stats) :
    stats.sentimentDistribution = store.foldl countSentiment ⟨0, 0, 0⟩ := by
  obtain ⟨-, te, ck, hs⟩ := getStats_ok store stats h
  rw [hs]
  rfl

/-- C25 fails as stated.  The store reached by one submission that is classified as
`mixed` holds one record with a combined analysis; the report counts it under neutral,
which is not its own sentiment: the distribution is 0 positive, 1 neutral and 0
negative.  And for the store reached by one submission whose classification carries
the number 5 as its emotions there is no distribution at all: the handler answers with
the server error. -/
theorem sentimentDistribution_mixed_label :
    Reachable mixedLabelStore ∧
      mixedLabelStore.map combinedSentiment = [some "mixed"] ∧
      (∃ stats, getStats mixedLabelStore = .ok stats ∧
        stats.sentimentDistribution = ⟨0, 1, 0⟩) ∧
      Reachable numericEmotionsStore ∧
      numericEmotionsStore.map combinedSentiment = [some "positive"] ∧
      getStats numericEmotionsStore = .serverError := by
  refine ⟨Reachable.afterSubmit 0 mixedOracle [] samplePayload Reachable.init, by decide!, ?_,
    Reachable.afterSubmit 0 numericEmotionsOracle [] samplePayload Reachable.init,
    by decide!, by decide!⟩
  obtain ⟨stats, h⟩ := getStats_of_labels mixedLabelStore (by decide!) (by decide!)
  refine ⟨stats, h, ?_⟩
  rw [getStats_sentimentDistribution _ _ h]
  decide!

/-- C25 at the store of two records, one classified as negative and one without a
combined analysis: the counts are 0, 0 and 1 and sum to 1. -/
theorem sentimentDistribution_counts_witness :
    ∃ stats, getStats mixedStore = .ok stats ∧
      stats.sentimentDistribution = ⟨0, 0, 1⟩ ∧
      mixedStore.length = 2 ∧
      mixedStore.countP (fun r => r.sentimentAnalysis.combinedAnalysis.isSome) = 1 ∧
      stats.sentimentDistribution.positive + stats.sentimentDistribution.neutral +
          stats.sentimentDistribution.negative =
        mixedStore.countP (fun r => r.sentimentAnalysis.combinedAnalysis.isSome) := by
  obtain ⟨stats, h⟩ := getStats_of_labels mixedStore (by decide!) (by decide!)
  refine ⟨stats, h, ?_, by decide!, by decide!,
    ((sentimentDistribution_counts mixedStore).1 stats h).2.2.2⟩
  rw [getStats_sentimentDistribution _ _ h]
  decide!

theorem analyzeSingle_sentiment_lower (now : Nat) (outcome : CallOutcome) (text : String) :
    JS.toLowerCase (analyzeSingle now outcome text).sentiment =
      (analyzeSingle now outcome text).sentiment := by
  unfold analyzeSingle analyzeSentiment
  split
  · rename_i r h
    unfold analyzeSentimentTry at h
    split at h
    · cases h
    · split at h
      · cases h
      · cases h
        exact parseResponse_sentiment_lower _ _ _
  · show JS.toLowerCase "neutral" = "neutral"
    decide!

theorem sentimentPass_combined_lower (now : Nat) (oracle : Nat → CallOutcome) (start : Nat)
    (a b : Option String) (c : SentimentResult)
    (h : (sentimentPass now oracle start a b).sentimentAnalysis.combinedAnalysis = some c) :
    JS.toLowerCase c.sentiment = c.sentiment := by
  simp only [sentimentPass] at h
  split_ifs at h <;>
  · cases h
    exact analyzeSingle_sentiment_lower _ _ _

theorem submit_lowerCase (now : Nat) (oracle : Nat → CallOutcome) (store : List Feedback)
    (body : Payload) (h : ∀ r ∈ store, LowerCaseSentiment r) :
    ∀ r ∈ (submit now oracle store body).store, LowerCaseSentiment r := by
  unfold submit
  split
  · exact h
  · intro r hr
    simp only [List.mem_append, List.mem_singleton] at hr
    rcases hr with hr | hr
    · exact h r hr
    · subst hr
      intro c hc
      exact sentimentPass_combined_lower _ _ _ _ _ c hc

theorem reprocessLoop_lowerCase (now : Nat) (oracle : Nat → CallOutcome)
    (store : List Feedback) (start : Nat) (h : ∀ r ∈ store, LowerCaseSentiment r) :
    ∀ r ∈ (reprocessLoop now oracle store start).store, LowerCaseSentiment r := by
  induction store generalizing start with
  | nil => intro r hr; simp [reprocessLoop] at hr
  | cons x xs ih =>
    have hx := h x (List.mem_cons_self x xs)
    have hxs : ∀ r ∈ xs, LowerCaseSentiment r := fun r hr => h r (List.mem_cons_of_mem x hr)
    intro r hr
    unfold reprocessLoop at hr
    split_ifs at hr with ha
    · simp only [List.mem_cons] at hr
      rcases hr with hr | hr
      · subst hr; exact hx
      · exact ih start hxs r hr
    · simp only [List.mem_cons] at hr
      rcases hr with hr | hr
      · subst hr
        intro c hc
        exact sentimentPass_combined_lower _ _ _ _ _ c hc
      · exact ih _ hxs r hr

theorem reachable_lowerCase (store : List Feedback) (h : Reachable store) :
    ∀ r ∈ store, LowerCaseSentiment r := by
  induction h with
  | init => intro r hr; cases hr
  | afterSubmit now oracle store body _ ih => exact submit_lowerCase now oracle store body ih
  | afterReprocess now oracle store _ ih => exact reprocessLoop_lowerCase now oracle store 0 ih

theorem reachable_negative_high (store : List Feedback) (h : Reachable store) (r : Feedback)
    (hr : r ∈ store) (hn : combinedSentiment r = some "negative") :
    r.analytics.priorityLevel = "high" := by
  have hinv := (reachable_invariant store h r hr).1.2.2
  have hlow := reachable_lowerCase store h r hr
  cases hc : r.sentimentAnalysis.combinedAnalysis with
  | none => simp [combinedSentiment, hc] at hn
  | some c =>
    simp only [combinedSentiment, hc, Option.map_some', Option.some.injEq] at hn
    rw [hlow c hc] at hn
    rw [hinv, hc]
    simp [calculatePriorityLevel, hasSentiment, hn]

/-- C29. In every store reachable by submissions and reprocessing runs, every record
whose combined sentiment is negative has priority high; so whenever the statistics
handler answers with a report, its negative count is at most its count of high
priority, and a report that carries the warning insight for negative sentiment also
carries the urgent insight. -/
theorem negative_le_high (store : List Feedback) (h : Reachable store) :
    (∀ r ∈ store, combinedSentiment r = some "negative" →
        r.analytics.priorityLevel = "high") ∧
      ∀ stats, getStats store = .ok stats →
        stats.sentimentDistribution.negative ≤ stats.priorityDistribution.high ∧
          ((∃ i ∈ stats.insights, i.type = "warning") →
            ∃ i ∈ stats.insights, i.type = "urgent") := by
  refine ⟨fun r hr hn => reachable_negative_high store h r hr hn, ?_⟩
  intro stats hs
  obtain ⟨-, te, ck, he⟩ := getStats_ok store stats hs
  have hneg : stats.sentimentDistribution.negative =
      store.countP (fun r => combinedSentiment r == some "negative") := by
    rw [he]
    exact ((foldl_countSentiment store ⟨0, 0, 0⟩).2.1).trans (Nat.zero_add _)
  have hhigh : stats.priorityDistribution.high =
      store.countP (fun r => r.analytics.priorityLevel == "high") := by
    rw [he]
    exact (foldl_countPriority_high store ⟨0, 0, 0⟩).trans (Nat.zero_add _)
  have hle : stats.sentimentDistribution.negative ≤ stats.priorityDistribution.high := by
    rw [hneg, hhigh]
    apply List.countP_mono_left
    intro r hr hn
    have := reachable_negative_high store h r hr (by simpa using hn)
    simpa using this
  refine ⟨hle, ?_⟩
  rintro ⟨i, hi, ht⟩
  have hins : stats.insights = generateInsights (statsOf store te ck) := by
    rw [he]
  have hneg2 : (statsOf store te ck).sentimentDistribution.negative =
      stats.sentimentDistribution.negative := by
    rw [he]
  have hhigh2 : (statsOf store te ck).priorityDistribution.high =
      stats.priorityDistribution.high := by
    rw [he]
  rw [hins] at hi ⊢
  have hpos : 0 < stats.sentimentDistribution.negative := by
    rcases (mem_generateInsights _ i).mp hi with
      ⟨hc, -⟩ | h2 | ⟨-, h2⟩ | ⟨-, h2⟩ | ⟨-, -, h2⟩
    · rw [hneg2] at hc
      simp only [number_mul_fin, JS.Number.lt, decide_eq_true_eq] at hc
      have h0 : (0 : ℚ) ≤ ((statsOf store te ck).total : ℚ) * (3 / 10) := by positivity
      have : (0 : ℚ) < (stats.sentimentDistribution.negative : ℚ) := lt_of_le_of_lt h0 hc
      exact_mod_cast this
    · obtain ⟨entry, -, -, h3⟩ := (mem_ratingInsights _ i).mp h2
      rw [h3] at ht; simp [Insight.type] at ht
    · rw [h2] at ht; simp [Insight.type] at ht
    · rw [h2] at ht; simp [Insight.type] at ht
    · rw [h2] at ht; simp [Insight.type] at ht
  have hh : 0 < (statsOf store te ck).priorityDistribution.high := by
    rw [hhigh2]
    omega
  exact ⟨_, (mem_generateInsights _ _).mpr (Or.inr (Or.inr (Or.inl ⟨hh, rfl⟩))), rfl⟩

/-- C29 at the reachable store of the sample submission: one negative record, one
record of high priority, and the warning and the urgent insight in the report. -/
theorem negative_le_high_witness :
    Reachable sampleStore ∧ getStats sampleStore = .ok sampleStats ∧
      sampleStats.sentimentDistribution.negative = 1 ∧
      sampleStats.priorityDistribution.high = 1 ∧
      (∃ i ∈ sampleStats.insights, i.type = "warning") ∧
      ∃ i ∈ sampleStats.insights, i.type = "urgent" :=
  ⟨Reachable.afterSubmit 0 negativeOracle [] samplePayload Reachable.init, by decide!, rfl, rfl,
    ⟨.warning (.fin 100), by decide!, rfl⟩,
    ((negative_le_high sampleStore
      (Reachable.afterSubmit 0 negativeOracle [] samplePayload Reachable.init)).2 sampleStats
      (by decide!)).2 ⟨.warning (.fin 100), by decide!, rfl⟩⟩

/-! ## Averages, rankings and summaries -/

/-- The value of a category in `averageRatings` is the mean of the mapped ratings over
the populated records, written with two decimals, whenever no rating is a name
inherited from `Object.prototype`; a category that no record has populated keeps the
number 0. -/
theorem categoryAverage_mean (ratings : List String)
    (h : ∀ r ∈ ratings, r ∉ JS.objectPrototypeKeys) :
    (specCategoryMean ratings = none → categoryAverage ratings = .num (.fin 0)) ∧
      ∀ mean, specCategoryMean ratings = some mean →
        categoryAverage ratings = .str (JS.toFixed2 (.fin mean)) := by
  have hp : ∀ r ∈ ratings.filter (fun rating => rating != ""), r ∉ JS.objectPrototypeKeys :=
    fun r hr => h r (List.mem_of_mem_filter hr)
  by_cases he : ratings.filter (fun rating => rating != "") = []
  · constructor
    · intro _
      simp [categoryAverage, he]
    · intro mean hm
      simp [specCategoryMean, he] at hm
  · constructor
    · intro hn
      simp [specCategoryMean, he] at hn
    · intro mean hm
      simp only [specCategoryMean, he, if_false, Option.some.injEq] at hm
      have hlen : 0 < (ratings.filter (fun rating => rating != "")).length :=
        List.length_pos.mpr he
      have hq : (((ratings.filter (fun rating => rating != "")).length : ℕ) : ℚ) ≠ 0 := by
        exact_mod_cast hlen.ne'
      simp only [categoryAverage, hlen, if_true, foldl_addScore _ hp, zero_add, JS.Number.div]
      rw [if_neg hq, hm]

/-- C22 fails in the code.  The store holds one record, with the cleanliness rating
`Terrible` and the other four ratings of the scale.  Every category has one
observation; the mean of cleanliness is 0 and is reported as `0.00`, and `overall`
leaves that category out: it is `3.00`, the mean of the four other values, where the
mean over the five categories with an observation is 2.4. -/
theorem overall_skips_zero_category :
    (∃ stats, getStats otherRatingStore = .ok stats ∧
      stats.averageRatings =
        ⟨.str "0.00", .str "3.00", .str "2.00", .str "3.00", .str "4.00", .str "3.00"⟩) ∧
      otherRatingStore.map (fun fb => fb.ratings.cleanliness) = ["Terrible"] ∧
      specCategoryMean (otherRatingStore.map (fun fb => fb.ratings.cleanliness)) = some 0 ∧
      specOverall otherRatingStore = some (12 / 5) ∧
      JS.toFixed2 (.fin (12 / 5)) = "2.40" := by
  refine ⟨⟨_, rfl, ?_⟩, ?_, ?_, ?_, ?_⟩ <;> decide!

/-- C21 fails in the code.  The worked example holds: the items `a a b c c c` with
`n = 2` give `c` with 3 and `a` with 2.  For the one item `constructor` the count is
not the number 1 but a text, made of the function that `counts` inherits under that
name.  For the items `b` and `1` the result lists `1` before `b`, although both occur
once and `b` appears first: `Object.keys` puts a key that is an array index first.  For
the items `__proto__`, `__proto__` and `a` with `n = 1` the result is `a` with 1: the
label `__proto__`, which occurs twice, is never counted. -/
theorem getTopItems_inherited_and_index_keys :
    getTopItems exampleItems 2 = some [⟨"c", .num 3⟩, ⟨"a", .num 2⟩] ∧
      specTopItems ["a", "a", "b", "c", "c", "c"] 2 = [("c", 3), ("a", 2)] ∧
      getTopItems [.str "constructor"] 1 = some [⟨"constructor", .text⟩] ∧
      specTopItems ["constructor"] 1 = [("constructor", 1)] ∧
      getTopItems [.str "b", .str "1"] 2 = some [⟨"1", .num 1⟩, ⟨"b", .num 1⟩] ∧
      specTopItems ["b", "1"] 2 = [("b", 1), ("1", 1)] ∧
      getTopItems [.str "__proto__", .str "__proto__", .str "a"] 1 = some [⟨"a", .num 1⟩] ∧
      specTopItems ["__proto__", "__proto__", "a"] 1 = [("__proto__", 2)] ∧
      _getTopEmotions twoResults 5 = some ["happy", "sad"] := by
  decide!

/-- C27 fails in the code.  The response whose object carries the number 5 as its
emotions is parsed to a result with sentiment positive and the emotions 5; on the list
of that one result `getSummaryStatistics` ends in the `TypeError` of `_getTopEmotions`
and returns no summary.  On two results with lists of emotions it returns the summary
of the claim, and on the empty list the empty object. -/
theorem getSummaryStatistics_throws :
    (_parseResponse 0 "Nice" (.str numericEmotionsResponse)).sentiment = "positive" ∧
      (_parseResponse 0 "Nice" (.str numericEmotionsResponse)).emotions = .num (.fin 5) ∧
      getSummaryStatistics 7 [_parseResponse 0 "Nice" (.str numericEmotionsResponse)] = none ∧
      getSummaryStatistics 7 twoResults =
        some (.summary ⟨2, .fin 50, .fin 50, .fin 0, .fin (3 / 4), ["happy", "sad"], 7⟩) ∧
      getSummaryStatistics 7 [] = some .empty := by
  decide!

/-! ## The ranking on plain labels -/

theorem find_key_none (counts : List (String × Tally)) (key : String) :
    counts.find? (fun m => m.1 == key) = none ↔ key ∉ counts.map (fun m => m.1) := by
  induction counts with
  | nil => simp
  | cons m rest ih =>
    by_cases h : m.1 = key
    · simp [List.find?_cons, h]
    · have hb : (m.1 == key) = false := by simpa using h
      simp only [List.find?_cons, hb, ih, List.map_cons, List.mem_cons]
      constructor
      · intro hn hm
        rcases hm with hm | hm
        · exact h hm.symm
        · exact hn hm
      · intro hn hm
        exact hn (Or.inr hm)

theorem find_key_some (counts : List (String × Tally)) (key : String) (m : String × Tally)
    (h : counts.find? (fun m => m.1 == key) = some m) :
    m.1 = key ∧ m ∈ counts := by
  have h1 := List.find?_some h
  exact ⟨by simpa using h1, List.mem_of_find?_eq_some h⟩

theorem map_update_keys (counts : List (String × Tally)) (key : String) (t : Tally) :
    (counts.map (fun m => if m.1 == key then (m.1, t) else m)).map (fun m => m.1) =
      counts.map (fun m => m.1) := by
  induction counts with
  | nil => rfl
  | cons m rest ih =>
    simp only [List.map_cons, ih]
    congr 1
    split_ifs <;> rfl

theorem find_map_update (counts : List (String × Tally)) (key k : String) (t : Tally) :
    (counts.map (fun m => if m.1 == key then (m.1, t) else m)).find? (fun m => m.1 == k) =
      if k = key then (counts.find? (fun m => m.1 == key)).map (fun m => (m.1, t))
      else counts.find? (fun m => m.1 == k) := by
  induction counts with
  | nil => simp
  | cons m rest ih =>
    simp only [List.map_cons, List.find?_cons]
    by_cases hm : m.1 = key
    · have hb : (m.1 == key) = true := by simpa using hm
      simp only [hb, if_true]
      by_cases hk : k = key
      · simp [hk, hm]
      · have hne : (m.1 == k) = false := by
          simp only [beq_eq_false_iff_ne, ne_eq]
          rw [hm]
          exact fun e => hk e.symm
        simp only [hne, hk, if_false]
        rw [ih, if_neg hk]
    · have hb : (m.1 == key) = false := by simpa using hm
      simp only [hb, Bool.false_eq_true, if_false]
      by_cases hk : k = key
      · subst hk
        simp only [hb, if_true]
        rw [ih, if_pos rfl]
      · simp only [hk, if_false]
        by_cases hmk : m.1 = k
        · simp [hmk]
        · have hf : (m.1 == k) = false := by simpa using hmk
          simp only [hf]
          rw [ih, if_neg hk]

/-- One counting step on a `counts` object whose members are numbers, for a label that
is no name of `Object.prototype`: a new label is added at the end with 1, a label that
is a member has its number raised by 1, and the members stay numbers. -/
theorem tallyStep_plain (counts : List (String × Tally)) (label : String)
    (hg : ∀ m ∈ counts, ∃ n, m.2 = .num n) (hl : label ∉ JS.objectPrototypeKeys) :
    (tallyStep counts label).map (fun m => m.1) =
        (if label ∈ counts.map (fun m => m.1) then counts.map (fun m => m.1)
          else counts.map (fun m => m.1) ++ [label]) ∧
      (∀ m ∈ tallyStep counts label, ∃ n, m.2 = .num n) ∧
      ∀ k, numberOf (tallyStep counts label) k =
        numberOf counts k + (if k = label then 1 else 0) := by
  have hproto : label ≠ "__proto__" := by
    intro e
    rw [e] at hl
    exact hl (by decide)
  cases hf : counts.find? (fun m => m.1 == label) with
  | none =>
    have hnot := (find_key_none counts label).mp hf
    simp only [tallyStep, hf, hproto, hl, if_false, hnot]
    refine ⟨by simp, ?_, ?_⟩
    · intro m hm
      rcases List.mem_append.mp hm with hm | hm
      · exact hg m hm
      · simp only [List.mem_singleton] at hm
        exact ⟨1, by rw [hm]⟩
    · intro k
      simp only [numberOf, List.find?_append]
      by_cases hk : k = label
      · subst hk
        simp [hf]
      · have hb : (label == k) = false := by simpa using fun e => hk e.symm
        simp only [List.find?_cons, hb, List.find?_nil, hk, if_false, Nat.add_zero]
        cases counts.find? (fun m => m.1 == k) <;> rfl
  | some m =>
    obtain ⟨hm1, hm2⟩ := find_key_some counts label m hf
    obtain ⟨n, hn⟩ := hg m hm2
    have hmem : label ∈ counts.map (fun m => m.1) := by
      rw [← hm1]
      exact List.mem_map_of_mem _ hm2
    obtain ⟨key, t⟩ := m
    simp only at hn hm1
    subst hn
    simp only [tallyStep, hf, hmem, if_true]
    refine ⟨map_update_keys _ _ _, ?_, ?_⟩
    · intro x hx
      obtain ⟨y, hy, hxy⟩ := List.mem_map.mp hx
      split_ifs at hxy
      · exact ⟨n + 1, by rw [← hxy]⟩
      · rw [← hxy]
        exact hg y hy
    · intro k
      simp only [numberOf, find_map_update, hf]
      by_cases hk : k = label
      · subst hk
        simp [hf]
      · simp [hk]

theorem foldl_tallyStep_plain (labels : List String) (counts : List (String × Tally))
    (hg : ∀ m ∈ counts, ∃ n, m.2 = .num n)
    (hl : ∀ l ∈ labels, l ∉ JS.objectPrototypeKeys) :
    (labels.foldl tallyStep counts).map (fun m => m.1) =
        labels.foldl (fun seen label => if label ∈ seen then seen else seen ++ [label])
          (counts.map (fun m => m.1)) ∧
      (∀ m ∈ labels.foldl tallyStep counts, ∃ n, m.2 = .num n) ∧
      ∀ k, numberOf (labels.foldl tallyStep counts) k = numberOf counts k + labels.count k := by
  induction labels generalizing counts with
  | nil => exact ⟨rfl, hg, fun k => by simp⟩
  | cons l rest ih =>
    obtain ⟨h1, h2, h3⟩ := tallyStep_plain counts l hg (hl l (List.mem_cons_self l rest))
    obtain ⟨i1, i2, i3⟩ := ih (tallyStep counts l) h2
      (fun x hx => hl x (List.mem_cons_of_mem l hx))
    simp only [List.foldl_cons]
    refine ⟨?_, i2, ?_⟩
    · rw [i1, h1]
    · intro k
      rw [i3, h3, List.count_cons]
      by_cases hk : k = l
      · subst hk
        simp
        omega
      · have : (l == k) = false := by simpa using fun e => hk e.symm
        simp [hk, this]

theorem mem_foldl_seen (labels seen : List String) (k : String) :
    k ∈ labels.foldl (fun seen label => if label ∈ seen then seen else seen ++ [label]) seen ↔
      k ∈ seen ∨ k ∈ labels := by
  induction labels generalizing seen with
  | nil => simp
  | cons l rest ih =>
    simp only [List.foldl_cons, ih, List.mem_cons]
    by_cases hl : l ∈ seen
    · simp only [hl, if_true]
      constructor
      · rintro (h | h)
        · exact Or.inl h
        · exact Or.inr (Or.inr h)
      · rintro (h | h | h)
        · exact Or.inl h
        · exact Or.inl (h ▸ hl)
        · exact Or.inr h
    · simp only [hl, if_false, List.mem_append, List.mem_singleton]
      tauto

theorem keysOf_str (labels : List String) :
    keysOf (labels.map JS.Value.str) = some labels := by
  induction labels with
  | nil => rfl
  | cons l rest ih => simp [keysOf, toText_str, ih]

theorem countOf_plain (counts : List (String × Tally)) (key : String)
    (hg : ∀ m ∈ counts, ∃ n, m.2 = .num n) (hk : key ∈ counts.map (fun m => m.1)) :
    countOf counts key = .num (numberOf counts key) := by
  cases hf : counts.find? (fun m => m.1 == key) with
  | none => exact absurd hk ((find_key_none counts key).mp hf)
  | some m =>
    obtain ⟨-, hm⟩ := find_key_some counts key m hf
    obtain ⟨n, hn⟩ := hg m hm
    obtain ⟨k, t⟩ := m
    simp only at hn
    subst hn
    simp [countOf, numberOf, hf]

/-- On labels none of which is a name of `Object.prototype` or an array index,
`getTopItems` gives the ranking of the specification: the distinct labels with their
numbers of occurrences, by non-increasing count, labels of equal count in the order of
their first appearance, cut to the first `n`. -/
theorem getTopItems_plain (labels : List String) (n : Nat)
    (h : ∀ l ∈ labels, plainLabel l = true) :
    getTopItems (labels.map JS.Value.str) n =
      some ((specTopItems labels n).map (fun e => { item := e.1, count := .num e.2 })) := by
  have hproto : ∀ l ∈ labels, l ∉ JS.objectPrototypeKeys := by
    intro l hl
    have := h l hl
    simp only [plainLabel, Bool.and_eq_true, decide_eq_true_eq] at this
    exact this.1
  have hindex : ∀ l ∈ labels, isArrayIndex l = false := by
    intro l hl
    have := h l hl
    simp only [plainLabel, Bool.and_eq_true, Bool.not_eq_true'] at this
    exact this.2
  obtain ⟨hkeys, hgood, hnum⟩ :=
    foldl_tallyStep_plain labels [] (fun m hm => by cases hm) hproto
  have hkeys2 : (tally labels).map (fun m => m.1) = firstSeen labels := hkeys
  have hnum2 : ∀ k, numberOf (tally labels) k = labels.count k := by
    intro k
    have := hnum k
    simpa [numberOf] using this
  have hsub : ∀ k ∈ firstSeen labels, k ∈ labels := by
    intro k hk
    rcases (mem_foldl_seen labels [] k).mp hk with hk | hk
    · cases hk
    · exact hk
  have hown : ownKeys (tally labels) = firstSeen labels := by
    unfold ownKeys
    rw [hkeys2]
    have e1 : (firstSeen labels).filter isArrayIndex = [] := by
      rw [List.filter_eq_nil_iff]
      intro k hk
      rw [hindex k (hsub k hk)]
      decide
    have e2 : (firstSeen labels).filter (fun key => !isArrayIndex key) = firstSeen labels := by
      rw [List.filter_eq_self]
      intro k hk
      rw [hindex k (hsub k hk)]
      rfl
    rw [e1, e2]
    rfl
  have hcount : ∀ k ∈ firstSeen labels, countOf (tally labels) k = .num (labels.count k) := by
    intro k hk
    rw [countOf_plain (tally labels) k hgood (by rw [hkeys2]; exact hk), hnum2]
  have hrank : (rankedKeys (tally labels)).map (fun label => (label, labels.count label)) =
      ((firstSeen labels).map (fun label => (label, labels.count label))).insertionSort
        (fun a b => b.2 ≤ a.2) := by
    unfold rankedKeys
    rw [hown]
    apply List.map_insertionSort
    intro a ha b hb
    simp only [keepsOrder, hcount a ha, hcount b hb, decide_eq_true_eq]
  have hmem : ∀ k ∈ rankedKeys (tally labels), k ∈ firstSeen labels := by
    intro k hk
    unfold rankedKeys at hk
    rw [hown] at hk
    exact (List.mem_insertionSort _).mp hk
  simp only [getTopItems, keysOf_str, specTopItems, Option.some.injEq]
  rw [← hrank, ← List.map_take, List.map_map]
  apply List.map_congr_left
  intro k hk
  simp only [Function.comp]
  rw [hcount k (hmem k (List.mem_of_mem_take hk))]

/-! ## The summary of results with lists of emotions -/

theorem allEmotions_labels (results : List SentimentResult)
    (h : ∀ r ∈ results, isLabelList r.emotions = true) :
    ∃ emotions, allEmotions results = some emotions ∧ ∀ v ∈ emotions, isLabel v = true := by
  induction results with
  | nil => exact ⟨[], rfl, fun v hv => by cases hv⟩
  | cons r rest ih =>
    obtain ⟨more, hm, hl⟩ := ih (fun x hx => h x (List.mem_cons_of_mem r hx))
    have hr := h r (List.mem_cons_self r rest)
    cases he : r.emotions with
    | arr items =>
      rw [he] at hr
      simp only [isLabelList, List.all_eq_true] at hr
      refine ⟨items ++ more, by simp [allEmotions, he, JS.Value.elements, hm], ?_⟩
      intro v hv
      rcases List.mem_append.mp hv with hv | hv
      · exact hr v hv
      · exact hl v hv
    | _ =>
      rw [he] at hr
      simp [isLabelList] at hr

theorem getTopEmotions_labels (results : List SentimentResult) (topN : Nat)
    (h : ∀ r ∈ results, isLabelList r.emotions = true) :
    ∃ top, _getTopEmotions results topN = some top := by
  obtain ⟨emotions, he, hl⟩ := allEmotions_labels results h
  obtain ⟨keys, hk⟩ := keysOf_labels emotions hl
  exact ⟨_, by simp only [_getTopEmotions, he, hk]; rfl⟩

theorem percentage_eq (sentiments : List String) (label : String) (hne : sentiments ≠ []) :
    percentage sentiments label =
        .fin ((sentiments.count label : ℚ) / sentiments.length * 100) ∧
      (0 : ℚ) ≤ (sentiments.count label : ℚ) / sentiments.length * 100 ∧
      (sentiments.count label : ℚ) / sentiments.length * 100 ≤ 100 := by
  have hlen : 0 < sentiments.length := List.length_pos.mpr hne
  have hq : ((sentiments.length : ℕ) : ℚ) ≠ 0 := by exact_mod_cast hlen.ne'
  have hpos : (0 : ℚ) < sentiments.length := by exact_mod_cast hlen
  have hc : (sentiments.filter (fun s => s == label)).length = sentiments.count label := by
    rw [List.count, List.countP_eq_length_filter]
  have hle : (sentiments.count label : ℚ) ≤ sentiments.length := by
    exact_mod_cast List.count_le_length _ _
  refine ⟨?_, by positivity, ?_⟩
  · simp only [percentage, JS.Number.div, hq, if_false, number_mul_fin, hc]
  · rw [div_mul_eq_mul_div, div_le_iff₀ hpos]
    linarith

theorem foldl_add_fin (qs : List ℚ) (a : ℚ) (results : List SentimentResult)
    (h : results.map (fun r => r.confidence) = qs.map JS.Number.fin) :
    results.foldl (fun sum r => JS.Number.add sum r.confidence) (.fin a) = .fin (a + qs.sum) := by
  induction results generalizing qs a with
  | nil =>
    cases qs with
    | nil => simp
    | cons q qs => simp at h
  | cons r rest ih =>
    cases qs with
    | nil => simp at h
    | cons q qs =>
      simp only [List.map_cons, List.cons.injEq] at h
      simp only [List.foldl_cons, h.1, number_add_fin, List.sum_cons]
      rw [ih qs (a + q) h.2]
      congr 1
      ring

/-- For every non-empty list of results whose emotions are lists of strings,
`getSummaryStatistics` returns a summary: `total_feedback` is the number of results,
each sentiment class has the percentage `count / n * 100` of the results of that class,
between 0 and 100, and `average_confidence` is the sum of the confidences divided by
`n`. -/
theorem getSummaryStatistics_of_lists (now : Nat) (results : List SentimentResult)
    (hne : results ≠ []) (h : ∀ r ∈ results, isLabelList r.emotions = true) :
    ∃ stats, getSummaryStatistics now results = some (.summary stats) ∧
      stats.total_feedback = results.length ∧
      (∀ label, label ∈ ["positive", "negative", "neutral"] →
        (0 : ℚ) ≤ ((results.map (fun r => JS.toLowerCase r.sentiment)).count label : ℚ) /
            results.length * 100 ∧
          ((results.map (fun r => JS.toLowerCase r.sentiment)).count label : ℚ) /
            results.length * 100 ≤ 100) ∧
      stats.positive = .fin (((results.map (fun r => JS.toLowerCase r.sentiment)).count
        "positive" : ℚ) / results.length * 100) ∧
      stats.negative = .fin (((results.map (fun r => JS.toLowerCase r.sentiment)).count
        "negative" : ℚ) / results.length * 100) ∧
      stats.neutral = .fin (((results.map (fun r => JS.toLowerCase r.sentiment)).count
        "neutral" : ℚ) / results.length * 100) ∧
      ∀ qs : List ℚ, results.map (fun r => r.confidence) = qs.map JS.Number.fin →
        stats.average_confidence = .fin (qs.sum / results.length) := by
  obtain ⟨top, ht⟩ := getTopEmotions_labels results 5 h
  have hl : ¬ results.length = 0 := fun e => hne (List.length_eq_zero.mp e)
  have hs : results.map (fun r => JS.toLowerCase r.sentiment) ≠ [] := by
    simpa using hne
  have hp := fun label => percentage_eq (results.map (fun r => JS.toLowerCase r.sentiment))
    label hs
  simp only [List.length_map] at hp
  refine ⟨_, by simp only [getSummaryStatistics, hl, if_false, ht]; rfl, ?_, ?_, ?_, ?_, ?_, ?_⟩
  · simp
  · intro label _
    exact (hp label).2
  · exact (hp "positive").1
  · exact (hp "negative").1
  · exact (hp "neutral").1
  · intro qs hq
    have hq0 : ((results.length : ℕ) : ℚ) ≠ 0 := by exact_mod_cast hl
    simp only [foldl_add_fin qs 0 results hq, zero_add, List.length_map, JS.Number.div, hq0,
      if_false]
